import Mathlib

/-! # loggerv2: format detection and normalisation of log records

A shallow embedding of `internal/models`, `internal/parser` and
`internal/processor`.  Go strings are modelled by their sequence of runes
(`List Char`): every input is taken to be valid UTF-8 text.  Byte offsets, where
the source uses them, are computed from the UTF-8 width of each rune.
-/

namespace Loggerv2

/-- A Go string, as the list of its runes. -/
abbrev Str := List Char

/-! ## The parts of the Go standard library the program uses -/

namespace Go

/-- Length of a string in bytes (`len(s)`). -/
def byteLen : Str → Nat
  | [] => 0
  | c :: cs => c.utf8Size + byteLen cs

/-- The function `strings.HasPrefix`. -/
def HasPrefix (s pre : Str) : Bool := pre.isPrefixOf s

/-- The function `strings.Contains`. -/
def Contains : Str → Str → Bool
  | [], sub => sub.isPrefixOf []
  | c :: cs, sub => sub.isPrefixOf (c :: cs) || Contains cs sub

/-- Byte offset of the first occurrence of `sub` at or after a position whose
byte offset is `off`; `-1` when there is none. -/
def indexFrom (sub : Str) : Str → Nat → Int
  | [], off => if sub.isPrefixOf [] then (off : Int) else -1
  | c :: cs, off =>
    if sub.isPrefixOf (c :: cs) then (off : Int) else indexFrom sub cs (off + c.utf8Size)

/-- The function `strings.Index`: a byte offset, or `-1`. -/
def Index (s sub : Str) : Int := indexFrom sub s 0

/-- Runes of `s` whose first byte lies at an offset in `[lo, hi)`, `off` being
the offset of the head of the list. -/
def sliceFrom (lo hi : Nat) : Str → Nat → Str
  | [], _ => []
  | c :: cs, off =>
    if lo ≤ off ∧ off < hi then c :: sliceFrom lo hi cs (off + c.utf8Size)
    else sliceFrom lo hi cs (off + c.utf8Size)

/-- The slice expression `s[lo:hi]` for offsets on rune boundaries. -/
def slice (s : Str) (lo hi : Nat) : Str := sliceFrom lo hi s 0

/-- The predicate `unicode.IsSpace`: the runes with the White_Space property. -/
def isSpace (c : Char) : Bool :=
  let n := c.toNat
  (9 ≤ n && n ≤ 13) || n == 32 || n == 0x85 || n == 0xA0 || n == 0x1680 ||
  (0x2000 ≤ n && n ≤ 0x200A) || n == 0x2028 || n == 0x2029 || n == 0x202F ||
  n == 0x205F || n == 0x3000

/-- The function `strings.TrimLeftFunc(s, unicode.IsSpace)`. -/
def trimLeft : Str → Str
  | [] => []
  | c :: cs => if isSpace c then trimLeft cs else c :: cs

/-- The function `strings.TrimSpace`. -/
def TrimSpace (s : Str) : Str := (trimLeft (trimLeft s).reverse).reverse

/-- Lower-casing of one ASCII rune. -/
def asciiLower (c : Char) : Char :=
  if 65 ≤ c.toNat ∧ c.toNat ≤ 90 then Char.ofNat (c.toNat + 32) else c

/-- The function `unicode.ToLower`; `tbl` is the case table of the standard
library for the runes outside ASCII. -/
def toLowerRune (tbl : Char → Char) (c : Char) : Char :=
  if c.toNat < 128 then asciiLower c else tbl c

/-- The function `strings.ToLower`. -/
def ToLower (tbl : Char → Char) (s : Str) : Str := s.map (toLowerRune tbl)

/-- The errors of `strconv`. -/
inductive NumError where
  | invalid
  | outOfRange
  deriving DecidableEq, Repr

/-- Value of an ASCII decimal digit. -/
def digitVal (c : Char) : Option Nat :=
  if 48 ≤ c.toNat ∧ c.toNat ≤ 57 then some (c.toNat - 48) else none

/-- The digit loop of `strconv.ParseUint(s, 10, 64)`: it stops at the first rune
that is not a digit, and at the first digit that takes the value past
`2^64 - 1`. -/
def parseUintLoop : Str → Nat → Except NumError Nat
  | [], n => .ok n
  | c :: cs, n =>
    match digitVal c with
    | none => .error .invalid
    | some d => if n * 10 + d > 2 ^ 64 - 1 then .error .outOfRange else parseUintLoop cs (n * 10 + d)

/-- The function `strconv.ParseUint(s, 10, 64)`, returning the value and the
error as Go does (`2^64 - 1` on a range error, `0` on a syntax error). -/
def ParseUint (s : Str) : Nat × Option NumError :=
  match s with
  | [] => (0, some .invalid)
  | _ =>
    match parseUintLoop s 0 with
    | .ok n => (n, none)
    | .error .outOfRange => (2 ^ 64 - 1, some .outOfRange)
    | .error .invalid => (0, some .invalid)

/-- The function `strconv.ParseInt(s, 10, 64)`. -/
def ParseInt (s : Str) : Int × Option NumError :=
  match s with
  | [] => (0, some .invalid)
  | c :: cs =>
    let neg := c == '-'
    let body := if c == '+' || c == '-' then cs else c :: cs
    match ParseUint body with
    | (_, some .invalid) => (0, some .invalid)
    | (un, _) =>
      if !neg && un ≥ 2 ^ 63 then ((2 : Int) ^ 63 - 1, some .outOfRange)
      else if neg && un > 2 ^ 63 then (-(2 : Int) ^ 63, some .outOfRange)
      else (if neg then -(un : Int) else (un : Int), none)

/-- The function `strconv.Atoi` on a 64-bit platform; its fast path for short
inputs computes the same result as `ParseInt`. -/
def Atoi (s : Str) : Int × Option NumError := ParseInt s

/-- The function `strings.Split(s, sep)` for a separator of one rune. -/
def splitRune (sep : Char) : Str → List Str
  | [] => [[]]
  | c :: cs =>
    if c == sep then [] :: splitRune sep cs
    else
      match splitRune sep cs with
      | [] => [[c]]
      | p :: ps => (c :: p) :: ps

/-- The function `strings.ReplaceAll(s, old, new)` for a non-empty `old`:
`skip` runes of a match found earlier are still to be dropped. -/
def replaceAllFrom (old new : Str) : Str → Nat → Str
  | [], _ => []
  | _ :: cs, skip + 1 => replaceAllFrom old new cs skip
  | c :: cs, 0 =>
    if old.isPrefixOf (c :: cs) then new ++ replaceAllFrom old new cs (old.length - 1)
    else c :: replaceAllFrom old new cs 0

/-- The function `strings.ReplaceAll`. -/
def ReplaceAll (s old new : Str) : Str := replaceAllFrom old new s 0

/-- The function `strings.Join`. -/
def Join (parts : List Str) (sep : Str) : Str := List.intercalate sep parts

/-- Wrap-around of an arithmetic result to the range of `int64`. -/
def wrapInt64 (x : Int) : Int := (x + 2 ^ 63) % 2 ^ 64 - 2 ^ 63

/-- The verb `%d` of `fmt`. -/
def formatInt (n : Int) : Str :=
  if n < 0 then '-' :: (Nat.toDigits 10 n.natAbs) else Nat.toDigits 10 n.natAbs

/-- A Go `map[string]V`, as an association list with distinct keys. -/
abbrev GoMap (V : Type) := List (Str × V)

/-- The assignment `m[k] = v`. -/
def GoMap.set {V : Type} (m : GoMap V) (k : Str) (v : V) : GoMap V :=
  (k, v) :: m.filter (fun e => e.1 != k)

/-- The lookup `v, ok := m[k]`. -/
def GoMap.get? {V : Type} (m : GoMap V) (k : Str) : Option V := List.lookup k m

/-- The lookup `m[k]` of a string map, the zero value standing for a missing key. -/
def GoMap.getStr (m : GoMap Str) (k : Str) : Str := (List.lookup k m).getD []

/-- The keys of a map. -/
def GoMap.keys {V : Type} (m : GoMap V) : List Str := m.map Prod.fst

end Go

/-! ## The regular expressions of package `regexp`

Only the constructs that occur in the patterns of the repository are modelled:
the anchors, literals, one-rune classes, a repeated class (`*`, `+`, `+?`), a
greedy optional part, capture groups and concatenation.  Matching is the
leftmost-first (backtracking) search of `regexp`. -/

namespace regexp

/-- Abstract syntax of a pattern. -/
inductive Regex where
  | eps
  | bot
  | eot
  | chr (c : Char)
  | cls (p : Char → Bool)
  | rep (p : Char → Bool) (min : Nat) (greedy : Bool)
  | opt (r : Regex)
  | grp (i : Nat) (r : Regex)
  | seq (a b : Regex)

/-- Concatenation of a list of patterns. -/
def seqs : List Regex → Regex
  | [] => .eps
  | r :: rs => .seq r (seqs rs)

/-- Class `\d`. -/
def isDigit (c : Char) : Bool := 48 ≤ c.toNat && c.toNat ≤ 57

/-- Class `\w`. -/
def isWord (c : Char) : Bool :=
  isDigit c || (65 ≤ c.toNat && c.toNat ≤ 90) || (97 ≤ c.toNat && c.toNat ≤ 122) || c == '_'

/-- Class `\s`. -/
def isWs (c : Char) : Bool :=
  c == '\t' || c == '\n' || c.toNat == 12 || c == '\r' || c == ' '

/-- Class `\S`. -/
def notWs (c : Char) : Bool := !isWs c

/-- Class `.` (no flag `s`). -/
def notNL (c : Char) : Bool := c != '\n'

/-- Class `[^|]`. -/
def notPipe (c : Char) : Bool := c != '|'

/-- Class `[\d.]`. -/
def digitOrDot (c : Char) : Bool := isDigit c || c == '.'

/-- The texts of the capture groups; group 0 is the whole match, and a group
that took no part in the match has the empty text. -/
abbrev Caps := List Str

/-- A greedy repetition of a class followed by `k`: the longest run first. -/
def repGreedy {α : Type} (p : Char → Bool) (k : Str → Option α) : Nat → Str → Option α
  | min, [] => if min = 0 then k [] else none
  | min, c :: cs =>
    if p c then
      match repGreedy p k (min - 1) cs with
      | some x => some x
      | none => if min = 0 then k (c :: cs) else none
    else if min = 0 then k (c :: cs) else none

/-- A non-greedy repetition of a class followed by `k`: the shortest run first. -/
def repLazy {α : Type} (p : Char → Bool) (k : Str → Option α) : Nat → Str → Option α
  | min, [] => if min = 0 then k [] else none
  | min, c :: cs =>
    if min = 0 then
      match k (c :: cs) with
      | some x => some x
      | none => if p c then repLazy p k 0 cs else none
    else if p c then repLazy p k (min - 1) cs else none

/-- Backtracking matcher: `run n r k s caps` matches `r` at the front of the
remaining input `s` (the whole input has `n` runes) and hands what is left to
`k`; the first success in the order of preference of `regexp` is the result. -/
def run (n : Nat) : Regex → (Str → Caps → Option Caps) → Str → Caps → Option Caps
  | .eps, k, s, c => k s c
  | .bot, k, s, c => if s.length = n then k s c else none
  | .eot, k, s, c => if s.isEmpty then k s c else none
  | .chr a, k, s, c =>
    match s with
    | x :: xs => if x = a then k xs c else none
    | [] => none
  | .cls p, k, s, c =>
    match s with
    | x :: xs => if p x then k xs c else none
    | [] => none
  | .rep p min true, k, s, c => repGreedy p (fun s' => k s' c) min s
  | .rep p min false, k, s, c => repLazy p (fun s' => k s' c) min s
  | .opt r, k, s, c =>
    match run n r k s c with
    | some x => some x
    | none => k s c
  | .grp i r, k, s, c =>
    run n r (fun s' c' => k s' (c'.set i (s.take (s.length - s'.length)))) s c
  | .seq a b, k, s, c => run n a (run n b k) s c

/-- Try a match at the head of each suffix, leftmost first. -/
def searchFrom (n : Nat) (r : Regex) (init : Caps) : Str → Option Caps
  | [] => run n r (fun _ c => some c) [] init
  | x :: xs =>
    match run n r (fun _ c => some c) (x :: xs) init with
    | some c => some c
    | none => searchFrom n r init xs

/-- The method `FindStringSubmatch` of a pattern with `groups` capture groups:
`none` stands for the nil slice. -/
def FindStringSubmatch (r : Regex) (groups : Nat) (s : Str) : Option Caps :=
  searchFrom s.length (.grp 0 r) (List.replicate (groups + 1) []) s

/-- The element `match[i]`. -/
def sub (m : Caps) (i : Nat) : Str := m.getD i []

end regexp

/-! ## internal/models -/

namespace models

/-- Origin of an event. -/
structure Source where
  Hostname : Str := []
  IPAddress : Str := []
  Application : Str := []
  Process : Str := []
  ProcessID : Int := 0
  deriving DecidableEq, Repr

/-- An account. -/
structure Account where
  Username : Str := []
  Domain : Str := []
  UserID : Str := []
  deriving DecidableEq, Repr

/-- The values the parsers store in `AdditionalData` (`interface{}`): strings
and integers. -/
inductive Value where
  | str (s : Str)
  | int (n : Int)
  deriving DecidableEq, Repr

/-- The canonical event; `Time` stands for `time.Time`. -/
structure GOSTEvent (Time : Type) where
  EventID : Str
  Timestamp : Time
  Source : Source
  Category : Str
  Severity : Str
  Description : Str
  AdditionalData : Go.GoMap Value := []
  SubjectAccount : Option Account := none
  ObjectAccount : Option Account := none
  Result : Str
  Action : Str := []

def SeverityCritical : Str := "КРИТИЧЕСКИЙ".toList
def SeverityHigh : Str := "ВЫСОКИЙ".toList
def SeverityMedium : Str := "СРЕДНИЙ".toList
def SeverityLow : Str := "НИЗКИЙ".toList
def SeverityInfo : Str := "ИНФОРМАЦИОННЫЙ".toList

def ResultSuccess : Str := "УСПЕХ".toList
def ResultFailure : Str := "НЕУСПЕХ".toList
def ResultUnknown : Str := "НЕИЗВЕСТНО".toList

def CategoryAuthentication : Str := "АУТЕНТИФИКАЦИЯ".toList
def CategoryAuthorization : Str := "АВТОРИЗАЦИЯ".toList
def CategoryAccess : Str := "ДОСТУП".toList
def CategoryDataModification : Str := "ИЗМЕНЕНИЕ_ДАННЫХ".toList
def CategorySystemEvent : Str := "СИСТЕМНОЕ_СОБЫТИЕ".toList
def CategorySecurityEvent : Str := "СОБЫТИЕ_БЕЗОПАСНОСТИ".toList
def CategoryNetworkEvent : Str := "СЕТЕВОЕ_СОБЫТИЕ".toList

end models

/-! ## internal/parser -/

namespace parser

open Go regexp models

/-- The errors returned by the parsers and the processor. -/
inductive Error where
  | unsupportedSyslog
  | invalidCEF
  | invalidLEEF
  | xmlDecode (cause : Str)
  | unknownLogType
  | line (n : Int) (cause : Error)
  deriving DecidableEq, Repr

/-- The element `Provider` of an XML event. -/
structure Provider where
  Name : Str := []
  Guid : Str := []
  deriving DecidableEq, Repr

/-- The element `Data` of an XML event. -/
structure Data where
  Name : Str := []
  Value : Str := []
  deriving DecidableEq, Repr

/-- The element `System` of an XML event (`TimeCreated`, `Correlation`,
`Execution` and `Security` by their one attribute each). -/
structure System where
  Provider : Provider := {}
  EventID : Int := 0
  Version : Int := 0
  Level : Int := 0
  Task : Int := 0
  Opcode : Int := 0
  Keywords : Str := []
  TimeCreatedSystemTime : Str := []
  EventRecordID : Int := 0
  CorrelationActivityID : Str := []
  ExecutionProcessID : Int := 0
  ExecutionThreadID : Int := 0
  Channel : Str := []
  Computer : Str := []
  SecurityUserID : Str := []
  deriving DecidableEq, Repr

/-- The decoded XML document. -/
structure Event where
  System : System := {}
  EventData : List Data := []
  deriving DecidableEq, Repr

/-- The library functions the parsers call and whose code is not part of the
repository: the case table of `unicode`, package `time` and the decoder of
`encoding/xml`. -/
structure Lib (Time : Type) where
  /-- The function `unicode.ToLower` outside ASCII. -/
  unicodeLower : Char → Char
  /-- The function `time.Parse(layout, value)`; `none` stands for an error. -/
  timeParse : Str → Str → Option Time
  /-- The method `t.AddDate(years, 0, 0)`. -/
  addYears : Time → Int → Time
  /-- The method `t.Year()`. -/
  year : Time → Int
  /-- The function `time.Unix(0, nsec)`. -/
  unixNano : Int → Time
  /-- Decoding of a document into an `Event` by `xml.NewDecoder(..).Decode`. -/
  xmlDecode : Str → Except Str Event

/-- What one call of a parser reads from its environment: the clock and the
fresh identifier of `uuid.New().String()`. -/
structure Call (Time : Type) where
  now : Time
  uuid : Str

/-- Pattern `^<(\d+)>(\w+\s+\d+\s+\d+:\d+:\d+)\s+(\S+)\s+(\S+?)(\[(\d+)\])?:\s+(.*)$`. -/
def RFC3164Pattern : Regex :=
  seqs [.bot, .chr '<', .grp 1 (.rep isDigit 1 true), .chr '>',
    .grp 2 (seqs [.rep isWord 1 true, .rep isWs 1 true, .rep isDigit 1 true, .rep isWs 1 true,
      .rep isDigit 1 true, .chr ':', .rep isDigit 1 true, .chr ':', .rep isDigit 1 true]),
    .rep isWs 1 true, .grp 3 (.rep notWs 1 true), .rep isWs 1 true,
    .grp 4 (.rep notWs 1 false),
    .opt (.grp 5 (seqs [.chr '[', .grp 6 (.rep isDigit 1 true), .chr ']'])),
    .chr ':', .rep isWs 1 true, .grp 7 (.rep notNL 0 true), .eot]

/-- Pattern `^<(\d+)>(\d+)\s+(\S+)\s+(\S+)\s+(\S+)\s+(\S+)\s+(\S+)\s+(\S+)\s+(.*)$`. -/
def RFC5424Pattern : Regex :=
  seqs [.bot, .chr '<', .grp 1 (.rep isDigit 1 true), .chr '>', .grp 2 (.rep isDigit 1 true),
    .rep isWs 1 true, .grp 3 (.rep notWs 1 true),
    .rep isWs 1 true, .grp 4 (.rep notWs 1 true),
    .rep isWs 1 true, .grp 5 (.rep notWs 1 true),
    .rep isWs 1 true, .grp 6 (.rep notWs 1 true),
    .rep isWs 1 true, .grp 7 (.rep notWs 1 true),
    .rep isWs 1 true, .grp 8 (.rep notWs 1 true),
    .rep isWs 1 true, .grp 9 (.rep notNL 0 true), .eot]

/-- Pattern `^CEF:(\d+)\|([^|]*)\|([^|]*)\|([^|]*)\|([^|]*)\|([^|]*)\|([^|]*)\|(.*)$`. -/
def cefPattern : Regex :=
  seqs [.bot, .chr 'C', .chr 'E', .chr 'F', .chr ':', .grp 1 (.rep isDigit 1 true), .chr '|',
    .grp 2 (.rep notPipe 0 true), .chr '|', .grp 3 (.rep notPipe 0 true), .chr '|',
    .grp 4 (.rep notPipe 0 true), .chr '|', .grp 5 (.rep notPipe 0 true), .chr '|',
    .grp 6 (.rep notPipe 0 true), .chr '|', .grp 7 (.rep notPipe 0 true), .chr '|',
    .grp 8 (.rep notNL 0 true), .eot]

/-- Pattern `^LEEF:([\d.]+)\|([^|]*)\|([^|]*)\|([^|]*)\|([^|]*)\|(.*)$`. -/
def leefPattern : Regex :=
  seqs [.bot, .chr 'L', .chr 'E', .chr 'E', .chr 'F', .chr ':', .grp 1 (.rep digitOrDot 1 true),
    .chr '|', .grp 2 (.rep notPipe 0 true), .chr '|', .grp 3 (.rep notPipe 0 true), .chr '|',
    .grp 4 (.rep notPipe 0 true), .chr '|', .grp 5 (.rep notPipe 0 true), .chr '|',
    .grp 6 (.rep notNL 0 true), .eot]

/-! ### syslog.go -/

namespace SyslogParser

/-- Method `mapSyslogSeverityToGOST`; `%` is the truncated remainder of Go. -/
def mapSyslogSeverityToGOST (priority : Int) : Str :=
  let severity := Int.tmod priority 8
  if severity = 0 ∨ severity = 1 ∨ severity = 2 then SeverityCritical
  else if severity = 3 then SeverityHigh
  else if severity = 4 then SeverityMedium
  else if severity = 5 ∨ severity = 6 then SeverityLow
  else if severity = 7 then SeverityInfo
  else SeverityInfo

/-- Method `categorizeSyslogMessage`. -/
def categorizeSyslogMessage (tbl : Char → Char) (message : Str) : Str :=
  let messageLower := ToLower tbl message
  if Contains messageLower "login".toList || Contains messageLower "auth".toList then
    CategoryAuthentication
  else if Contains messageLower "access".toList || Contains messageLower "denied".toList then
    CategoryAccess
  else if Contains messageLower "network".toList || Contains messageLower "connection".toList then
    CategoryNetworkEvent
  else if Contains messageLower "security".toList || Contains messageLower "breach".toList then
    CategorySecurityEvent
  else CategorySystemEvent

/-- Method `parseRFC3164`. -/
def parseRFC3164 {Time : Type} (lib : Lib Time) (call : Call Time) (m : Caps) :
    Except Error (GOSTEvent Time) :=
  let priority := (Atoi (sub m 1)).1
  let timestamp := sub m 2
  let hostname := sub m 3
  let appName := sub m 4
  let processID : Int := if sub m 6 ≠ [] then (Atoi (sub m 6)).1 else 0
  let message := sub m 7
  let parsedTime :=
    match lib.timeParse "Jan 2 15:04:05".toList timestamp with
    | none => call.now
    | some t => lib.addYears t (lib.year call.now)
  let event : GOSTEvent Time :=
    { EventID := call.uuid
      Timestamp := parsedTime
      Description := message
      Source := { Hostname := hostname, Application := appName, ProcessID := processID }
      Severity := mapSyslogSeverityToGOST priority
      Category := categorizeSyslogMessage lib.unicodeLower message
      Result := ResultUnknown
      AdditionalData := [] }
  let ad := event.AdditionalData.set "syslog_priority".toList (.int priority)
  let ad := ad.set "syslog_facility".toList (.int (Int.tdiv priority 8))
  let ad := ad.set "syslog_severity".toList (.int (Int.tmod priority 8))
  .ok { event with AdditionalData := ad }

/-- Method `parseRFC5424`. -/
def parseRFC5424 {Time : Type} (lib : Lib Time) (call : Call Time) (m : Caps) :
    Except Error (GOSTEvent Time) :=
  let priority := (Atoi (sub m 1)).1
  let version := sub m 2
  let timestamp := sub m 3
  let hostname := sub m 4
  let appName := sub m 5
  let procID := sub m 6
  let msgID := sub m 7
  let message := sub m 9
  let parsedTime :=
    match lib.timeParse "2006-01-02T15:04:05Z07:00".toList timestamp with
    | none => call.now
    | some t => t
  let processID : Int := if procID ≠ "-".toList then (Atoi procID).1 else 0
  let event : GOSTEvent Time :=
    { EventID := call.uuid
      Timestamp := parsedTime
      Description := message
      Source := { Hostname := hostname, Application := appName, ProcessID := processID }
      Severity := mapSyslogSeverityToGOST priority
      Category := categorizeSyslogMessage lib.unicodeLower message
      Result := ResultUnknown
      AdditionalData := [] }
  let ad := event.AdditionalData.set "syslog_priority".toList (.int priority)
  let ad := ad.set "syslog_facility".toList (.int (Int.tdiv priority 8))
  let ad := ad.set "syslog_severity".toList (.int (Int.tmod priority 8))
  let ad := ad.set "syslog_version".toList (.str version)
  let ad := ad.set "syslog_msgid".toList (.str msgID)
  .ok { event with AdditionalData := ad }

/-- Method `Parse`: RFC 5424 first, then RFC 3164. -/
def Parse {Time : Type} (lib : Lib Time) (call : Call Time) (logLine : Str) :
    Except Error (GOSTEvent Time) :=
  match FindStringSubmatch RFC5424Pattern 9 logLine with
  | some m => parseRFC5424 lib call m
  | none =>
    match FindStringSubmatch RFC3164Pattern 7 logLine with
    | some m => parseRFC3164 lib call m
    | none => .error .unsupportedSyslog

end SyslogParser

/-! ### cef.go -/

namespace CEFParser

/-- The loop body of `parseExtensions` over the parts of the split. -/
def parseExtensionsLoop : List Str → GoMap Str → GoMap Str
  | [], extensions => extensions
  | part :: parts, extensions =>
    let idx := Index part "=".toList
    if idx ≠ -1 then
      let key := slice part 0 idx.toNat
      let value := slice part (idx.toNat + 1) (byteLen part)
      parseExtensionsLoop parts (extensions.set key value)
    else parseExtensionsLoop parts extensions

/-- Method `parseExtensions`. -/
def parseExtensions (extension : Str) : GoMap Str :=
  parseExtensionsLoop (splitRune ' ' extension) []

/-- First layout of the list under which `time.Parse` accepts `ts`. -/
def firstLayout {Time : Type} (lib : Lib Time) (ts : Str) : List Str → Option Time
  | [] => none
  | format :: formats =>
    match lib.timeParse format ts with
    | some t => some t
    | none => firstLayout lib ts formats

/-- Method `parseTimestamp`; `none` stands for the error. -/
def parseTimestamp {Time : Type} (lib : Lib Time) (ts : Str) : Option Time :=
  match firstLayout lib ts ["2006-01-02T15:04:05Z07:00".toList, "Jan 02 2006 15:04:05".toList,
      "2006-01-02 15:04:05".toList, "1136239445000".toList] with
  | some t => some t
  | none =>
    match ParseInt ts with
    | (msec, none) => some (lib.unixNano (wrapInt64 (msec * 1000000)))
    | (_, some _) => none

/-- Method `mapCEFSeverityToGOST`. -/
def mapCEFSeverityToGOST (severity : Str) : Str :=
  match Atoi severity with
  | (_, some _) => SeverityInfo
  | (sev, none) =>
    if sev ≥ 8 then SeverityCritical
    else if sev ≥ 6 then SeverityHigh
    else if sev ≥ 4 then SeverityMedium
    else if sev ≥ 2 then SeverityLow
    else SeverityInfo

/-- Method `categorizeCEFEvent`. -/
def categorizeCEFEvent (tbl : Char → Char) (_signatureID name : Str) (_extensions : GoMap Str) :
    Str :=
  let nameLower := ToLower tbl name
  if Contains nameLower "login".toList || Contains nameLower "logon".toList ||
      Contains nameLower "authentication".toList then CategoryAuthentication
  else if Contains nameLower "access".toList || Contains nameLower "denied".toList ||
      Contains nameLower "permission".toList then CategoryAccess
  else if Contains nameLower "modify".toList || Contains nameLower "change".toList ||
      Contains nameLower "update".toList || Contains nameLower "delete".toList then
    CategoryDataModification
  else if Contains nameLower "network".toList || Contains nameLower "connection".toList ||
      Contains nameLower "firewall".toList then CategoryNetworkEvent
  else if Contains nameLower "security".toList || Contains nameLower "threat".toList ||
      Contains nameLower "attack".toList || Contains nameLower "malware".toList then
    CategorySecurityEvent
  else CategorySystemEvent

/-- The second half of `determineResult`: the extension `act`. -/
def resultFromAct (tbl : Char → Char) (extensions : GoMap Str) : Str :=
  match extensions.get? "act".toList with
  | some act =>
    let actLower := ToLower tbl act
    if Contains actLower "allow".toList || Contains actLower "permit".toList then ResultSuccess
    else if Contains actLower "block".toList || Contains actLower "deny".toList then ResultFailure
    else ResultUnknown
  | none => ResultUnknown

/-- Method `determineResult`. -/
def determineResult (tbl : Char → Char) (extensions : GoMap Str) : Str :=
  match extensions.get? "outcome".toList with
  | some outcome =>
    let outcomeLower := ToLower tbl outcome
    if Contains outcomeLower "success".toList then ResultSuccess
    else if Contains outcomeLower "fail".toList || Contains outcomeLower "deny".toList then
      ResultFailure
    else resultFromAct tbl extensions
  | none => resultFromAct tbl extensions

/-- Method `getExtensionValue`. -/
def getExtensionValue (extensions : GoMap Str) : List Str → Str
  | [] => []
  | key :: keys =>
    match extensions.get? key with
    | some val => if val ≠ [] then val else getExtensionValue extensions keys
    | none => getExtensionValue extensions keys

/-- The loop `for k, v := range extensions` of `Parse`, which stores every
extension under the key `"cef_"+k`. -/
def copyExtensions : List (Str × Str) → GoMap Value → GoMap Value
  | [], ad => ad
  | (k, v) :: rest, ad => copyExtensions rest (ad.set ("cef_".toList ++ k) (.str v))

/-- Method `Parse`. -/
def Parse {Time : Type} (lib : Lib Time) (call : Call Time) (logLine : Str) :
    Except Error (GOSTEvent Time) :=
  match FindStringSubmatch cefPattern 8 logLine with
  | none => .error .invalidCEF
  | some m =>
    let version := sub m 1
    let deviceVendor := sub m 2
    let deviceProduct := sub m 3
    let deviceVersion := sub m 4
    let signatureID := sub m 5
    let name := sub m 6
    let severity := sub m 7
    let extension := sub m 8
    let extensions := parseExtensions extension
    let timestamp :=
      match extensions.get? "rt".toList with
      | some rt => (parseTimestamp lib rt).getD call.now
      | none =>
        match extensions.get? "end".toList with
        | some end_ => (parseTimestamp lib end_).getD call.now
        | none => call.now
    let event : GOSTEvent Time :=
      { EventID := call.uuid
        Timestamp := timestamp
        Description := name
        Source :=
          { Hostname := getExtensionValue extensions ["dvc".toList, "shost".toList, "dvchost".toList]
            Application := deviceVendor ++ " ".toList ++ deviceProduct
            IPAddress := getExtensionValue extensions ["src".toList, "dst".toList] }
        Severity := mapCEFSeverityToGOST severity
        Category := categorizeCEFEvent lib.unicodeLower signatureID name extensions
        Result := determineResult lib.unicodeLower extensions
        AdditionalData := [] }
    let ad := event.AdditionalData.set "cef_version".toList (.str version)
    let ad := ad.set "device_vendor".toList (.str deviceVendor)
    let ad := ad.set "device_product".toList (.str deviceProduct)
    let ad := ad.set "device_version".toList (.str deviceVersion)
    let ad := ad.set "signature_id".toList (.str signatureID)
    let ad := ad.set "cef_severity".toList (.str severity)
    let subject : Option Account :=
      match extensions.get? "suser".toList with
      | some suser => some { Username := suser, Domain := extensions.getStr "sdomain".toList }
      | none => event.SubjectAccount
    let object : Option Account :=
      match extensions.get? "duser".toList with
      | some duser => some { Username := duser, Domain := extensions.getStr "ddomain".toList }
      | none => event.ObjectAccount
    let ad := copyExtensions extensions ad
    let action :=
      match extensions.get? "act".toList with
      | some act => act
      | none => event.Action
    .ok { event with
      AdditionalData := ad, SubjectAccount := subject, ObjectAccount := object, Action := action }

end CEFParser

/-! ### leef.go -/

namespace LEEFParser

/-- The loop body of `parseAttributes` over the parts of the split. -/
def parseAttributesLoop : List Str → GoMap Str → GoMap Str
  | [], attrs => attrs
  | part :: parts, attrs =>
    let idx := Index part "=".toList
    if idx ≠ -1 then
      let key := TrimSpace (slice part 0 idx.toNat)
      let value := TrimSpace (slice part (idx.toNat + 1) (byteLen part))
      parseAttributesLoop parts (attrs.set key value)
    else parseAttributesLoop parts attrs

/-- Method `parseAttributes`. -/
def parseAttributes (attributes version : Str) : GoMap Str :=
  let delimiter : Str :=
    if version = "2.0".toList then
      if Contains attributes "x09".toList then "x09".toList
      else if Contains attributes "^".toList then "^".toList
      else "\t".toList
    else "\t".toList
  let parts : List Str :=
    if delimiter = "x09".toList then
      splitRune '\t' (ReplaceAll attributes "x09".toList "\t".toList)
    else if delimiter = "^".toList then splitRune '^' attributes
    else splitRune '\t' attributes
  parseAttributesLoop parts []

/-- Method `parseTimestamp`; `none` stands for the error. -/
def parseTimestamp {Time : Type} (lib : Lib Time) (ts : Str) : Option Time :=
  CEFParser.firstLayout lib ts ["2006-01-02T15:04:05Z07:00".toList, "2006-01-02 15:04:05".toList,
    "Jan 02 2006 15:04:05".toList, "MMM dd yyyy HH:mm:ss".toList]

/-- Method `mapLEEFSeverityToGOST`. -/
def mapLEEFSeverityToGOST (tbl : Char → Char) (attrs : GoMap Str) : Str :=
  match attrs.get? "sev".toList with
  | some sev =>
    let sevLower := ToLower tbl sev
    if Contains sevLower "critical".toList || Contains sevLower "fatal".toList ||
        sev = "10".toList then SeverityCritical
    else if Contains sevLower "high".toList || Contains sevLower "error".toList ||
        sev = "8".toList || sev = "7".toList then SeverityHigh
    else if Contains sevLower "medium".toList || Contains sevLower "warn".toList ||
        sev = "5".toList || sev = "6".toList then SeverityMedium
    else if Contains sevLower "low".toList || sev = "3".toList || sev = "4".toList then
      SeverityLow
    else if Contains sevLower "info".toList || sev = "1".toList || sev = "2".toList then
      SeverityInfo
    else SeverityInfo
  | none => SeverityInfo

/-- The second half of `categorizeLEEFEvent`: the event id. -/
def categoryFromEventID (eventIDLower : Str) : Str :=
  if Contains eventIDLower "login".toList || Contains eventIDLower "auth".toList then
    CategoryAuthentication
  else if Contains eventIDLower "access".toList || Contains eventIDLower "permission".toList then
    CategoryAccess
  else if Contains eventIDLower "modify".toList || Contains eventIDLower "change".toList then
    CategoryDataModification
  else if Contains eventIDLower "network".toList || Contains eventIDLower "connection".toList then
    CategoryNetworkEvent
  else if Contains eventIDLower "security".toList || Contains eventIDLower "threat".toList then
    CategorySecurityEvent
  else CategorySystemEvent

/-- Method `categorizeLEEFEvent`. -/
def categorizeLEEFEvent (tbl : Char → Char) (eventID : Str) (attrs : GoMap Str) : Str :=
  let eventIDLower := ToLower tbl eventID
  match attrs.get? "cat".toList with
  | some cat =>
    let catLower := ToLower tbl cat
    if Contains catLower "auth".toList then CategoryAuthentication
    else if Contains catLower "access".toList then CategoryAccess
    else if Contains catLower "network".toList then CategoryNetworkEvent
    else categoryFromEventID eventIDLower
  | none => categoryFromEventID eventIDLower

/-- The second half of `determineResult`: the attribute `action`. -/
def resultFromAction (tbl : Char → Char) (attrs : GoMap Str) : Str :=
  match attrs.get? "action".toList with
  | some action =>
    let actionLower := ToLower tbl action
    if Contains actionLower "allow".toList || Contains actionLower "permit".toList then
      ResultSuccess
    else if Contains actionLower "block".toList || Contains actionLower "deny".toList then
      ResultFailure
    else ResultUnknown
  | none => ResultUnknown

/-- Method `determineResult`. -/
def determineResult (tbl : Char → Char) (attrs : GoMap Str) : Str :=
  match attrs.get? "result".toList with
  | some result =>
    let resultLower := ToLower tbl result
    if Contains resultLower "success".toList || Contains resultLower "allow".toList then
      ResultSuccess
    else if Contains resultLower "fail".toList || Contains resultLower "deny".toList then
      ResultFailure
    else resultFromAction tbl attrs
  | none => resultFromAction tbl attrs

/-- Method `getAttributeValue`. -/
def getAttributeValue (attrs : GoMap Str) : List Str → Str
  | [] => []
  | key :: keys =>
    match attrs.get? key with
    | some val => if val ≠ [] then val else getAttributeValue attrs keys
    | none => getAttributeValue attrs keys

/-- The loop `for k, v := range attrs` of `Parse`, which stores every attribute
under the key `"leef_"+k`. -/
def copyAttributes : List (Str × Str) → GoMap Value → GoMap Value
  | [], ad => ad
  | (k, v) :: rest, ad => copyAttributes rest (ad.set ("leef_".toList ++ k) (.str v))

/-- Method `Parse`. -/
def Parse {Time : Type} (lib : Lib Time) (call : Call Time) (logLine : Str) :
    Except Error (GOSTEvent Time) :=
  match FindStringSubmatch leefPattern 6 logLine with
  | none => .error .invalidLEEF
  | some m =>
    let version := sub m 1
    let vendor := sub m 2
    let product := sub m 3
    let productVersion := sub m 4
    let eventID := sub m 5
    let attributes := sub m 6
    let attrs := parseAttributes attributes version
    let timestamp :=
      match attrs.get? "devTime".toList with
      | some devTime => (parseTimestamp lib devTime).getD call.now
      | none => call.now
    let event : GOSTEvent Time :=
      { EventID := call.uuid
        Timestamp := timestamp
        Description := getAttributeValue attrs ["usrName".toList, "msg".toList, "eventId".toList]
        Source :=
          { Hostname :=
              getAttributeValue attrs ["devName".toList, "srcHostName".toList, "dstHostName".toList]
            Application := vendor ++ " ".toList ++ product
            IPAddress := getAttributeValue attrs ["src".toList, "dst".toList] }
        Severity := mapLEEFSeverityToGOST lib.unicodeLower attrs
        Category := categorizeLEEFEvent lib.unicodeLower eventID attrs
        Result := determineResult lib.unicodeLower attrs
        AdditionalData := [] }
    let ad := event.AdditionalData.set "leef_version".toList (.str version)
    let ad := ad.set "vendor".toList (.str vendor)
    let ad := ad.set "product".toList (.str product)
    let ad := ad.set "product_version".toList (.str productVersion)
    let ad := ad.set "event_id".toList (.str eventID)
    let subject : Option Account :=
      match attrs.get? "srcUser".toList with
      | some srcUser => some { Username := srcUser, Domain := attrs.getStr "srcDomain".toList }
      | none =>
        match attrs.get? "usrName".toList with
        | some usrName => some { Username := usrName }
        | none => event.SubjectAccount
    let object : Option Account :=
      match attrs.get? "dstUser".toList with
      | some dstUser => some { Username := dstUser, Domain := attrs.getStr "dstDomain".toList }
      | none => event.ObjectAccount
    let ad := copyAttributes attrs ad
    let action :=
      match attrs.get? "action".toList with
      | some action => action
      | none =>
        match attrs.get? "cat".toList with
        | some cat => cat
        | none => event.Action
    .ok { event with
      AdditionalData := ad, SubjectAccount := subject, ObjectAccount := object, Action := action }

end LEEFParser

/-! ### xml.go -/

namespace XMLParser

/-- The parts `"Name: Value"` collected by the loop of `buildDescription`. -/
def descriptionParts : List Data → List Str
  | [] => []
  | data :: rest =>
    if data.Value ≠ [] then (data.Name ++ ": ".toList ++ data.Value) :: descriptionParts rest
    else descriptionParts rest

/-- Method `buildDescription`. -/
def buildDescription (event : Event) : Str :=
  let fallback :=
    "Event ID ".toList ++ formatInt event.System.EventID ++ " from ".toList ++
      event.System.Provider.Name
  if event.EventData.length > 0 then
    let parts := descriptionParts event.EventData
    if parts.length > 0 then Join parts "; ".toList else fallback
  else fallback

/-- Method `mapXMLLevelToGOST`. -/
def mapXMLLevelToGOST (level : Int) : Str :=
  if level = 1 then SeverityCritical
  else if level = 2 then SeverityHigh
  else if level = 3 then SeverityMedium
  else if level = 4 then SeverityInfo
  else if level = 5 then SeverityLow
  else SeverityInfo

/-- Method `categorizeXMLEvent`. -/
def categorizeXMLEvent (tbl : Char → Char) (event : Event) : Str :=
  let eventID := event.System.EventID
  let channel := ToLower tbl event.System.Channel
  let providerName := ToLower tbl event.System.Provider.Name
  if eventID ≥ 4624 ∧ eventID ≤ 4634 then CategoryAuthentication
  else if eventID ≥ 4720 ∧ eventID ≤ 4767 then CategoryAuthorization
  else if eventID ≥ 4660 ∧ eventID ≤ 4663 then CategoryAccess
  else if eventID ≥ 4670 ∧ eventID ≤ 4690 then CategoryDataModification
  else if Contains channel "security".toList || Contains providerName "security".toList then
    CategorySecurityEvent
  else if Contains channel "system".toList || Contains providerName "system".toList then
    CategorySystemEvent
  else if Contains channel "application".toList then CategorySystemEvent
  else CategorySystemEvent

/-- The loop of `determineResult` over the pairs of `EventData`: the result it
returns, or `none` when it runs to its end. -/
def resultFromData (tbl : Char → Char) : List Data → Option Str
  | [] => none
  | data :: rest =>
    let nameLower := ToLower tbl data.Name
    let valueLower := ToLower tbl data.Value
    if Contains nameLower "status".toList || Contains nameLower "result".toList then
      if Contains valueLower "success".toList || valueLower = "0".toList ||
          valueLower = "0x0".toList then some ResultSuccess
      else if Contains valueLower "fail".toList || Contains valueLower "error".toList then
        some ResultFailure
      else resultFromData tbl rest
    else resultFromData tbl rest

/-- Method `determineResult`. -/
def determineResult (tbl : Char → Char) (event : Event) : Str :=
  match resultFromData tbl event.EventData with
  | some r => r
  | none =>
    if event.System.Level = 1 ∨ event.System.Level = 2 then ResultFailure
    else
      let eventID := event.System.EventID
      if (eventID ≥ 4624 ∧ eventID ≤ 4625) ∨ (eventID ≥ 4634 ∧ eventID ≤ 4647) then
        if eventID = 4625 then ResultFailure else ResultSuccess
      else ResultUnknown

/-- Method `enrichEventFromEventData`. -/
def enrichEventFromEventData {Time : Type} (tbl : Char → Char) :
    GOSTEvent Time → List Data → GOSTEvent Time
  | gostEvent, [] => gostEvent
  | gostEvent, d :: rest =>
    let nameLower := ToLower tbl d.Name
    if Contains nameLower "targetusername".toList ||
        Contains nameLower "subjectusername".toList then
      let acc := gostEvent.SubjectAccount.getD {}
      enrichEventFromEventData tbl
        { gostEvent with SubjectAccount := some { acc with Username := d.Value } } rest
    else if Contains nameLower "targetdomainname".toList ||
        Contains nameLower "subjectdomainname".toList then
      let acc := gostEvent.SubjectAccount.getD {}
      enrichEventFromEventData tbl
        { gostEvent with SubjectAccount := some { acc with Domain := d.Value } } rest
    else if Contains nameLower "ipaddress".toList ||
        Contains nameLower "workstationname".toList then
      if gostEvent.Source.IPAddress = [] then
        enrichEventFromEventData tbl
          { gostEvent with Source := { gostEvent.Source with IPAddress := d.Value } } rest
      else enrichEventFromEventData tbl gostEvent rest
    else if Contains nameLower "processname".toList then
      enrichEventFromEventData tbl
        { gostEvent with Source := { gostEvent.Source with Process := d.Value } } rest
    else enrichEventFromEventData tbl gostEvent rest

/-- The loop of `Parse` that stores every named pair of `EventData` under the
key `"xml_"+Name`. -/
def copyEventData : List Data → GoMap Value → GoMap Value
  | [], ad => ad
  | data :: rest, ad =>
    if data.Name ≠ [] then copyEventData rest (ad.set ("xml_".toList ++ data.Name) (.str data.Value))
    else copyEventData rest ad

/-- Method `Parse`. -/
def Parse {Time : Type} (lib : Lib Time) (call : Call Time) (logLine : Str) :
    Except Error (GOSTEvent Time) :=
  match lib.xmlDecode logLine with
  | .error err => .error (.xmlDecode err)
  | .ok event =>
    let timestamp :=
      match lib.timeParse "2006-01-02T15:04:05.999999999Z07:00".toList
          event.System.TimeCreatedSystemTime with
      | some t => t
      | none => call.now
    let gostEvent : GOSTEvent Time :=
      { EventID := call.uuid
        Timestamp := timestamp
        Description := buildDescription event
        Source :=
          { Hostname := event.System.Computer
            Application := event.System.Provider.Name
            ProcessID := event.System.ExecutionProcessID }
        Severity := mapXMLLevelToGOST event.System.Level
        Category := categorizeXMLEvent lib.unicodeLower event
        Result := determineResult lib.unicodeLower event
        AdditionalData := [] }
    let ad := gostEvent.AdditionalData.set "xml_event_id".toList (.int event.System.EventID)
    let ad := ad.set "xml_level".toList (.int event.System.Level)
    let ad := ad.set "xml_task".toList (.int event.System.Task)
    let ad := ad.set "xml_opcode".toList (.int event.System.Opcode)
    let ad := ad.set "xml_keywords".toList (.str event.System.Keywords)
    let ad := ad.set "xml_channel".toList (.str event.System.Channel)
    let ad := ad.set "xml_record_id".toList (.int event.System.EventRecordID)
    let ad := ad.set "provider_guid".toList (.str event.System.Provider.Guid)
    let ad := copyEventData event.EventData ad
    let subject : Option Account :=
      if event.System.SecurityUserID ≠ [] then some { UserID := event.System.SecurityUserID }
      else gostEvent.SubjectAccount
    .ok (enrichEventFromEventData lib.unicodeLower
      { gostEvent with AdditionalData := ad, SubjectAccount := subject } event.EventData)

end XMLParser

end parser

/-! ## internal/processor -/

namespace processor

open Go regexp models parser

/-- Type `LogType`. -/
inductive LogType where
  | LogTypeUnknown
  | LogTypeSyslog
  | LogTypeCEF
  | LogTypeLEEF
  | LogTypeXML
  deriving DecidableEq, Repr

open LogType

/-- Function `isNumeric`. -/
def isNumeric (s : Str) : Bool :=
  if s.any (fun c => c < '0' || c > '9') then false else decide (byteLen s > 0)

/-- Method `DetectLogType`. -/
def DetectLogType (logLine : Str) : LogType :=
  let logLine := TrimSpace logLine
  if HasPrefix logLine "CEF:".toList then LogTypeCEF
  else if HasPrefix logLine "LEEF:".toList then LogTypeLEEF
  else if (HasPrefix logLine "<".toList && Contains logLine "<?xml".toList) ||
      HasPrefix logLine "<?xml".toList then LogTypeXML
  else if HasPrefix logLine "<Event".toList then LogTypeXML
  else if HasPrefix logLine "<".toList && Contains logLine ">".toList then
    let priorityEnd := Index logLine ">".toList
    if priorityEnd > 0 ∧ priorityEnd < 10 then
      let priority := slice logLine 1 priorityEnd.toNat
      if isNumeric priority then LogTypeSyslog else LogTypeUnknown
    else LogTypeUnknown
  else LogTypeUnknown

/-- Method `Process`. -/
def Process {Time : Type} (lib : Lib Time) (call : Call Time) (logLine : Str) :
    Except Error (GOSTEvent Time) :=
  match DetectLogType logLine with
  | LogTypeSyslog => SyslogParser.Parse lib call logLine
  | LogTypeCEF => CEFParser.Parse lib call logLine
  | LogTypeLEEF => LEEFParser.Parse lib call logLine
  | LogTypeXML => XMLParser.Parse lib call logLine
  | LogTypeUnknown => .error .unknownLogType

/-- The loop of `ProcessBatch` from the line of index `i` on; `calls j` is what
the call for the line of index `j` reads from its environment. -/
def processBatchLoop {Time : Type} (lib : Lib Time) (calls : Nat → Call Time) :
    List Str → Nat → List (GOSTEvent Time) → List Error → List (GOSTEvent Time) × List Error
  | [], _, events, errors => (events, errors)
  | logLine :: rest, i, events, errors =>
    match Process lib (calls i) logLine with
    | .error err =>
      processBatchLoop lib calls rest (i + 1) events (errors ++ [Error.line ((i : Int) + 1) err])
    | .ok event => processBatchLoop lib calls rest (i + 1) (events ++ [event]) errors

/-- Method `ProcessBatch`. -/
def ProcessBatch {Time : Type} (lib : Lib Time) (calls : Nat → Call Time) (logLines : List Str) :
    List (GOSTEvent Time) × List Error :=
  processBatchLoop lib calls logLines 0 [] []

end processor

/-! ## internal/siem -/

namespace siem

open Go models

/-- Method `calculatePriority` of `SyslogForwarder`: facility 16 (local0) and the
level of the severity. -/
def calculatePriority (severity : Str) : Int :=
  let facility : Int := 16
  let level : Int :=
    if severity = SeverityCritical then 2
    else if severity = SeverityHigh then 3
    else if severity = SeverityMedium then 4
    else if severity = SeverityLow then 5
    else if severity = SeverityInfo then 6
    else 6
  facility * 8 + level

end siem

/-! ## Definitions used to state the properties -/

namespace Spec

open Go regexp models parser processor processor.LogType siem

/-- The text between the opening `<` and the rune of index `i`. -/
def between (raw : Str) (i : Nat) : Str := (raw.take i).drop 1

/-- Rule 5 as worded: the input begins with `<`, has a `>` within its first 10
characters and the text between them is all decimal digits. -/
def priorityShape (raw : Str) : Bool :=
  HasPrefix raw "<".toList &&
    (List.range 10).any (fun i => raw[i]? == some '>' && (between raw i).all isDigit)

/-- Rule 5 with a priority of at least one digit. -/
def priorityShapeNonEmpty (raw : Str) : Bool :=
  HasPrefix raw "<".toList &&
    (List.range 10).any (fun i =>
      raw[i]? == some '>' && (between raw i).all isDigit && !(between raw i).isEmpty)

/-- The ordered rules of the detector with rule 5 given by `shape`, applied to
`raw` as it stands. -/
def detectRulesWith (shape : Str → Bool) (raw : Str) : LogType :=
  if HasPrefix raw "CEF:".toList then LogTypeCEF
  else if HasPrefix raw "LEEF:".toList then LogTypeLEEF
  else if HasPrefix raw "<?xml".toList ||
      (HasPrefix raw "<".toList && Contains raw "<?xml".toList) then LogTypeXML
  else if HasPrefix raw "<Event".toList then LogTypeXML
  else if shape raw then LogTypeSyslog
  else LogTypeUnknown

/-- The six rules of the detector as the specification words them. -/
def detectRules (raw : Str) : LogType := detectRulesWith priorityShape raw

/-- Whether `Process` accepts the line `p.2`, which stands at the 0-based
position `p.1` of a batch. -/
def accepted {Time : Type} (lib : Lib Time) (calls : Nat → Call Time) (p : Nat × Str) : Bool :=
  match Process lib (calls p.1) p.2 with
  | .ok _ => true
  | .error _ => false

/-- The number K of lines of a batch that `Process` accepts. -/
def acceptedCount {Time : Type} (lib : Lib Time) (calls : Nat → Call Time) (lines : List Str) :
    Nat :=
  (lines.enum.filter (accepted lib calls)).length

/-- The 0-based positions of the lines of a batch that `Process` rejects, in
the order of the input. -/
def rejectedPositions {Time : Type} (lib : Lib Time) (calls : Nat → Call Time)
    (lines : List Str) : List Nat :=
  (lines.enum.filter (fun p => !accepted lib calls p)).map Prod.fst

/-- The line number carried by an error of `ProcessBatch`. -/
def lineNumber : Error → Option Int
  | .line n _ => some n
  | _ => none

/-- The five severity constants. -/
def severities : List Str :=
  [SeverityCritical, SeverityHigh, SeverityMedium, SeverityLow, SeverityInfo]

/-- The seven category constants. -/
def categories : List Str :=
  [CategoryAuthentication, CategoryAuthorization, CategoryAccess, CategoryDataModification,
    CategorySystemEvent, CategorySecurityEvent, CategoryNetworkEvent]

/-- The three result constants. -/
def results : List Str := [ResultSuccess, ResultFailure, ResultUnknown]

/-- A library to evaluate examples with: the case table is the identity outside
ASCII, no timestamp parses, and every document decodes to `doc`. -/
def exampleLib (doc : Except Str Event) : Lib Int where
  unicodeLower := id
  timeParse := fun _ _ => none
  addYears := fun t _ => t
  year := fun _ => 0
  unixNano := id
  xmlDecode := fun _ => doc

/-- A call environment to evaluate examples with. -/
def exampleCall : Call Int := { now := 0, uuid := "00000000-0000-4000-8000-000000000000".toList }

/-- The RFC 3164 line of the test suite. -/
def rfc3164Line : Str :=
  "<134>Oct 11 22:14:15 mymachine su: 'su root' failed for lonvick on /dev/pts/8".toList

/-- The event of `rfc3164Line` under `exampleLib` and `exampleCall`. -/
def rfc3164Event : GOSTEvent Int :=
  { EventID := exampleCall.uuid
    Timestamp := 0
    Source := { Hostname := "mymachine".toList, Application := "su".toList }
    Category := CategorySystemEvent
    Severity := SeverityLow
    Description := "'su root' failed for lonvick on /dev/pts/8".toList
    AdditionalData := [("syslog_severity".toList, .int 6), ("syslog_facility".toList, .int 16),
      ("syslog_priority".toList, .int 134)]
    Result := ResultUnknown }

/-- The CEF line of the test suite. -/
def cefLine : Str :=
  ("CEF:0|Security|threatmanager|1.0|100|worm successfully stopped|10|" ++
    "src=10.0.0.1 dst=2.1.2.2 spt=1232").toList

/-- The header keys the CEF parser stores without the tag of the format. -/
def cefHeaderKeys : List Str :=
  ["device_vendor".toList, "device_product".toList, "device_version".toList,
    "signature_id".toList]

/-- The header keys the LEEF parser stores without the tag of the format. -/
def leefHeaderKeys : List Str :=
  ["vendor".toList, "product".toList, "product_version".toList, "event_id".toList]

/-- The header key the XML parser stores without the tag of the format. -/
def xmlHeaderKeys : List Str := ["provider_guid".toList]

/-- The table of the syslog severity codes: 0, 1, 2 critical; 3 high; 4 medium;
5, 6 low; 7 info. -/
def syslogSeverityTable : Nat → Option Str
  | 0 | 1 | 2 => some SeverityCritical
  | 3 => some SeverityHigh
  | 4 => some SeverityMedium
  | 5 | 6 => some SeverityLow
  | 7 => some SeverityInfo
  | _ => none

/-- Case-insensitive substring search: at some position of `m` the next runes,
as many as `kw` has, lower-case to `kw`. -/
def containsFold (tbl : Char → Char) (m kw : Str) : Bool :=
  m.tails.any (fun t => ToLower tbl (t.take kw.length) == kw)

/-- The category rule of the syslog parser as the specification words it. -/
def syslogCategoryRule (tbl : Char → Char) (m : Str) : Str :=
  if containsFold tbl m "login".toList || containsFold tbl m "auth".toList then
    CategoryAuthentication
  else if containsFold tbl m "access".toList || containsFold tbl m "denied".toList then
    CategoryAccess
  else if containsFold tbl m "network".toList || containsFold tbl m "connection".toList then
    CategoryNetworkEvent
  else if containsFold tbl m "security".toList || containsFold tbl m "breach".toList then
    CategorySecurityEvent
  else CategorySystemEvent

/-- The thresholds of the CEF severity as the specification words them. -/
def cefSeverityRule (n : Int) : Str :=
  if n ≥ 8 then SeverityCritical
  else if 6 ≤ n ∧ n < 8 then SeverityHigh
  else if 4 ≤ n ∧ n < 6 then SeverityMedium
  else if 2 ≤ n ∧ n < 4 then SeverityLow
  else SeverityInfo

/-- The number a run of decimal digits denotes. -/
def decimalValue (s : Str) : Nat := s.foldl (fun acc c => acc * 10 + (c.toNat - 48)) 0

/-- ASCII letters. -/
def isLetter (c : Char) : Bool :=
  (65 ≤ c.toNat && c.toNat ≤ 90) || (97 ≤ c.toNat && c.toNat ≤ 122)

/-- A non-empty run of decimal digits. -/
def isDigits (s : Str) : Bool := !s.isEmpty && s.all isDigit

/-- A non-empty token free of whitespace. -/
def isToken (s : Str) : Bool := !s.isEmpty && s.all notWs

/-- A message text: no newline, and no whitespace at its start. -/
def isMessage (s : Str) : Bool :=
  s.all notNL && (match s.head? with
    | some c => !isWs c
    | none => true)

/-- The line `<P>V TS HOST APP PROCID MSGID SD MSG` of the RFC 5424 shape. -/
def rfc5424LineOf (P V TS HOST APP PROCID MSGID SD MSG : Str) : Str :=
  "<".toList ++ P ++ ">".toList ++ V ++ " ".toList ++ TS ++ " ".toList ++ HOST ++ " ".toList ++
    APP ++ " ".toList ++ PROCID ++ " ".toList ++ MSGID ++ " ".toList ++ SD ++ " ".toList ++ MSG

/-- A host or application name: non-empty and free of whitespace, `:` and `[`. -/
def isName (s : Str) : Bool :=
  !s.isEmpty && s.all (fun c => notWs c && c != ':' && c != '[')

/-- A word (`\w+`) that starts with a letter, as the month of a timestamp. -/
def isWordFromLetter (s : Str) : Bool :=
  s.all isWord && (match s.head? with
    | some c => isLetter c
    | none => false)

/-- The bracket part `[PID]` of an RFC 3164 line, empty when there is no PID. -/
def bracketPart : Option Str → Str
  | none => []
  | some pid => "[".toList ++ pid ++ "]".toList

/-- The line `<P>Mon D HH:MM:SS HOST APP: MSG`, or with `APP[PID]`, of the
RFC 3164 shape. -/
def rfc3164LineOf (P Mon D HH MM SS HOST APP : Str) (PID : Option Str) (MSG : Str) : Str :=
  "<".toList ++ P ++ ">".toList ++ Mon ++ " ".toList ++ D ++ " ".toList ++ HH ++ ":".toList ++
    MM ++ ":".toList ++ SS ++ " ".toList ++ HOST ++ " ".toList ++ APP ++ bracketPart PID ++
    ": ".toList ++ MSG

/-- The process id of an RFC 3164 line: 0 without the bracket part, else the
number PID, or `2^63 - 1` when that number is larger. -/
def processIDOf : Option Str → Int
  | none => 0
  | some pid => min (decimalValue pid : Int) (2 ^ 63 - 1)

/-- A header field of a CEF or LEEF line: free of `|`. -/
def noPipe (s : Str) : Bool := s.all notPipe

/-- A text free of newlines. -/
def noNewline (s : Str) : Bool := s.all notNL

/-- The line `CEF:ver|vendor|product|dver|sig|name|sev|ext`. -/
def cefLineOf (ver vendor product dver sig name sev ext : Str) : Str :=
  "CEF:".toList ++ ver ++ "|".toList ++ vendor ++ "|".toList ++ product ++ "|".toList ++ dver ++
    "|".toList ++ sig ++ "|".toList ++ name ++ "|".toList ++ sev ++ "|".toList ++ ext

/-- The grammar of a CEF line: `CEF:`, one or more decimal digits, `|`, six
further header fields free of `|` and each terminated by `|`, and an extension
text free of newlines. -/
def cefShape (raw : Str) : Prop :=
  ∃ ver vendor product dver sig name sev ext : Str,
    raw = cefLineOf ver vendor product dver sig name sev ext ∧ isDigits ver = true ∧
      noPipe vendor = true ∧ noPipe product = true ∧ noPipe dver = true ∧ noPipe sig = true ∧
      noPipe name = true ∧ noPipe sev = true ∧ noNewline ext = true

/-- The entry `o` is present and its value passes `test`. -/
def presentAnd (o : Option Str) (test : Str → Bool) : Bool :=
  match o with
  | some v => test v
  | none => false

/-- The result rule of the CEF parser as the specification words it. -/
def cefResultRule (tbl : Char → Char) (extensions : GoMap Str) : Str :=
  let outcome := extensions.get? "outcome".toList
  let act := extensions.get? "act".toList
  if presentAnd outcome (fun v => containsFold tbl v "success".toList) then ResultSuccess
  else if presentAnd outcome (fun v =>
      containsFold tbl v "fail".toList || containsFold tbl v "deny".toList) then ResultFailure
  else if presentAnd act (fun v =>
      containsFold tbl v "allow".toList || containsFold tbl v "permit".toList) then ResultSuccess
  else if presentAnd act (fun v =>
      containsFold tbl v "block".toList || containsFold tbl v "deny".toList) then ResultFailure
  else ResultUnknown

/-- The category rule of the CEF parser as the specification words it. -/
def cefCategoryRule (tbl : Char → Char) (n : Str) : Str :=
  if containsFold tbl n "login".toList || containsFold tbl n "logon".toList ||
      containsFold tbl n "authentication".toList then CategoryAuthentication
  else if containsFold tbl n "access".toList || containsFold tbl n "denied".toList ||
      containsFold tbl n "permission".toList then CategoryAccess
  else if containsFold tbl n "modify".toList || containsFold tbl n "change".toList ||
      containsFold tbl n "update".toList || containsFold tbl n "delete".toList then
    CategoryDataModification
  else if containsFold tbl n "network".toList || containsFold tbl n "connection".toList ||
      containsFold tbl n "firewall".toList then CategoryNetworkEvent
  else if containsFold tbl n "security".toList || containsFold tbl n "threat".toList ||
      containsFold tbl n "attack".toList || containsFold tbl n "malware".toList then
    CategorySecurityEvent
  else CategorySystemEvent

/-- The CEF line of the test suite that carries a user. -/
def cefUserLine : Str :=
  ("CEF:0|Vendor|Product|1.0|200|User Login|5|" ++
    "suser=john.doe sdomain=EXAMPLE act=login outcome=success").toList

/-- The parts of a LEEF attribute string as the specification words them:
version `2.0` with the literal `x09` replaces every `x09` by a tab and splits on
tabs; version `2.0` with a `^` (and no `x09`) splits on `^`; otherwise the string
is split on tabs. -/
def leefPartsRule (v a : Str) : List Str :=
  if v = "2.0".toList ∧ Contains a "x09".toList = true then
    splitRune '\t' (ReplaceAll a "x09".toList "\t".toList)
  else if v = "2.0".toList ∧ Contains a "^".toList = true then splitRune '^' a
  else splitRune '\t' a

/-- What a part contributes: nothing without `=`, else the trimmed text before
its first `=` as key and the trimmed text after it as value. -/
def keyValueOf (part : Str) : Option (Str × Str) :=
  if '=' ∈ part then
    some (TrimSpace (part.takeWhile (fun c => c != '=')),
      TrimSpace ((part.dropWhile (fun c => c != '=')).drop 1))
  else none

/-- The attribute map built from the parts, a later part replacing an earlier
one with the same key. -/
def attributesOfParts (parts : List Str) : GoMap Str :=
  (parts.filterMap keyValueOf).foldl (fun m kv => m.set kv.1 kv.2) []

/-- The severity rule of the LEEF parser as the specification words it, on the
attribute `sev`. -/
def leefSeverityRule (tbl : Char → Char) : Option Str → Str
  | none => SeverityInfo
  | some sev =>
    if containsFold tbl sev "critical".toList || containsFold tbl sev "fatal".toList ||
        sev == "10".toList then SeverityCritical
    else if containsFold tbl sev "high".toList || containsFold tbl sev "error".toList ||
        sev == "8".toList || sev == "7".toList then SeverityHigh
    else if containsFold tbl sev "medium".toList || containsFold tbl sev "warn".toList ||
        sev == "5".toList || sev == "6".toList then SeverityMedium
    else if containsFold tbl sev "low".toList || sev == "3".toList || sev == "4".toList then
      SeverityLow
    else if containsFold tbl sev "info".toList || sev == "1".toList || sev == "2".toList then
      SeverityInfo
    else SeverityInfo

/-- The category the event id of a LEEF record decides. -/
def leefEventIDRule (tbl : Char → Char) (e : Str) : Str :=
  if containsFold tbl e "login".toList || containsFold tbl e "auth".toList then
    CategoryAuthentication
  else if containsFold tbl e "access".toList || containsFold tbl e "permission".toList then
    CategoryAccess
  else if containsFold tbl e "modify".toList || containsFold tbl e "change".toList then
    CategoryDataModification
  else if containsFold tbl e "network".toList || containsFold tbl e "connection".toList then
    CategoryNetworkEvent
  else if containsFold tbl e "security".toList || containsFold tbl e "threat".toList then
    CategorySecurityEvent
  else CategorySystemEvent

/-- The category rule of the LEEF parser as the specification words it: the
attribute `cat` first, the event id when `cat` is absent or inconclusive. -/
def leefCategoryRule (tbl : Char → Char) (e : Str) (cat : Option Str) : Str :=
  if presentAnd cat (fun v => containsFold tbl v "auth".toList) then CategoryAuthentication
  else if presentAnd cat (fun v => containsFold tbl v "access".toList) then CategoryAccess
  else if presentAnd cat (fun v => containsFold tbl v "network".toList) then
    CategoryNetworkEvent
  else leefEventIDRule tbl e

/-- The result rule of the LEEF parser as the specification words it. -/
def leefResultRule (tbl : Char → Char) (attrs : GoMap Str) : Str :=
  let result := attrs.get? "result".toList
  let action := attrs.get? "action".toList
  if presentAnd result (fun v =>
      containsFold tbl v "success".toList || containsFold tbl v "allow".toList) then
    ResultSuccess
  else if presentAnd result (fun v =>
      containsFold tbl v "fail".toList || containsFold tbl v "deny".toList) then ResultFailure
  else if presentAnd action (fun v =>
      containsFold tbl v "allow".toList || containsFold tbl v "permit".toList) then
    ResultSuccess
  else if presentAnd action (fun v =>
      containsFold tbl v "block".toList || containsFold tbl v "deny".toList) then
    ResultFailure
  else ResultUnknown

/-- The LEEF line of version 2.0 of the test suite. -/
def leefV2Line : Str :=
  "LEEF:2.0|Vendor|Product|1.0|EventID|usrName=admin^action=login^result=success".toList

/-- The line `LEEF:ver|vendor|product|pver|eid|attrs`. -/
def leefLineOf (ver vendor product pver eid attrs : Str) : Str :=
  "LEEF:".toList ++ ver ++ "|".toList ++ vendor ++ "|".toList ++ product ++ "|".toList ++ pver ++
    "|".toList ++ eid ++ "|".toList ++ attrs

/-- A version text of a LEEF line: a non-empty run of decimal digits and dots. -/
def isVersion (s : Str) : Bool := !s.isEmpty && s.all digitOrDot

/-- The subject account of a LEEF record as the specification words it: from
`srcUser` and `srcDomain`, else from `usrName` alone, else absent. -/
def leefSubjectRule (attrs : GoMap Str) : Option Account :=
  match attrs.get? "srcUser".toList with
  | some u =>
    some { Username := u, Domain := (attrs.get? "srcDomain".toList).getD [], UserID := [] }
  | none =>
    (attrs.get? "usrName".toList).map (fun u => { Username := u, Domain := [], UserID := [] })

/-- The object account of a LEEF record as the specification words it. -/
def leefObjectRule (attrs : GoMap Str) : Option Account :=
  (attrs.get? "dstUser".toList).map (fun u =>
    { Username := u, Domain := (attrs.get? "dstDomain".toList).getD [], UserID := [] })

/-- The action of a LEEF record as the specification words it: the attribute
`action`, else the attribute `cat`, else empty. -/
def leefActionRule (attrs : GoMap Str) : Str :=
  match attrs.get? "action".toList with
  | some a => a
  | none => (attrs.get? "cat".toList).getD []

/-- The rank of a severity in the order info, low, medium, high, critical. -/
def severityRank (s : Str) : Nat :=
  if s = SeverityCritical then 4
  else if s = SeverityHigh then 3
  else if s = SeverityMedium then 2
  else if s = SeverityLow then 1
  else 0

/-- The table of the XML levels as the specification words it. -/
def xmlLevelTable : List (Int × Str) :=
  [(1, SeverityCritical), (2, SeverityHigh), (3, SeverityMedium), (4, SeverityInfo),
    (5, SeverityLow)]

/-- The category rule of the XML parser as the specification words it: the
ranges of the event id first, then the word `security` in the channel or in the
provider name. -/
def xmlCategoryRule (tbl : Char → Char) (id : Int) (channel provider : Str) : Str :=
  if 4624 ≤ id ∧ id ≤ 4634 then CategoryAuthentication
  else if 4720 ≤ id ∧ id ≤ 4767 then CategoryAuthorization
  else if 4660 ≤ id ∧ id ≤ 4663 then CategoryAccess
  else if 4670 ≤ id ∧ id ≤ 4690 then CategoryDataModification
  else if containsFold tbl channel "security".toList ||
      containsFold tbl provider "security".toList then CategorySecurityEvent
  else CategorySystemEvent

/-- What one pair of `EventData` says about the result: nothing unless its name
contains `status` or `result`; then success for a value that contains `success`
or lower-cases to `0` or `0x0`, failure for a value that contains `fail` or
`error`, and nothing otherwise. -/
def pairVerdict (tbl : Char → Char) (d : Data) : Option Str :=
  if containsFold tbl d.Name "status".toList || containsFold tbl d.Name "result".toList then
    if containsFold tbl d.Value "success".toList || ToLower tbl d.Value == "0".toList ||
        ToLower tbl d.Value == "0x0".toList then some ResultSuccess
    else if containsFold tbl d.Value "fail".toList || containsFold tbl d.Value "error".toList then
      some ResultFailure
    else none
  else none

/-- The result rule of the XML parser as the specification words it. -/
def xmlResultRule (tbl : Char → Char) (event : Event) : Str :=
  match event.EventData.findSome? (pairVerdict tbl) with
  | some r => r
  | none =>
    if event.System.Level = 1 ∨ event.System.Level = 2 then ResultFailure
    else if event.System.EventID = 4625 then ResultFailure
    else if event.System.EventID = 4624 ∨
        (4634 ≤ event.System.EventID ∧ event.System.EventID ≤ 4647) then ResultSuccess
    else ResultUnknown

/-- The last pair of a list that passes `p`. -/
def lastWhere (p : Data → Bool) : List Data → Option Data
  | [] => none
  | d :: rest =>
    match lastWhere p rest with
    | some x => some x
    | none => if p d then some d else none

/-- The value of the last pair that passes `p`, empty when there is none. -/
def valueOfLast (p : Data → Bool) (data : List Data) : Str :=
  match lastWhere p data with
  | some d => d.Value
  | none => []

/-- A pair whose name contains `targetusername` or `subjectusername`. -/
def namesUser (tbl : Char → Char) (d : Data) : Bool :=
  containsFold tbl d.Name "targetusername".toList ||
    containsFold tbl d.Name "subjectusername".toList

/-- A pair whose name contains `targetdomainname` or `subjectdomainname`. -/
def namesDomain (tbl : Char → Char) (d : Data) : Bool :=
  containsFold tbl d.Name "targetdomainname".toList ||
    containsFold tbl d.Name "subjectdomainname".toList

/-- The subject account of an XML record with the domain taken from the pairs
that pass `domainPair`: absent when the user id is empty and no pair names a
user or a domain. -/
def xmlSubjectWith (tbl : Char → Char) (domainPair : Data → Bool) (userID : Str)
    (data : List Data) : Option Account :=
  if userID = [] ∧ data.all (fun d => !namesUser tbl d && !namesDomain tbl d) = true then none
  else
    some { UserID := userID, Username := valueOfLast (namesUser tbl) data,
           Domain := valueOfLast domainPair data }

/-- The subject account of an XML record as the specification words it. -/
def xmlSubjectAsWorded (tbl : Char → Char) (userID : Str) (data : List Data) : Option Account :=
  xmlSubjectWith tbl (namesDomain tbl) userID data

/-- The subject account of an XML record, the domain being taken from the pairs
that name a domain and do not name a user. -/
def xmlSubjectRule (tbl : Char → Char) (userID : Str) (data : List Data) : Option Account :=
  xmlSubjectWith tbl (fun d => namesDomain tbl d && !namesUser tbl d) userID data

/-- The description of an XML record as the specification words it. -/
def xmlDescriptionRule (event : Event) : Str :=
  let parts :=
    (event.EventData.filter (fun d => !d.Value.isEmpty)).map
      (fun d => d.Name ++ ": ".toList ++ d.Value)
  if parts.isEmpty then
    "Event ID ".toList ++ formatInt event.System.EventID ++ " from ".toList ++
      event.System.Provider.Name
  else List.intercalate "; ".toList parts

/-- The value of the last pair named `n`. -/
def lastNamed (n : Str) (data : List Data) : Option Str :=
  (lastWhere (fun d => d.Name == n) data).map (fun d => d.Value)

/-- The header entries of an XML record under the tag of the format: the key
without the tag and the value of the System block. -/
def xmlHeaderEntries (s : System) : List (Str × Value) :=
  [("event_id".toList, .int s.EventID), ("level".toList, .int s.Level),
    ("task".toList, .int s.Task), ("opcode".toList, .int s.Opcode),
    ("keywords".toList, .str s.Keywords), ("channel".toList, .str s.Channel),
    ("record_id".toList, .int s.EventRecordID)]

/-- The XML record of the test suite, as decoded. -/
def xmlLogonEvent : Event :=
  { System :=
      { Provider :=
          { Name := "Microsoft-Windows-Security-Auditing".toList
            Guid := "\x7b54849625-5478-4994-A5BA-3E3B0328C30D\x7d".toList }
        EventID := 4624
        TimeCreatedSystemTime := "2023-10-11T22:14:15.123456Z".toList
        Computer := "workstation.example.com".toList
        ExecutionProcessID := 500
        ExecutionThreadID := 600 }
    EventData :=
      [{ Name := "TargetUserName".toList, Value := "john.doe".toList },
        { Name := "TargetDomainName".toList, Value := "EXAMPLE".toList }] }

/-- A syslog record whose message carries an XML payload. -/
def syslogWithXmlLine : Str := "<134>Oct 11 22:14:15 host app: <?xml version=\"1.0\"?>".toList

/-- The byte index of the first `a` of a text. -/
def firstIndexOf (a : Char) (s : Str) : Option Nat :=
  if a ∈ s then some (byteLen (s.takeWhile (fun c => c != a))) else none

/-- The priority heuristic of the detector in full: the text begins with `<`,
does not contain `<?xml`, has its first `>` at a byte index from 1 to 9, and the
text strictly between the two brackets is a non-empty run of decimal digits. -/
def syslogHeuristic (t : Str) : Bool :=
  HasPrefix t "<".toList && !Contains t "<?xml".toList &&
    (match firstIndexOf '>' t with
    | some i => decide (1 ≤ i ∧ i ≤ 9) && isDigits ((t.takeWhile (fun c => c != '>')).drop 1)
    | none => false)

/-- What a token of a CEF extension text contributes: nothing without `=`, else
the text before its first `=` as key and all the text after it as value. -/
def tokenKeyValue (tok : Str) : Option (Str × Str) :=
  if '=' ∈ tok then
    some (tok.takeWhile (fun c => c != '='), (tok.dropWhile (fun c => c != '=')).drop 1)
  else none

/-- The value of the last pair with the key `k`. -/
def lastValueOf (k : Str) (pairs : List (Str × Str)) : Option Str := List.lookup k pairs.reverse

/-- The timestamp of a CEF record as the parser resolves it, `parse` being the
parser of timestamp texts and `now` the processing time: the extension `rt`
decides when it is present, the extension `end` when `rt` is absent. -/
def cefTimestampRule {Time : Type} (parse : Str → Option Time) (now : Time)
    (extensions : GoMap Str) : Time :=
  match extensions.get? "rt".toList with
  | some rt => (parse rt).getD now
  | none =>
    match extensions.get? "end".toList with
    | some e => (parse e).getD now
    | none => now

/-- The timestamp of a CEF record as the specification words it: the parsed
value of `rt` when `rt` is present and parses, otherwise the parsed value of
`end` when `end` is present and parses, otherwise the processing time. -/
def cefTimestampAsWorded {Time : Type} (parse : Str → Option Time) (now : Time)
    (extensions : GoMap Str) : Time :=
  match (extensions.get? "rt".toList).bind parse with
  | some t => t
  | none =>
    match (extensions.get? "end".toList).bind parse with
    | some t => t
    | none => now

/-- A pair whose name contains `ipaddress` or `workstationname`. -/
def namesAddress (tbl : Char → Char) (d : Data) : Bool :=
  containsFold tbl d.Name "ipaddress".toList || containsFold tbl d.Name "workstationname".toList

/-- The value of the first pair that passes `p`, empty when there is none. -/
def valueOfFirst (p : Data → Bool) (data : List Data) : Str :=
  match data.find? p with
  | some d => d.Value
  | none => []

/-- The address of the source of an XML record as the specification words it. -/
def xmlAddressAsWorded (tbl : Char → Char) (data : List Data) : Str :=
  valueOfFirst (namesAddress tbl) data

/-- The address of the source of an XML record: the value of the first pair
that names an address, names neither a user nor a domain, and has a non-empty
value. -/
def xmlAddressRule (tbl : Char → Char) (data : List Data) : Str :=
  valueOfFirst
    (fun d => namesAddress tbl d && !namesUser tbl d && !namesDomain tbl d && !d.Value.isEmpty)
    data

/-- An error of a batch with its line number increased by `k`. -/
def shiftLine (k : Nat) : Error → Error
  | .line n cause => .line (n + k) cause
  | e => e

/-- The events of the accepted lines of a batch, in the order of the input. -/
def acceptedEvents {Time : Type} (lib : Lib Time) (calls : Nat → Call Time) (lines : List Str) :
    List (GOSTEvent Time) :=
  lines.enum.filterMap (fun p =>
    match Process lib (calls p.1) p.2 with
    | .ok e => some e
    | .error _ => none)

/-- The bounds of the type `int` of a 64-bit platform. -/
def inInt64 (n : Int) : Prop := -(2 : Int) ^ 63 ≤ n ∧ n < (2 : Int) ^ 63

/-- A record of the CEF shape with the extensions `rt` and `end`, of which only
`end` is a timestamp. -/
def cefBadRtLine : Str := "CEF:0|V|P|1|1|n|5|rt=abc end=1000".toList

/-- The value nearest to `n` within the bounds of the type `int` of a 64-bit
platform. -/
def clampInt64 (n : Int) : Int := max (-(2 : Int) ^ 63) (min n ((2 : Int) ^ 63 - 1))

/-- A token without its sign, when it begins with `+` or `-`. -/
def unsignedPart : Str → Str
  | [] => []
  | c :: cs => if c = '+' ∨ c = '-' then cs else c :: cs

/-- The integer a token denotes when it is a decimal integer: an optional sign
`+` or `-` and a non-empty run of decimal digits. -/
def signedDecimal (tok : Str) : Option Int :=
  if isDigits (unsignedPart tok) then
    some (if tok.head? = some '-' then -(decimalValue (unsignedPart tok) : Int)
      else (decimalValue (unsignedPart tok) : Int))
  else none

/-- The run of decimal digits at the start of a token, after its sign. -/
def leadingDigits (tok : Str) : Str := (unsignedPart tok).takeWhile isDigit

/-- The process id of an RFC 5424 record with the token PROCID: the integer the
token denotes, brought within the bounds of `int`; for a token that is no
integer, 0, or the bound on the side of its sign when the digits at its start
already pass `2^64 - 1`. -/
def procIDRule (tok : Str) : Int :=
  match signedDecimal tok with
  | some n => clampInt64 n
  | none =>
    if decimalValue (leadingDigits tok) > 2 ^ 64 - 1 then
      (if tok.head? = some '-' then -(2 : Int) ^ 63 else (2 : Int) ^ 63 - 1)
    else 0

/-- The severity the syslog parser gives back for a severity sent by the
forwarder: info comes back as low, the other four as they are. -/
def severityAfterForwarding (s : Str) : Str := if s = SeverityInfo then SeverityLow else s

end Spec

/-! # Theorems -/

open Go regexp models parser processor processor.LogType siem Spec

set_option maxRecDepth 100000

/-! ## Strings -/

theorem Go.utf8Size_eq_one_of_le (c : Char) (h : c.toNat ≤ 127) : c.utf8Size = 1 := by
  unfold Char.utf8Size
  have h1 : c.val ≤ 127 := by
    show c.val.toNat ≤ 127
    exact h
  simp [h1]

theorem Go.byteLen_pos_of_ne_nil : ∀ (s : Str), s ≠ [] → 0 < byteLen s
  | [], h => absurd rfl h
  | c :: cs, _ => by
    have := Char.utf8Size_pos c
    simp only [byteLen]; omega

theorem Go.contains_singleton (a : Char) : ∀ (s : Str), Contains s [a] = true ↔ a ∈ s
  | [] => by simp [Contains, List.isPrefixOf]
  | c :: cs => by
    have ih := Go.contains_singleton a cs
    simp only [Contains, List.isPrefixOf, Bool.or_eq_true, ih, List.mem_cons, Bool.and_true,
      beq_iff_eq]

theorem Go.indexFrom_singleton_append (a : Char) (post : Str) :
    ∀ (pre : Str) (off : Nat), a ∉ pre →
      indexFrom [a] (pre ++ a :: post) off = ((off + byteLen pre : Nat) : Int)
  | [], off, _ => by simp [indexFrom, List.isPrefixOf, byteLen]
  | c :: cs, off, h => by
    have hc : a ≠ c := fun e => h (by simp [e])
    have hcs : a ∉ cs := fun e => h (by simp [e])
    have ih := Go.indexFrom_singleton_append a post cs (off + c.utf8Size) hcs
    rw [List.cons_append]
    unfold indexFrom
    simp only [List.isPrefixOf, Bool.and_true, beq_iff_eq]
    rw [if_neg hc, ih]
    congr 1
    simp only [byteLen]
    omega

theorem Go.sliceFrom_of_le (lo hi : Nat) : ∀ (s : Str) (off : Nat), hi ≤ off →
    sliceFrom lo hi s off = []
  | [], _, _ => rfl
  | c :: cs, off, h => by
    have ih := Go.sliceFrom_of_le lo hi cs (off + c.utf8Size) (by omega)
    simp only [sliceFrom, ih]
    rw [if_neg (by omega)]

theorem Go.sliceFrom_append (lo : Nat) (post : Str) :
    ∀ (pre : Str) (off : Nat), lo ≤ off →
      sliceFrom lo (off + byteLen pre) (pre ++ post) off = pre
  | [], off, _ => by
    simp only [byteLen, List.nil_append, Nat.add_zero]
    exact Go.sliceFrom_of_le lo off post off (Nat.le_refl _)
  | c :: cs, off, h => by
    have hp := Char.utf8Size_pos c
    have ih := Go.sliceFrom_append lo post cs (off + c.utf8Size) (by omega)
    have e : off + byteLen (c :: cs) = off + c.utf8Size + byteLen cs := by
      simp only [byteLen]; omega
    rw [e, List.cons_append]
    unfold sliceFrom
    rw [if_pos (by omega), ih]

theorem Go.byteLen_of_all_isDigit : ∀ (s : Str), s.all isDigit = true → byteLen s = s.length
  | [], _ => rfl
  | c :: cs, h => by
    simp only [List.all_cons, Bool.and_eq_true] at h
    have ih := Go.byteLen_of_all_isDigit cs h.2
    have hc : c.utf8Size = 1 := by
      have h1 := h.1
      simp only [isDigit, Bool.and_eq_true, decide_eq_true_eq] at h1
      exact Go.utf8Size_eq_one_of_le c (by omega)
    simp only [byteLen, ih, hc, List.length_cons]; omega

theorem processor.isNumeric_eq (s : Str) : isNumeric s = (s.all isDigit && !s.isEmpty) := by
  unfold isNumeric
  have h1 : s.any (fun c => c < '0' || c > '9') = !s.all isDigit := by
    induction s with
    | nil => rfl
    | cons c cs ih =>
      simp only [List.any_cons, List.all_cons, ih, Bool.not_and]
      congr 1
      have e1 : (c < '0') ↔ c.toNat < 48 := Iff.rfl
      have e2 : (c > '9') ↔ 57 < c.toNat := Iff.rfl
      simp only [isDigit, e1, e2, Bool.not_and]
      by_cases a : c.toNat < 48 <;> by_cases b : 57 < c.toNat <;> simp [a, b]
      all_goals omega
  rw [h1]
  cases s with
  | nil => simp [byteLen]
  | cons c cs =>
    have := Go.byteLen_pos_of_ne_nil (c :: cs) (by simp)
    by_cases hd : (c :: cs).all isDigit = true
    · simp [hd, this]
    · simp [hd]

theorem Spec.priorityShapeNonEmpty_split (pre post : Str) (hpre : '>' ∉ pre) :
    priorityShapeNonEmpty ('<' :: (pre ++ '>' :: post)) = true ↔
      pre.all isDigit = true ∧ pre ≠ [] ∧ pre.length + 1 < 10 := by
  unfold priorityShapeNonEmpty
  simp only [HasPrefix, String.toList, List.isPrefixOf, beq_self_eq_true, Bool.true_and,
    List.any_eq_true, List.mem_range, Bool.and_eq_true, beq_iff_eq, Bool.not_eq_true', between]
  constructor
  · rintro ⟨i, hi, ⟨hget, hall⟩, hne⟩
    cases i with
    | zero => simp at hget
    | succ j =>
      simp only [List.getElem?_cons_succ, List.take_succ_cons, List.drop_succ_cons, List.drop_zero]
        at hget hall hne
      rcases Nat.lt_trichotomy j pre.length with hlt | heq | hgt
      · rw [List.getElem?_append_left hlt] at hget
        exact absurd (List.getElem?_mem hget) hpre
      · subst heq
        rw [List.take_left] at hall hne
        refine ⟨hall, ?_, hi⟩
        intro e; simp [e] at hne
      · exfalso
        have hm : '>' ∈ (pre ++ '>' :: post).take j := by
          rw [List.take_append_eq_append_take]
          apply List.mem_append_right
          have : j - pre.length = (j - pre.length - 1) + 1 := by omega
          rw [this, List.take_succ_cons]
          simp
        have := (List.all_eq_true.mp hall) _ hm
        simp [isDigit] at this
  · rintro ⟨hall, hne, hlen⟩
    refine ⟨pre.length + 1, hlen, ⟨?_, ?_⟩, ?_⟩
    · rw [List.getElem?_cons_succ, List.getElem?_append_right (Nat.le_refl _)]
      simp
    · simp only [List.take_succ_cons, List.drop_succ_cons, List.drop_zero, List.take_left]
      exact hall
    · simp only [List.take_succ_cons, List.drop_succ_cons, List.drop_zero, List.take_left]
      cases pre with
      | nil => exact absurd rfl hne
      | cons _ _ => rfl

theorem Spec.priorityShapeNonEmpty_of_not_mem (rest : Str) (h : '>' ∉ rest) :
    priorityShapeNonEmpty ('<' :: rest) = false := by
  unfold priorityShapeNonEmpty
  rw [Bool.eq_false_iff]
  intro hh
  simp only [HasPrefix, String.toList, List.isPrefixOf, beq_self_eq_true, Bool.true_and,
    List.any_eq_true, List.mem_range, Bool.and_eq_true, beq_iff_eq] at hh
  obtain ⟨i, _, ⟨hget, _⟩, _⟩ := hh
  cases i with
  | zero => simp at hget
  | succ j =>
    rw [List.getElem?_cons_succ] at hget
    exact h (List.getElem?_mem hget)

theorem Spec.priorityShapeNonEmpty_of_head (c : Char) (rest : Str) (h : c ≠ '<') :
    priorityShapeNonEmpty (c :: rest) = false := by
  unfold priorityShapeNonEmpty
  simp [HasPrefix, List.isPrefixOf, Ne.symm h]

theorem processor.rule5_eq (s : Str) :
    (if (HasPrefix s "<".toList && Contains s ">".toList) = true then
      (if Index s ">".toList > 0 ∧ Index s ">".toList < 10 then
        (if isNumeric (Go.slice s 1 (Index s ">".toList).toNat) = true then LogTypeSyslog
          else LogTypeUnknown)
      else LogTypeUnknown)
    else LogTypeUnknown) = if priorityShapeNonEmpty s = true then LogTypeSyslog else LogTypeUnknown := by
  cases s with
  | nil => simp [HasPrefix, List.isPrefixOf, priorityShapeNonEmpty]
  | cons c rest =>
    by_cases hc : c = '<'
    · subst hc
      by_cases hm : '>' ∈ rest
      · obtain ⟨pre, post, rfl, hpre⟩ := List.eq_append_cons_of_mem hm
        have hcont : Contains ('<' :: (pre ++ '>' :: post)) ">".toList = true :=
          (Go.contains_singleton '>' _).mpr (by simp)
        have hidx : Index ('<' :: (pre ++ '>' :: post)) ">".toList = ((1 + byteLen pre : Nat) : Int) := by
          have h := Go.indexFrom_singleton_append '>' post ('<' :: pre) 0
            (by simp [hpre])
          simp only [List.cons_append, Nat.zero_add] at h
          rw [Index]
          show indexFrom ['>'] _ 0 = _
          rw [h]
          have e : ('<' : Char).utf8Size = 1 := by decide
          simp only [byteLen, e]
        have hsl : Go.slice ('<' :: (pre ++ '>' :: post)) 1 (1 + byteLen pre) = pre := by
          unfold Go.slice sliceFrom
          have e : ('<' : Char).utf8Size = 1 := by decide
          rw [if_neg (by omega), e]
          exact Go.sliceFrom_append 1 ('>' :: post) pre (0 + 1) (by omega)
        have hpref : HasPrefix ('<' :: (pre ++ '>' :: post)) "<".toList = true := by
          simp [HasPrefix, List.isPrefixOf]
        rw [hpref, hcont, hidx]
        simp only [Bool.and_self, if_true, Int.toNat_ofNat, hsl, processor.isNumeric_eq]
        have hspec := Spec.priorityShapeNonEmpty_split pre post hpre
        by_cases hP : pre.all isDigit = true ∧ pre ≠ [] ∧ pre.length + 1 < 10
        · have hb := Go.byteLen_of_all_isDigit pre hP.1
          rw [hspec.mpr hP, if_pos (by omega), if_pos (by simp [hP.1, hP.2.1]), if_pos rfl]
        · have hF : priorityShapeNonEmpty ('<' :: (pre ++ '>' :: post)) = false := by
            rw [Bool.eq_false_iff, Ne, hspec]; exact hP
          rw [hF]
          simp only [Bool.false_eq_true, if_false]
          split_ifs with h1 h2
          · exfalso
            simp only [Bool.and_eq_true, Bool.not_eq_true', List.isEmpty_eq_false] at h2
            have hb := Go.byteLen_of_all_isDigit pre h2.1
            exact hP ⟨h2.1, h2.2, by omega⟩
          all_goals rfl
      · have hcont : Contains ('<' :: rest) ">".toList = false := by
          rw [Bool.eq_false_iff, Ne, show ">".toList = ['>'] from rfl, Go.contains_singleton]
          simp [hm]
        rw [hcont, Spec.priorityShapeNonEmpty_of_not_mem rest hm]
        simp
    · rw [Spec.priorityShapeNonEmpty_of_head c rest hc]
      simp [HasPrefix, List.isPrefixOf, Ne.symm hc]

/-! ## The detector -/

/-- C1 (as amended): `DetectLogType` returns the tag of the first matching rule
of the ordered list, the rules being applied to the input with its leading and
trailing whitespace removed, and rule 5 asking for at least one digit between
the brackets; the result is one of the five tags. -/
theorem C1_detect_rules_after_trim (raw : Str) :
    DetectLogType raw = detectRulesWith priorityShapeNonEmpty (TrimSpace raw) ∧
      (DetectLogType raw = LogTypeSyslog ∨ DetectLogType raw = LogTypeCEF ∨
        DetectLogType raw = LogTypeLEEF ∨ DetectLogType raw = LogTypeXML ∨
        DetectLogType raw = LogTypeUnknown) := by
  refine ⟨?_, by cases DetectLogType raw <;> simp⟩
  unfold DetectLogType detectRulesWith
  simp only []
  generalize TrimSpace raw = s
  rw [processor.rule5_eq s,
    Bool.or_comm (HasPrefix s "<".toList && Contains s "<?xml".toList) (HasPrefix s "<?xml".toList)]

/-- C1 fails as stated: the rules applied to the input itself give `unknown` for
a CEF line with a leading blank, which the detector classifies `cef`; and they
give `syslog` for `<>`, which the detector classifies `unknown`. -/
theorem C1_rules_on_raw_input_differ :
    DetectLogType " CEF:0|V|P|1|1|n|5|".toList = LogTypeCEF ∧
      detectRules " CEF:0|V|P|1|1|n|5|".toList = LogTypeUnknown ∧
      DetectLogType "<>".toList = LogTypeUnknown ∧
      detectRules "<>".toList = LogTypeSyslog := by
  decide

/-! ## The orchestrator -/

/-- C2: `Process` fails with the unrecognised-format error when the detector
answers `unknown`, whatever the parsers would do, and otherwise returns what the
parser selected by the tag returns for the same line; the text
"This is not a valid log format" is rejected in this way. -/
theorem C2_process_dispatch {Time : Type} (lib : Lib Time) (call : Call Time) (raw : Str) :
    (DetectLogType raw = LogTypeUnknown → Process lib call raw = .error .unknownLogType) ∧
      (DetectLogType raw = LogTypeSyslog →
        Process lib call raw = SyslogParser.Parse lib call raw) ∧
      (DetectLogType raw = LogTypeCEF → Process lib call raw = CEFParser.Parse lib call raw) ∧
      (DetectLogType raw = LogTypeLEEF → Process lib call raw = LEEFParser.Parse lib call raw) ∧
      (DetectLogType raw = LogTypeXML → Process lib call raw = XMLParser.Parse lib call raw) ∧
      Process lib call "This is not a valid log format".toList = .error .unknownLogType := by
  refine ⟨?_, ?_, ?_, ?_, ?_, ?_⟩
  · intro h; simp only [Process, h]
  · intro h; simp only [Process, h]
  · intro h; simp only [Process, h]
  · intro h; simp only [Process, h]
  · intro h; simp only [Process, h]
  · have h : DetectLogType "This is not a valid log format".toList = LogTypeUnknown := by decide
    simp only [Process, h]

/-- C2 at the line of the test suite that no rule recognises. -/
theorem C2_process_dispatch_witness :
    DetectLogType "This is not a valid log format".toList = LogTypeUnknown ∧
      Process (exampleLib (.error [])) exampleCall "This is not a valid log format".toList =
        .error .unknownLogType :=
  ⟨by decide,
    (C2_process_dispatch (exampleLib (.error [])) exampleCall
      "This is not a valid log format".toList).1 (by decide)⟩

/-- The events a batch loop collects from a list of numbered lines. -/
theorem processor.processBatchLoop_eq {Time : Type} (lib : Lib Time) (calls : Nat → Call Time) :
    ∀ (l : List Str) (i : Nat) (events : List (GOSTEvent Time)) (errors : List Error),
      processBatchLoop lib calls l i events errors =
        (events ++ (l.enumFrom i).filterMap (fun p =>
            match Process lib (calls p.1) p.2 with
            | .ok e => some e
            | .error _ => none),
          errors ++ (l.enumFrom i).filterMap (fun p =>
            match Process lib (calls p.1) p.2 with
            | .ok _ => none
            | .error err => some (Error.line ((p.1 : Int) + 1) err)))
  | [], i, events, errors => by simp [processBatchLoop]
  | x :: xs, i, events, errors => by
    unfold processBatchLoop
    cases h : Process lib (calls i) x with
    | error err =>
      simp only [processor.processBatchLoop_eq lib calls xs (i + 1), List.enumFrom_cons,
        List.filterMap_cons, h, List.append_assoc, List.singleton_append]
    | ok e =>
      simp only [processor.processBatchLoop_eq lib calls xs (i + 1), List.enumFrom_cons,
        List.filterMap_cons, h, List.append_assoc, List.singleton_append]

theorem Spec.length_filterMap_ok {Time : Type} (lib : Lib Time) (calls : Nat → Call Time) :
    ∀ (ps : List (Nat × Str)),
      (ps.filterMap (fun p =>
          match Process lib (calls p.1) p.2 with
          | .ok e => some e
          | .error _ => none)).length = (ps.filter (accepted lib calls)).length
  | [] => rfl
  | p :: ps => by
    have ih := Spec.length_filterMap_ok lib calls ps
    cases h : Process lib (calls p.1) p.2 <;>
      simp [List.filterMap_cons, List.filter_cons, accepted, h, ih]

theorem Spec.lineNumber_filterMap_error {Time : Type} (lib : Lib Time)
    (calls : Nat → Call Time) :
    ∀ (ps : List (Nat × Str)),
      (ps.filterMap (fun p =>
          match Process lib (calls p.1) p.2 with
          | .ok _ => none
          | .error err => some (Error.line ((p.1 : Int) + 1) err))).map lineNumber =
        ((ps.filter (fun p => !accepted lib calls p)).map Prod.fst).map
          (fun (i : Nat) => some ((i : Int) + 1))
  | [] => rfl
  | p :: ps => by
    have ih := Spec.lineNumber_filterMap_error lib calls ps
    cases h : Process lib (calls p.1) p.2 <;>
      simp [List.filterMap_cons, List.filter_cons, accepted, h, ih, lineNumber]

/-- C3: for a batch of N lines of which K are accepted by `Process`,
`ProcessBatch` returns K events and N - K errors, and the line numbers of the
errors are, in order, the positions of the rejected lines plus one; these
positions are strictly increasing and below N. -/
theorem C3_batch_counts_and_line_numbers {Time : Type} (lib : Lib Time)
    (calls : Nat → Call Time) (lines : List Str) :
    (ProcessBatch lib calls lines).1.length = acceptedCount lib calls lines ∧
      (ProcessBatch lib calls lines).2.length = lines.length - acceptedCount lib calls lines ∧
      (ProcessBatch lib calls lines).2.map lineNumber =
        (rejectedPositions lib calls lines).map (fun (i : Nat) => some ((i : Int) + 1)) ∧
      (rejectedPositions lib calls lines).Pairwise (· < ·) ∧
      ∀ i ∈ rejectedPositions lib calls lines, i < lines.length := by
  have hloop := processor.processBatchLoop_eq lib calls lines 0 [] []
  have hsplit : (lines.enum.filter (accepted lib calls)).length +
      (lines.enum.filter (fun p => !accepted lib calls p)).length = lines.length := by
    have := List.length_eq_length_filter_add (l := lines.enum) (accepted lib calls)
    simp only [List.enum_length] at this
    omega
  have hnum := Spec.lineNumber_filterMap_error lib calls lines.enum
  have hsub : (rejectedPositions lib calls lines).Sublist (List.range lines.length) := by
    unfold rejectedPositions
    have h1 : (lines.enum.filter (fun p => !accepted lib calls p)).Sublist lines.enum :=
      List.filter_sublist _
    have h2 := h1.map Prod.fst
    rwa [List.enum_map_fst] at h2
  refine ⟨?_, ?_, ?_, ?_, ?_⟩
  · simp only [ProcessBatch, hloop, List.nil_append, acceptedCount]
    exact Spec.length_filterMap_ok lib calls lines.enum
  · simp only [ProcessBatch, hloop, List.nil_append, acceptedCount]
    have h : (lines.enum.filterMap (fun p =>
          match Process lib (calls p.1) p.2 with
          | .ok _ => none
          | .error err => some (Error.line ((p.1 : Int) + 1) err))).length =
        (lines.enum.filter (fun p => !accepted lib calls p)).length := by
      have h0 := congrArg List.length hnum
      rw [List.length_map, List.length_map, List.length_map] at h0
      exact h0
    rw [← List.enum] at *
    rw [h]
    omega
  · simp only [ProcessBatch, hloop, List.nil_append, rejectedPositions]
    exact hnum
  · exact (List.pairwise_lt_range lines.length).sublist hsub
  · intro i hi
    exact List.mem_range.mp (hsub.subset hi)

/-! ## The closed sets of the canonical event -/

theorem parser.SyslogParser.mapSyslogSeverityToGOST_mem (p : Int) :
    SyslogParser.mapSyslogSeverityToGOST p ∈ severities := by
  unfold SyslogParser.mapSyslogSeverityToGOST
  simp only []
  split_ifs <;> simp [severities]

theorem parser.SyslogParser.categorizeSyslogMessage_mem (tbl : Char → Char) (m : Str) :
    SyslogParser.categorizeSyslogMessage tbl m ∈ categories := by
  unfold SyslogParser.categorizeSyslogMessage
  simp only []
  split_ifs <;> simp [categories]

theorem parser.CEFParser.mapCEFSeverityToGOST_mem (t : Str) :
    CEFParser.mapCEFSeverityToGOST t ∈ severities := by
  unfold CEFParser.mapCEFSeverityToGOST
  split
  · simp [severities]
  · split_ifs <;> simp [severities]

theorem parser.CEFParser.categorizeCEFEvent_mem (tbl : Char → Char) (sig name : Str)
    (ext : GoMap Str) : CEFParser.categorizeCEFEvent tbl sig name ext ∈ categories := by
  unfold CEFParser.categorizeCEFEvent
  simp only []
  split_ifs <;> simp [categories]

theorem parser.CEFParser.resultFromAct_mem (tbl : Char → Char) (ext : GoMap Str) :
    CEFParser.resultFromAct tbl ext ∈ results := by
  unfold CEFParser.resultFromAct
  split
  · simp only []
    split_ifs <;> simp [results]
  · simp [results]

theorem parser.CEFParser.cef_determineResult_mem (tbl : Char → Char) (ext : GoMap Str) :
    CEFParser.determineResult tbl ext ∈ results := by
  unfold CEFParser.determineResult
  have h := parser.CEFParser.resultFromAct_mem tbl ext
  split
  · simp only []
    split_ifs
    · simp [results]
    · simp [results]
    · exact h
  · exact h

theorem parser.LEEFParser.mapLEEFSeverityToGOST_mem (tbl : Char → Char) (attrs : GoMap Str) :
    LEEFParser.mapLEEFSeverityToGOST tbl attrs ∈ severities := by
  unfold LEEFParser.mapLEEFSeverityToGOST
  split
  · simp only []
    split_ifs <;> simp [severities]
  · simp [severities]

theorem parser.LEEFParser.categoryFromEventID_mem (e : Str) :
    LEEFParser.categoryFromEventID e ∈ categories := by
  unfold LEEFParser.categoryFromEventID
  split_ifs <;> simp [categories]

theorem parser.LEEFParser.categorizeLEEFEvent_mem (tbl : Char → Char) (e : Str)
    (attrs : GoMap Str) : LEEFParser.categorizeLEEFEvent tbl e attrs ∈ categories := by
  unfold LEEFParser.categorizeLEEFEvent
  have h := parser.LEEFParser.categoryFromEventID_mem (ToLower tbl e)
  split
  · simp only []
    split_ifs
    · simp [categories]
    · simp [categories]
    · simp [categories]
    · exact h
  · exact h

theorem parser.LEEFParser.resultFromAction_mem (tbl : Char → Char) (attrs : GoMap Str) :
    LEEFParser.resultFromAction tbl attrs ∈ results := by
  unfold LEEFParser.resultFromAction
  split
  · simp only []
    split_ifs <;> simp [results]
  · simp [results]

theorem parser.LEEFParser.leef_determineResult_mem (tbl : Char → Char) (attrs : GoMap Str) :
    LEEFParser.determineResult tbl attrs ∈ results := by
  unfold LEEFParser.determineResult
  have h := parser.LEEFParser.resultFromAction_mem tbl attrs
  split
  · simp only []
    split_ifs
    · simp [results]
    · simp [results]
    · exact h
  · exact h

theorem parser.XMLParser.mapXMLLevelToGOST_mem (l : Int) :
    XMLParser.mapXMLLevelToGOST l ∈ severities := by
  unfold XMLParser.mapXMLLevelToGOST
  split_ifs <;> simp [severities]

theorem parser.XMLParser.categorizeXMLEvent_mem (tbl : Char → Char) (e : Event) :
    XMLParser.categorizeXMLEvent tbl e ∈ categories := by
  unfold XMLParser.categorizeXMLEvent
  simp only []
  split_ifs <;> simp [categories]

theorem parser.XMLParser.resultFromData_mem (tbl : Char → Char) :
    ∀ (ds : List Data) (r : Str), XMLParser.resultFromData tbl ds = some r → r ∈ results
  | [], r, h => by simp [XMLParser.resultFromData] at h
  | d :: ds, r, h => by
    have ih := parser.XMLParser.resultFromData_mem tbl ds r
    unfold XMLParser.resultFromData at h
    simp only [] at h
    split_ifs at h
    · cases h; simp [results]
    · cases h; simp [results]
    · exact ih h
    · exact ih h

theorem parser.XMLParser.xml_determineResult_mem (tbl : Char → Char) (e : Event) :
    XMLParser.determineResult tbl e ∈ results := by
  unfold XMLParser.determineResult
  split
  · next r h => exact parser.XMLParser.resultFromData_mem tbl _ r h
  · simp only []
    split_ifs <;> simp [results]

theorem parser.XMLParser.enrich_fields {Time : Type} (tbl : Char → Char) :
    ∀ (ds : List Data) (g : GOSTEvent Time),
      (XMLParser.enrichEventFromEventData tbl g ds).Severity = g.Severity ∧
      (XMLParser.enrichEventFromEventData tbl g ds).Category = g.Category ∧
      (XMLParser.enrichEventFromEventData tbl g ds).Result = g.Result ∧
      (XMLParser.enrichEventFromEventData tbl g ds).AdditionalData = g.AdditionalData
  | [], g => by simp [XMLParser.enrichEventFromEventData]
  | d :: ds, g => by
    unfold XMLParser.enrichEventFromEventData
    simp only []
    split_ifs
    all_goals first
      | exact parser.XMLParser.enrich_fields tbl ds g
      | exact parser.XMLParser.enrich_fields tbl ds _

/-- Membership of the three enumerated fields of an event in their closed sets. -/
theorem Spec.closed_of_fields {Time : Type} (ev : GOSTEvent Time)
    (h1 : ev.Severity ∈ severities) (h2 : ev.Category ∈ categories) (h3 : ev.Result ∈ results) :
    ev.Severity ∈ severities ∧ ev.Category ∈ categories ∧ ev.Result ∈ results :=
  ⟨h1, h2, h3⟩

theorem parser.SyslogParser.syslog_parse_closed {Time : Type} (lib : Lib Time) (call : Call Time)
    (raw : Str) (ev : GOSTEvent Time) (h : SyslogParser.Parse lib call raw = .ok ev) :
    ev.Severity ∈ severities ∧ ev.Category ∈ categories ∧ ev.Result ∈ results := by
  unfold SyslogParser.Parse at h
  split at h
  · unfold SyslogParser.parseRFC5424 at h
    injection h with h
    subst h
    exact ⟨parser.SyslogParser.mapSyslogSeverityToGOST_mem _,
      parser.SyslogParser.categorizeSyslogMessage_mem _ _, by simp [results]⟩
  · split at h
    · unfold SyslogParser.parseRFC3164 at h
      injection h with h
      subst h
      exact ⟨parser.SyslogParser.mapSyslogSeverityToGOST_mem _,
        parser.SyslogParser.categorizeSyslogMessage_mem _ _, by simp [results]⟩
    · cases h

theorem parser.CEFParser.cef_parse_closed {Time : Type} (lib : Lib Time) (call : Call Time)
    (raw : Str) (ev : GOSTEvent Time) (h : CEFParser.Parse lib call raw = .ok ev) :
    ev.Severity ∈ severities ∧ ev.Category ∈ categories ∧ ev.Result ∈ results := by
  unfold CEFParser.Parse at h
  split at h
  · cases h
  · injection h with h
    subst h
    exact ⟨parser.CEFParser.mapCEFSeverityToGOST_mem _,
      parser.CEFParser.categorizeCEFEvent_mem _ [] _ [], parser.CEFParser.cef_determineResult_mem _ _⟩

theorem parser.LEEFParser.leef_parse_closed {Time : Type} (lib : Lib Time) (call : Call Time)
    (raw : Str) (ev : GOSTEvent Time) (h : LEEFParser.Parse lib call raw = .ok ev) :
    ev.Severity ∈ severities ∧ ev.Category ∈ categories ∧ ev.Result ∈ results := by
  unfold LEEFParser.Parse at h
  split at h
  · cases h
  · injection h with h
    subst h
    exact ⟨parser.LEEFParser.mapLEEFSeverityToGOST_mem _ _,
      parser.LEEFParser.categorizeLEEFEvent_mem _ _ _, parser.LEEFParser.leef_determineResult_mem _ _⟩

theorem parser.XMLParser.xml_parse_closed {Time : Type} (lib : Lib Time) (call : Call Time)
    (raw : Str) (ev : GOSTEvent Time) (h : XMLParser.Parse lib call raw = .ok ev) :
    ev.Severity ∈ severities ∧ ev.Category ∈ categories ∧ ev.Result ∈ results := by
  unfold XMLParser.Parse at h
  split at h
  · cases h
  · injection h with h
    subst h
    obtain ⟨e1, e2, e3, _⟩ := parser.XMLParser.enrich_fields lib.unicodeLower _ _
    rw [e1, e2, e3]
    exact ⟨parser.XMLParser.mapXMLLevelToGOST_mem _, parser.XMLParser.categorizeXMLEvent_mem _ _,
      parser.XMLParser.xml_determineResult_mem _ _⟩

/-- C4: every event produced by the syslog, CEF, LEEF or XML parser has its
severity among the five severity constants, its category among the seven
category constants and its result among the three result constants. -/
theorem C4_enumerated_fields_closed {Time : Type} (lib : Lib Time) (call : Call Time)
    (raw : Str) (ev : GOSTEvent Time)
    (h : SyslogParser.Parse lib call raw = .ok ev ∨ CEFParser.Parse lib call raw = .ok ev ∨
      LEEFParser.Parse lib call raw = .ok ev ∨ XMLParser.Parse lib call raw = .ok ev) :
    ev.Severity ∈ severities ∧ ev.Category ∈ categories ∧ ev.Result ∈ results := by
  rcases h with h | h | h | h
  · exact parser.SyslogParser.syslog_parse_closed lib call raw ev h
  · exact parser.CEFParser.cef_parse_closed lib call raw ev h
  · exact parser.LEEFParser.leef_parse_closed lib call raw ev h
  · exact parser.XMLParser.xml_parse_closed lib call raw ev h

/-- C4 at the RFC 3164 line of the test suite. -/
theorem C4_enumerated_fields_closed_witness :
    SyslogParser.Parse (exampleLib (.error [])) exampleCall rfc3164Line = .ok rfc3164Event ∧
      rfc3164Event.Severity ∈ severities ∧ rfc3164Event.Category ∈ categories ∧
      rfc3164Event.Result ∈ results :=
  ⟨rfl, C4_enumerated_fields_closed (exampleLib (.error [])) exampleCall rfc3164Line rfc3164Event
    (Or.inl rfl)⟩

/-! ## The keys of `additional_data` -/

theorem Go.mem_keys_set {V : Type} (m : GoMap V) (k : Str) (v : V) (k' : Str) :
    k' ∈ (m.set k v).keys ↔ k' = k ∨ (k' ≠ k ∧ k' ∈ m.keys) := by
  unfold GoMap.set GoMap.keys
  simp only [List.map_cons, List.mem_cons, List.mem_map, List.mem_filter, bne_iff_ne, ne_eq,
    Prod.exists, exists_and_right, exists_eq_right]
  constructor
  · rintro (h | ⟨h1, h2⟩)
    · exact Or.inl h
    · exact Or.inr ⟨h2, h1⟩
  · rintro (h | ⟨h2, h1⟩)
    · exact Or.inl h
    · exact Or.inr ⟨h1, h2⟩

theorem Go.keys_set_subset {V : Type} (m : GoMap V) (k : Str) (v : V) (P : Str → Prop)
    (hk : P k) (hm : ∀ k' ∈ m.keys, P k') : ∀ k' ∈ (m.set k v).keys, P k' := by
  intro k' h
  rcases (Go.mem_keys_set m k v k').mp h with h | ⟨_, h⟩
  · exact h ▸ hk
  · exact hm k' h

theorem Go.keys_nil_all {V : Type} (P : Str → Prop) : ∀ k' ∈ GoMap.keys ([] : GoMap V), P k' := by
  intro k' h
  simp [GoMap.keys] at h

theorem parser.CEFParser.copyExtensions_keys (P : Str → Prop)
    (hP : ∀ k, P ("cef_".toList ++ k)) :
    ∀ (exts : List (Str × Str)) (ad : GoMap Value), (∀ k ∈ ad.keys, P k) →
      ∀ k ∈ (CEFParser.copyExtensions exts ad).keys, P k
  | [], _, h => h
  | (k, _) :: rest, ad, h =>
    parser.CEFParser.copyExtensions_keys P hP rest _ (Go.keys_set_subset ad _ _ P (hP k) h)

theorem parser.LEEFParser.copyAttributes_keys (P : Str → Prop)
    (hP : ∀ k, P ("leef_".toList ++ k)) :
    ∀ (attrs : List (Str × Str)) (ad : GoMap Value), (∀ k ∈ ad.keys, P k) →
      ∀ k ∈ (LEEFParser.copyAttributes attrs ad).keys, P k
  | [], _, h => h
  | (k, _) :: rest, ad, h =>
    parser.LEEFParser.copyAttributes_keys P hP rest _ (Go.keys_set_subset ad _ _ P (hP k) h)

theorem parser.XMLParser.copyEventData_keys (P : Str → Prop)
    (hP : ∀ k, P ("xml_".toList ++ k)) :
    ∀ (ds : List Data) (ad : GoMap Value), (∀ k ∈ ad.keys, P k) →
      ∀ k ∈ (XMLParser.copyEventData ds ad).keys, P k
  | [], ad, h => h
  | d :: rest, ad, h => by
    unfold XMLParser.copyEventData
    split_ifs
    · exact parser.XMLParser.copyEventData_keys P hP rest _
        (Go.keys_set_subset ad _ _ P (hP d.Name) h)
    · exact parser.XMLParser.copyEventData_keys P hP rest ad h

/-- A key without the tag survives the copy of the extensions. -/
theorem parser.CEFParser.copyExtensions_keeps (k0 : Str)
    (h0 : HasPrefix k0 "cef_".toList = false) :
    ∀ (exts : List (Str × Str)) (ad : GoMap Value), k0 ∈ ad.keys →
      k0 ∈ (CEFParser.copyExtensions exts ad).keys
  | [], ad, h => h
  | (k, v) :: rest, ad, h => by
    refine parser.CEFParser.copyExtensions_keeps k0 h0 rest _ ?_
    refine (Go.mem_keys_set ad _ _ k0).mpr (Or.inr ⟨?_, h⟩)
    intro e
    rw [e] at h0
    simp [HasPrefix, List.isPrefixOf] at h0

theorem parser.LEEFParser.copyAttributes_keeps (k0 : Str)
    (h0 : HasPrefix k0 "leef_".toList = false) :
    ∀ (attrs : List (Str × Str)) (ad : GoMap Value), k0 ∈ ad.keys →
      k0 ∈ (LEEFParser.copyAttributes attrs ad).keys
  | [], ad, h => h
  | (k, v) :: rest, ad, h => by
    refine parser.LEEFParser.copyAttributes_keeps k0 h0 rest _ ?_
    refine (Go.mem_keys_set ad _ _ k0).mpr (Or.inr ⟨?_, h⟩)
    intro e
    rw [e] at h0
    simp [HasPrefix, List.isPrefixOf] at h0

theorem parser.XMLParser.copyEventData_keeps (k0 : Str)
    (h0 : HasPrefix k0 "xml_".toList = false) :
    ∀ (ds : List Data) (ad : GoMap Value), k0 ∈ ad.keys →
      k0 ∈ (XMLParser.copyEventData ds ad).keys
  | [], ad, h => h
  | d :: rest, ad, h => by
    unfold XMLParser.copyEventData
    split_ifs
    · refine parser.XMLParser.copyEventData_keeps k0 h0 rest _ ?_
      refine (Go.mem_keys_set ad _ _ k0).mpr (Or.inr ⟨?_, h⟩)
      intro e
      rw [e] at h0
      simp [HasPrefix, List.isPrefixOf] at h0
    · exact parser.XMLParser.copyEventData_keeps k0 h0 rest ad h

theorem parser.SyslogParser.syslog_keys {Time : Type} (lib : Lib Time) (call : Call Time)
    (raw : Str) (ev : GOSTEvent Time) (h : SyslogParser.Parse lib call raw = .ok ev) :
    ∀ k ∈ ev.AdditionalData.keys, HasPrefix k "syslog_".toList = true := by
  unfold SyslogParser.Parse at h
  split at h
  · unfold SyslogParser.parseRFC5424 at h
    injection h with h
    subst h
    refine Go.keys_set_subset _ _ _ _ (by decide) ?_
    refine Go.keys_set_subset _ _ _ _ (by decide) ?_
    refine Go.keys_set_subset _ _ _ _ (by decide) ?_
    refine Go.keys_set_subset _ _ _ _ (by decide) ?_
    refine Go.keys_set_subset _ _ _ _ (by decide) ?_
    exact Go.keys_nil_all _
  · split at h
    · unfold SyslogParser.parseRFC3164 at h
      injection h with h
      subst h
      refine Go.keys_set_subset _ _ _ _ (by decide) ?_
      refine Go.keys_set_subset _ _ _ _ (by decide) ?_
      refine Go.keys_set_subset _ _ _ _ (by decide) ?_
      exact Go.keys_nil_all _
    · cases h

theorem parser.CEFParser.cef_keys {Time : Type} (lib : Lib Time) (call : Call Time)
    (raw : Str) (ev : GOSTEvent Time) (h : CEFParser.Parse lib call raw = .ok ev) :
    (∀ k ∈ ev.AdditionalData.keys, HasPrefix k "cef_".toList = true ∨ k ∈ cefHeaderKeys) ∧
      ∀ k ∈ cefHeaderKeys, k ∈ ev.AdditionalData.keys := by
  unfold CEFParser.Parse at h
  split at h
  · cases h
  · injection h with h
    subst h
    constructor
    · refine parser.CEFParser.copyExtensions_keys _ ?_ _ _ ?_
      · intro k; left; simp [HasPrefix, List.isPrefixOf]
      · refine Go.keys_set_subset _ _ _ _ (by decide) ?_
        refine Go.keys_set_subset _ _ _ _ (by decide) ?_
        refine Go.keys_set_subset _ _ _ _ (by decide) ?_
        refine Go.keys_set_subset _ _ _ _ (by decide) ?_
        refine Go.keys_set_subset _ _ _ _ (by decide) ?_
        refine Go.keys_set_subset _ _ _ _ (by decide) ?_
        exact Go.keys_nil_all _
    · intro k hk
      simp only [cefHeaderKeys, List.mem_cons, List.mem_singleton, List.not_mem_nil, or_false]
        at hk
      rcases hk with rfl | rfl | rfl | rfl
      all_goals
        refine parser.CEFParser.copyExtensions_keeps _ (by decide) _ _ ?_
        simp only [Go.mem_keys_set]
        decide

theorem parser.LEEFParser.leef_keys {Time : Type} (lib : Lib Time) (call : Call Time)
    (raw : Str) (ev : GOSTEvent Time) (h : LEEFParser.Parse lib call raw = .ok ev) :
    (∀ k ∈ ev.AdditionalData.keys, HasPrefix k "leef_".toList = true ∨ k ∈ leefHeaderKeys) ∧
      ∀ k ∈ leefHeaderKeys, k ∈ ev.AdditionalData.keys := by
  unfold LEEFParser.Parse at h
  split at h
  · cases h
  · injection h with h
    subst h
    constructor
    · refine parser.LEEFParser.copyAttributes_keys _ ?_ _ _ ?_
      · intro k; left; simp [HasPrefix, List.isPrefixOf]
      · refine Go.keys_set_subset _ _ _ _ (by decide) ?_
        refine Go.keys_set_subset _ _ _ _ (by decide) ?_
        refine Go.keys_set_subset _ _ _ _ (by decide) ?_
        refine Go.keys_set_subset _ _ _ _ (by decide) ?_
        refine Go.keys_set_subset _ _ _ _ (by decide) ?_
        exact Go.keys_nil_all _
    · intro k hk
      simp only [leefHeaderKeys, List.mem_cons, List.mem_singleton, List.not_mem_nil, or_false]
        at hk
      rcases hk with rfl | rfl | rfl | rfl
      all_goals
        refine parser.LEEFParser.copyAttributes_keeps _ (by decide) _ _ ?_
        simp only [Go.mem_keys_set]
        decide

theorem parser.XMLParser.xml_keys {Time : Type} (lib : Lib Time) (call : Call Time)
    (raw : Str) (ev : GOSTEvent Time) (h : XMLParser.Parse lib call raw = .ok ev) :
    (∀ k ∈ ev.AdditionalData.keys, HasPrefix k "xml_".toList = true ∨ k ∈ xmlHeaderKeys) ∧
      ∀ k ∈ xmlHeaderKeys, k ∈ ev.AdditionalData.keys := by
  unfold XMLParser.Parse at h
  split at h
  · cases h
  · injection h with h
    subst h
    rw [(parser.XMLParser.enrich_fields lib.unicodeLower _ _).2.2.2]
    constructor
    · refine parser.XMLParser.copyEventData_keys _ ?_ _ _ ?_
      · intro k; left; simp [HasPrefix, List.isPrefixOf]
      · refine Go.keys_set_subset _ _ _ _ (by decide) ?_
        refine Go.keys_set_subset _ _ _ _ (by decide) ?_
        refine Go.keys_set_subset _ _ _ _ (by decide) ?_
        refine Go.keys_set_subset _ _ _ _ (by decide) ?_
        refine Go.keys_set_subset _ _ _ _ (by decide) ?_
        refine Go.keys_set_subset _ _ _ _ (by decide) ?_
        refine Go.keys_set_subset _ _ _ _ (by decide) ?_
        refine Go.keys_set_subset _ _ _ _ (by decide) ?_
        exact Go.keys_nil_all _
    · intro k hk
      simp only [xmlHeaderKeys, List.mem_singleton] at hk
      subst hk
      refine parser.XMLParser.copyEventData_keeps _ (by decide) _ _ ?_
      simp only [Go.mem_keys_set]
      decide

/-- C5 (as amended): every key of `additional_data` begins with the tag of the
format that produced the event, except the header keys that the CEF, LEEF and
XML parsers store under fixed names without the tag (`device_vendor`,
`device_product`, `device_version`, `signature_id`; `vendor`, `product`,
`product_version`, `event_id`; `provider_guid`), which every event of these
parsers carries. -/
theorem C5_keys_tagged_or_header {Time : Type} (lib : Lib Time) (call : Call Time)
    (raw : Str) (ev : GOSTEvent Time) :
    (SyslogParser.Parse lib call raw = .ok ev →
        ∀ k ∈ ev.AdditionalData.keys, HasPrefix k "syslog_".toList = true) ∧
      (CEFParser.Parse lib call raw = .ok ev →
        (∀ k ∈ ev.AdditionalData.keys, HasPrefix k "cef_".toList = true ∨ k ∈ cefHeaderKeys) ∧
          ∀ k ∈ cefHeaderKeys, k ∈ ev.AdditionalData.keys) ∧
      (LEEFParser.Parse lib call raw = .ok ev →
        (∀ k ∈ ev.AdditionalData.keys, HasPrefix k "leef_".toList = true ∨ k ∈ leefHeaderKeys) ∧
          ∀ k ∈ leefHeaderKeys, k ∈ ev.AdditionalData.keys) ∧
      (XMLParser.Parse lib call raw = .ok ev →
        (∀ k ∈ ev.AdditionalData.keys, HasPrefix k "xml_".toList = true ∨ k ∈ xmlHeaderKeys) ∧
          ∀ k ∈ xmlHeaderKeys, k ∈ ev.AdditionalData.keys) :=
  ⟨parser.SyslogParser.syslog_keys lib call raw ev, parser.CEFParser.cef_keys lib call raw ev,
    parser.LEEFParser.leef_keys lib call raw ev, parser.XMLParser.xml_keys lib call raw ev⟩

/-- C5 (as amended) at the RFC 3164 line of the test suite. -/
theorem C5_keys_tagged_or_header_witness :
    SyslogParser.Parse (exampleLib (.error [])) exampleCall rfc3164Line = .ok rfc3164Event ∧
      ∀ k ∈ rfc3164Event.AdditionalData.keys, HasPrefix k "syslog_".toList = true :=
  ⟨rfl, (C5_keys_tagged_or_header (exampleLib (.error [])) exampleCall rfc3164Line
    rfc3164Event).1 rfl⟩

/-- C5 fails as stated: the event of the CEF line of the test suite has the key
`device_vendor`, which does not begin with `cef_`. -/
theorem C5_cef_header_key_untagged :
    ∃ ev, CEFParser.Parse (exampleLib (.error [])) exampleCall cefLine = .ok ev ∧
      "device_vendor".toList ∈ ev.AdditionalData.keys ∧
      HasPrefix "device_vendor".toList "cef_".toList = false :=
  ⟨_, rfl, by decide, by decide⟩

/-! ## The syslog priority -/

theorem Go.lookup_filter_ne {V : Type} (k k' : Str) (h : k' ≠ k) :
    ∀ (m : GoMap V), List.lookup k' (m.filter (fun e => e.1 != k)) = List.lookup k' m
  | [] => rfl
  | (a, v) :: m => by
    have ih := Go.lookup_filter_ne k k' h m
    by_cases ha : a = k
    · subst ha
      have hne : (k' == a) = false := by simpa using h
      simp [List.filter_cons, List.lookup_cons, hne, ih]
    · have hne : (a != k) = true := by simpa using ha
      simp only [List.filter_cons, hne, if_true, List.lookup_cons, ih]

theorem Go.get?_set {V : Type} (m : GoMap V) (k : Str) (v : V) (k' : Str) :
    (m.set k v).get? k' = if k' = k then some v else m.get? k' := by
  unfold GoMap.set GoMap.get?
  by_cases h : k' = k
  · subst h
    simp [List.lookup_cons]
  · have hne : (k' == k) = false := by simpa using h
    simp only [List.lookup_cons, hne, h, if_false]
    exact Go.lookup_filter_ne k k' h m

theorem parser.SyslogParser.severity_table (p : Int) (hp : 0 ≤ p) :
    syslogSeverityTable (p % 8).toNat = some (SyslogParser.mapSyslogSeverityToGOST p) := by
  unfold SyslogParser.mapSyslogSeverityToGOST
  simp only [Int.tmod_eq_emod hp (by decide : (0 : Int) ≤ 8)]
  have h1 : 0 ≤ p % 8 := Int.emod_nonneg p (by decide)
  have h2 : p % 8 < 8 := Int.emod_lt_of_pos p (by decide)
  obtain ⟨k, hk⟩ := Int.eq_ofNat_of_zero_le h1
  rw [hk] at h2 ⊢
  have hk8 : k < 8 := by omega
  simp only [Int.toNat_ofNat]
  interval_cases k <;> simp [syslogSeverityTable]

theorem parser.SyslogParser.syslog_priority_data {Time : Type} (lib : Lib Time)
    (call : Call Time) (raw : Str) (ev : GOSTEvent Time)
    (h : SyslogParser.Parse lib call raw = .ok ev) :
    ∃ q : Int, ev.AdditionalData.get? "syslog_priority".toList = some (.int q) ∧
      ev.AdditionalData.get? "syslog_facility".toList = some (.int (Int.tdiv q 8)) ∧
      ev.AdditionalData.get? "syslog_severity".toList = some (.int (Int.tmod q 8)) ∧
      ev.Severity = SyslogParser.mapSyslogSeverityToGOST q := by
  unfold SyslogParser.Parse at h
  split at h
  · unfold SyslogParser.parseRFC5424 at h
    injection h with h
    subst h
    refine ⟨_, ?_, ?_, ?_, rfl⟩ <;>
    · simp only [Go.get?_set]
      rfl
  · split at h
    · unfold SyslogParser.parseRFC3164 at h
      injection h with h
      subst h
      refine ⟨_, ?_, ?_, ?_, rfl⟩ <;>
      · simp only [Go.get?_set]
        rfl
    · cases h

/-- C6: for a non-negative priority `p` the severity of the syslog parser is the
entry of the table for the code `p mod 8` (so it depends on `p mod 8` only);
priority 134 has code 6 and maps to low; and an event whose recorded
`syslog_priority` is `p` records `syslog_facility = p / 8` and
`syslog_severity = p mod 8`, with `8 * (p / 8) + p mod 8 = p`. -/
theorem C6_syslog_priority_decomposition (p : Int) (hp : 0 ≤ p) :
    syslogSeverityTable (p % 8).toNat = some (SyslogParser.mapSyslogSeverityToGOST p) ∧
      SyslogParser.mapSyslogSeverityToGOST p = SyslogParser.mapSyslogSeverityToGOST (p % 8) ∧
      SyslogParser.mapSyslogSeverityToGOST 134 = SeverityLow ∧
      (∀ {Time : Type} (lib : Lib Time) (call : Call Time) (raw : Str) (ev : GOSTEvent Time),
        SyslogParser.Parse lib call raw = .ok ev →
        ev.AdditionalData.get? "syslog_priority".toList = some (.int p) →
          ev.Severity = SyslogParser.mapSyslogSeverityToGOST p ∧
          ev.AdditionalData.get? "syslog_facility".toList = some (.int (p / 8)) ∧
          ev.AdditionalData.get? "syslog_severity".toList = some (.int (p % 8))) ∧
      8 * (p / 8) + p % 8 = p := by
  have h8 : (0 : Int) ≤ 8 := by decide
  refine ⟨parser.SyslogParser.severity_table p hp, ?_, by decide, ?_, ?_⟩
  · have h1 : 0 ≤ p % 8 := Int.emod_nonneg p (by decide)
    unfold SyslogParser.mapSyslogSeverityToGOST
    simp only [Int.tmod_eq_emod hp h8, Int.tmod_eq_emod h1 h8, Int.emod_emod_of_dvd p (dvd_refl 8)]
  · intro Time lib call raw ev h hq
    obtain ⟨q, h1, h2, h3, h4⟩ := parser.SyslogParser.syslog_priority_data lib call raw ev h
    rw [h1] at hq
    injection hq with hq
    injection hq with hq
    subst hq
    rw [h2, h3, h4, Int.tdiv_eq_ediv hp h8, Int.tmod_eq_emod hp h8]
    exact ⟨rfl, rfl, rfl⟩
  · exact Int.ediv_add_emod p 8

/-- C6 at the priority 134 of the RFC 3164 line of the test suite. -/
theorem C6_syslog_priority_decomposition_witness :
    (0 : Int) ≤ 134 ∧
      syslogSeverityTable 6 = some (SyslogParser.mapSyslogSeverityToGOST 134) ∧
      rfc3164Event.AdditionalData.get? "syslog_facility".toList = some (.int 16) ∧
      rfc3164Event.AdditionalData.get? "syslog_severity".toList = some (.int 6) :=
  ⟨by decide, (C6_syslog_priority_decomposition 134 (by decide)).1,
    ((C6_syslog_priority_decomposition 134 (by decide)).2.2.2.1 (exampleLib (.error []))
      exampleCall rfc3164Line rfc3164Event rfl rfl).2⟩

/-! ## Keyword search and the category of a syslog message -/

theorem Go.isPrefixOf_eq_take_beq (kw : Str) : ∀ (l : Str),
    kw.isPrefixOf l = (l.take kw.length == kw) := by
  induction kw with
  | nil => intro l; simp [List.isPrefixOf]
  | cons a kw ih =>
    intro l
    cases l with
    | nil => simp [List.isPrefixOf]
    | cons b l =>
      simp only [List.isPrefixOf, List.length_cons, List.take_succ_cons, ih l]
      by_cases hab : a = b
      · subst hab
        simp
      · have h1 : (a == b) = false := by simpa using hab
        have h2 : ((b :: l.take kw.length) == (a :: kw)) = false := by
          rw [beq_eq_false_iff_ne]
          intro e
          injection e with e1 _
          exact hab e1.symm
        rw [h1, h2]
        rfl

theorem Spec.containsFold_eq (tbl : Char → Char) (kw : Str) : ∀ (m : Str),
    containsFold tbl m kw = Contains (ToLower tbl m) kw
  | [] => by
    simp [containsFold, Contains, ToLower, Go.isPrefixOf_eq_take_beq]
  | c :: cs => by
    have ih := Spec.containsFold_eq tbl kw cs
    unfold containsFold at ih ⊢
    simp only [List.tails, List.any_cons, ih]
    simp only [ToLower, List.map_cons, Contains, Go.isPrefixOf_eq_take_beq, List.map_take]

/-- C9: the category of a syslog message is decided by case-insensitive
substring search, the first hit winning in the order login/auth, access/denied,
network/connection, security/breach, and is system-event otherwise; a message
containing both "login" and "denied" is authentication. -/
theorem C9_syslog_category_order (tbl : Char → Char) (m : Str) :
    SyslogParser.categorizeSyslogMessage tbl m = syslogCategoryRule tbl m ∧
      (containsFold tbl m "login".toList = true → containsFold tbl m "denied".toList = true →
        SyslogParser.categorizeSyslogMessage tbl m = CategoryAuthentication) := by
  have h : SyslogParser.categorizeSyslogMessage tbl m = syslogCategoryRule tbl m := by
    unfold SyslogParser.categorizeSyslogMessage syslogCategoryRule
    simp only [Spec.containsFold_eq]
  refine ⟨h, ?_⟩
  intro h1 _
  rw [h]
  unfold syslogCategoryRule
  rw [h1, Bool.true_or, if_pos rfl]

/-- C9 at a message that contains both "login" and "denied". -/
theorem C9_syslog_category_order_witness :
    containsFold id "Login DENIED for root".toList "login".toList = true ∧
      containsFold id "Login DENIED for root".toList "denied".toList = true ∧
      SyslogParser.categorizeSyslogMessage id "Login DENIED for root".toList =
        CategoryAuthentication :=
  ⟨by decide, by decide,
    (C9_syslog_category_order id "Login DENIED for root".toList).2 (by decide) (by decide)⟩

/-! ## The severity of a CEF record -/

/-- C10: when the severity token parses as the integer `n`, the severity is
critical for `n >= 8`, high for `6 <= n < 8`, medium for `4 <= n < 6`, low for
`2 <= n < 4` and info otherwise; when the token does not parse, it is info; the
token "10" maps to critical. -/
theorem C10_cef_severity_thresholds (t : Str) :
    (∀ n : Int, Atoi t = (n, none) → CEFParser.mapCEFSeverityToGOST t = cefSeverityRule n) ∧
      ((Atoi t).2 ≠ none → CEFParser.mapCEFSeverityToGOST t = SeverityInfo) ∧
      CEFParser.mapCEFSeverityToGOST "10".toList = SeverityCritical := by
  refine ⟨?_, ?_, by decide⟩
  · intro n h
    unfold CEFParser.mapCEFSeverityToGOST cefSeverityRule
    rw [h]
    simp only []
    split_ifs <;> first | rfl | omega
  · intro h
    unfold CEFParser.mapCEFSeverityToGOST
    split
    · rfl
    · next heq => rw [heq] at h; exact absurd rfl h

/-- C10 at the tokens "10", which parses as 10, and "high", which does not
parse. -/
theorem C10_cef_severity_thresholds_witness :
    Atoi "10".toList = (10, none) ∧
      CEFParser.mapCEFSeverityToGOST "10".toList = cefSeverityRule 10 ∧
      (Atoi "high".toList).2 ≠ none ∧
      CEFParser.mapCEFSeverityToGOST "high".toList = SeverityInfo :=
  ⟨by decide, (C10_cef_severity_thresholds "10".toList).1 10 (by decide), by decide,
    (C10_cef_severity_thresholds "high".toList).2.1 (by decide)⟩

/-! ## Matching of the patterns -/

theorem regexp.head?_append_mem {A r : Str} {a : Char} (hA : A ≠ []) (h : a ∈ (A ++ r).head?) :
    a ∈ A := by
  cases A with
  | nil => exact absurd rfl hA
  | cons b A =>
    simp only [List.cons_append, List.head?_cons, Option.mem_def, Option.some.injEq] at h
    simp [h]

/-- A greedy repetition takes the whole run of the class when what follows the
run is accepted. -/
theorem regexp.repGreedy_run {α : Type} (p : Char → Bool) (k : Str → Option α) (rest : Str)
    (x : α) (hr : ∀ a ∈ rest.head?, p a = false) (hk : k rest = some x) :
    ∀ (A : Str) (min : Nat), (∀ a ∈ A, p a = true) → min ≤ A.length →
      repGreedy p k min (A ++ rest) = some x
  | [], min, _, hmin => by
    have h0 : min = 0 := by simpa using hmin
    subst h0
    cases rest with
    | nil => simpa [repGreedy] using hk
    | cons c cs =>
      have hc : p c = false := hr c (by simp)
      simp [repGreedy, hc, hk]
  | a :: A, min, hA, hmin => by
    have ha : p a = true := hA a (by simp)
    have ih := regexp.repGreedy_run p k rest x hr hk A (min - 1)
      (fun b hb => hA b (by simp [hb])) (by simp at hmin; omega)
    rw [List.cons_append, repGreedy]
    simp only [ha, if_true, ih]

/-- A greedy repetition fails when what follows is rejected at every point where
the repetition can stop. -/
theorem regexp.repGreedy_none {α : Type} (p : Char → Bool) (k : Str → Option α) (rest : Str)
    (hr : ∀ a ∈ rest.head?, p a = false) :
    ∀ (A : Str) (min : Nat), (∀ a ∈ A, p a = true) →
      (∀ j, j ≤ A.length → k (A.drop j ++ rest) = none) →
      repGreedy p k min (A ++ rest) = none
  | [], min, _, hk => by
    have h0 := hk 0 (Nat.le_refl _)
    simp only [List.drop_nil, List.nil_append] at h0
    cases rest with
    | nil => by_cases hm : min = 0 <;> simp [repGreedy, hm, h0]
    | cons c cs =>
      have hc : p c = false := hr c (by simp)
      by_cases hm : min = 0 <;> simp [repGreedy, hc, hm, h0]
  | a :: A, min, hA, hk => by
    have ha : p a = true := hA a (by simp)
    have ih := regexp.repGreedy_none p k rest hr A (min - 1)
      (fun b hb => hA b (by simp [hb]))
      (fun j hj => by simpa using hk (j + 1) (by simp; omega))
    have h0 := hk 0 (Nat.zero_le _)
    simp only [List.drop_zero] at h0
    rw [List.cons_append, repGreedy]
    simp only [ha, if_true, ih]
    by_cases hm : min = 0
    · simp only [hm, if_true]
      exact h0
    · simp only [hm, if_false]

/-- A non-greedy repetition stops at the first point where what follows is
accepted. -/
theorem regexp.repLazy_run {α : Type} (p : Char → Bool) (k : Str → Option α) (rest : Str)
    (x : α) (hk : k rest = some x) :
    ∀ (A : Str) (min : Nat), (∀ a ∈ A, p a = true) → min ≤ A.length →
      (∀ j, min ≤ j → j < A.length → k (A.drop j ++ rest) = none) →
      repLazy p k min (A ++ rest) = some x
  | [], min, _, hmin, _ => by
    have h0 : min = 0 := by simpa using hmin
    subst h0
    cases rest with
    | nil => simpa [repLazy] using hk
    | cons c cs => simp [repLazy, hk]
  | a :: A, min, hA, hmin, hno => by
    have ha : p a = true := hA a (by simp)
    by_cases hm : min = 0
    · subst hm
      have h0 := hno 0 (Nat.le_refl _) (by simp)
      simp only [List.drop_zero] at h0
      have ih := regexp.repLazy_run p k rest x hk A 0 (fun b hb => hA b (by simp [hb]))
        (Nat.zero_le _)
        (fun j _ hj => by simpa using hno (j + 1) (Nat.zero_le _) (by simp; omega))
      rw [List.cons_append] at h0 ⊢
      rw [repLazy]
      simp only [if_true, h0, ha, ih]
    · have ih := regexp.repLazy_run p k rest x hk A (min - 1) (fun b hb => hA b (by simp [hb]))
        (by simp at hmin; omega)
        (fun j hj1 hj => by simpa using hno (j + 1) (by omega) (by simp; omega))
      rw [List.cons_append, repLazy]
      simp only [hm, if_false, ha, if_true, ih]

theorem regexp.take_length_sub (A rest : Str) :
    (A ++ rest).take ((A ++ rest).length - rest.length) = A := by
  simp

theorem regexp.searchFrom_of_run (n : Nat) (r : Regex) (init : Caps) (s : Str) (c : Caps)
    (h : run n r (fun _ c => some c) s init = some c) : searchFrom n r init s = some c := by
  cases s with
  | nil => simpa [searchFrom] using h
  | cons x xs => simp [searchFrom, h]

theorem regexp.one_le_length {A : Str} (h : A ≠ []) : 1 ≤ A.length :=
  List.length_pos.mpr h

theorem regexp.isWs_false_of_notWs {A r : Str} (hne : A ≠ []) (hA : ∀ a ∈ A, notWs a = true) :
    ∀ a ∈ (A ++ r).head?, isWs a = false := by
  intro a ha
  have := hA a (regexp.head?_append_mem hne ha)
  simpa [notWs] using this

theorem regexp.mem_singleton_space (p : Char → Bool) (h : p ' ' = true) :
    ∀ a ∈ [' '], p a = true := by
  intro a ha
  simp only [List.mem_singleton] at ha
  rw [ha]; exact h

theorem regexp.repGreedy_all {α : Type} (p : Char → Bool) (k : Str → Option α) (x : α)
    (hk : k [] = some x) (A : Str) (min : Nat) (hA : ∀ a ∈ A, p a = true)
    (hmin : min ≤ A.length) : repGreedy p k min A = some x := by
  have h := regexp.repGreedy_run p k [] x (by simp) hk A min hA hmin
  rwa [List.append_nil] at h

theorem parser.RFC5424_match (P V TS HOST APP PROCID MSGID SD MSG : Str)
    (hP : ∀ a ∈ P, isDigit a = true) (hPne : P ≠ [])
    (hV : ∀ a ∈ V, isDigit a = true) (hVne : V ≠ [])
    (hTS : ∀ a ∈ TS, notWs a = true) (hTSne : TS ≠ [])
    (hHOST : ∀ a ∈ HOST, notWs a = true) (hHOSTne : HOST ≠ [])
    (hAPP : ∀ a ∈ APP, notWs a = true) (hAPPne : APP ≠ [])
    (hPROCID : ∀ a ∈ PROCID, notWs a = true) (hPROCIDne : PROCID ≠ [])
    (hMSGID : ∀ a ∈ MSGID, notWs a = true) (hMSGIDne : MSGID ≠ [])
    (hSD : ∀ a ∈ SD, notWs a = true) (hSDne : SD ≠ [])
    (hMSG : ∀ a ∈ MSG, notNL a = true) (hMSGhd : ∀ a ∈ MSG.head?, isWs a = false) :
    FindStringSubmatch RFC5424Pattern 9
        ('<' :: (P ++ '>' :: (V ++ ' ' :: (TS ++ ' ' :: (HOST ++ ' ' :: (APP ++ ' ' ::
          (PROCID ++ ' ' :: (MSGID ++ ' ' :: (SD ++ ' ' :: MSG))))))))) =
      some ['<' :: (P ++ '>' :: (V ++ ' ' :: (TS ++ ' ' :: (HOST ++ ' ' :: (APP ++ ' ' ::
          (PROCID ++ ' ' :: (MSGID ++ ' ' :: (SD ++ ' ' :: MSG)))))))),
        P, V, TS, HOST, APP, PROCID, MSGID, SD, MSG] := by
  refine regexp.searchFrom_of_run _ _ _ _ _ ?_
  simp only [RFC5424Pattern, seqs, run, if_true]
  refine regexp.repGreedy_run _ _ _ _ (by simp [isDigit]) ?_ P 1 hP (regexp.one_le_length hPne)
  simp only [if_true, regexp.take_length_sub]
  refine regexp.repGreedy_run _ _ _ _ (by simp [isDigit]) ?_ V 1 hV (regexp.one_le_length hVne)
  simp only [regexp.take_length_sub]
  refine regexp.repGreedy_run _ _ _ _ (regexp.isWs_false_of_notWs hTSne hTS) ?_ [' '] 1
    (regexp.mem_singleton_space _ (by decide)) (Nat.le_refl _)
  refine regexp.repGreedy_run _ _ _ _ (by simp [notWs, isWs]) ?_ TS 1 hTS
    (regexp.one_le_length hTSne)
  simp only [regexp.take_length_sub]
  refine regexp.repGreedy_run _ _ _ _ (regexp.isWs_false_of_notWs hHOSTne hHOST) ?_ [' '] 1
    (regexp.mem_singleton_space _ (by decide)) (Nat.le_refl _)
  refine regexp.repGreedy_run _ _ _ _ (by simp [notWs, isWs]) ?_ HOST 1 hHOST
    (regexp.one_le_length hHOSTne)
  simp only [regexp.take_length_sub]
  refine regexp.repGreedy_run _ _ _ _ (regexp.isWs_false_of_notWs hAPPne hAPP) ?_ [' '] 1
    (regexp.mem_singleton_space _ (by decide)) (Nat.le_refl _)
  refine regexp.repGreedy_run _ _ _ _ (by simp [notWs, isWs]) ?_ APP 1 hAPP
    (regexp.one_le_length hAPPne)
  simp only [regexp.take_length_sub]
  refine regexp.repGreedy_run _ _ _ _ (regexp.isWs_false_of_notWs hPROCIDne hPROCID) ?_ [' '] 1
    (regexp.mem_singleton_space _ (by decide)) (Nat.le_refl _)
  refine regexp.repGreedy_run _ _ _ _ (by simp [notWs, isWs]) ?_ PROCID 1 hPROCID
    (regexp.one_le_length hPROCIDne)
  simp only [regexp.take_length_sub]
  refine regexp.repGreedy_run _ _ _ _ (regexp.isWs_false_of_notWs hMSGIDne hMSGID) ?_ [' '] 1
    (regexp.mem_singleton_space _ (by decide)) (Nat.le_refl _)
  refine regexp.repGreedy_run _ _ _ _ (by simp [notWs, isWs]) ?_ MSGID 1 hMSGID
    (regexp.one_le_length hMSGIDne)
  simp only [regexp.take_length_sub]
  refine regexp.repGreedy_run _ _ _ _ (regexp.isWs_false_of_notWs hSDne hSD) ?_ [' '] 1
    (regexp.mem_singleton_space _ (by decide)) (Nat.le_refl _)
  refine regexp.repGreedy_run _ _ _ _ (by simp [notWs, isWs]) ?_ SD 1 hSD
    (regexp.one_le_length hSDne)
  simp only [regexp.take_length_sub]
  refine regexp.repGreedy_run _ _ _ _ hMSGhd ?_ [' '] 1
    (regexp.mem_singleton_space _ (by decide)) (Nat.le_refl _)
  refine regexp.repGreedy_all _ _ _ ?_ MSG 0 hMSG (Nat.zero_le _)
  simp only [List.isEmpty_nil, if_true, List.length_nil, Nat.sub_zero, List.take_length,
    List.replicate, List.set_cons_succ, List.set_cons_zero]

/-! ## Conversion of digits by `strconv.Atoi` -/

theorem Go.le_foldl_digits : ∀ (s : Str) (acc : Nat),
    acc ≤ s.foldl (fun acc c => acc * 10 + (c.toNat - 48)) acc
  | [], _ => Nat.le_refl _
  | c :: cs, acc => by
    have ih := Go.le_foldl_digits cs (acc * 10 + (c.toNat - 48))
    simp only [List.foldl_cons]
    omega

theorem Go.parseUintLoop_digits : ∀ (s : Str) (acc : Nat), acc ≤ 2 ^ 64 - 1 →
    (∀ a ∈ s, isDigit a = true) →
    parseUintLoop s acc =
      if s.foldl (fun acc c => acc * 10 + (c.toNat - 48)) acc ≤ 2 ^ 64 - 1 then
        .ok (s.foldl (fun acc c => acc * 10 + (c.toNat - 48)) acc)
      else .error .outOfRange
  | [], acc, hacc, _ => by
    simp only [parseUintLoop, List.foldl_nil]
    rw [if_pos hacc]
  | c :: cs, acc, _, h => by
    have hc : isDigit c = true := h c (by simp)
    have hd : digitVal c = some (c.toNat - 48) := by
      simp only [isDigit, Bool.and_eq_true, decide_eq_true_eq] at hc
      simp [digitVal, hc]
    have hm := Go.le_foldl_digits cs (acc * 10 + (c.toNat - 48))
    simp only [parseUintLoop, hd, List.foldl_cons]
    by_cases hov : acc * 10 + (c.toNat - 48) > 2 ^ 64 - 1
    · rw [if_pos hov, if_neg (by omega)]
    · rw [if_neg hov, Go.parseUintLoop_digits cs (acc * 10 + (c.toNat - 48)) (by omega)
        (fun a ha => h a (by simp [ha]))]

/-- On a non-empty run of digits `Atoi` returns the number the digits denote,
or `2^63 - 1` when that number does not fit. -/
theorem Go.Atoi_digits (s : Str) (hne : s ≠ []) (h : ∀ a ∈ s, isDigit a = true) :
    (Atoi s).1 = min (decimalValue s : Int) (2 ^ 63 - 1) := by
  cases s with
  | nil => exact absurd rfl hne
  | cons c cs =>
    have hc : isDigit c = true := h c (by simp)
    have hc' := hc
    simp only [isDigit, Bool.and_eq_true, decide_eq_true_eq] at hc'
    have hplus : (c == '+') = false := by
      rw [beq_eq_false_iff_ne]; intro e; rw [e] at hc'; revert hc'; decide
    have hminus : (c == '-') = false := by
      rw [beq_eq_false_iff_ne]; intro e; rw [e] at hc'; revert hc'; decide
    have hloop := Go.parseUintLoop_digits (c :: cs) 0 (by decide) h
    unfold Atoi ParseInt
    simp only [hplus, hminus, Bool.or_self, Bool.false_eq_true, if_false]
    unfold ParseUint
    simp only [hloop]
    unfold decimalValue
    generalize (c :: cs).foldl (fun acc c => acc * 10 + (c.toNat - 48)) 0 = v
    by_cases hv : v ≤ 2 ^ 64 - 1
    · simp only [hv, if_true]
      by_cases hv2 : v ≥ 2 ^ 63
      · simp only [Bool.not_false, Bool.true_and, decide_eq_true_eq, hv2, if_true]
        omega
      · simp only [Bool.not_false, Bool.true_and, decide_eq_true_eq, hv2, if_false,
          Bool.false_and, Bool.false_eq_true]
        omega
    · simp only [hv, if_false]
      have : (2 : Nat) ^ 64 - 1 ≥ 2 ^ 63 := by decide
      simp only [Bool.not_false, Bool.true_and, decide_eq_true_eq, this, if_true]
      omega

/-- A syntax error of `Atoi` comes with the value 0. -/
theorem Go.Atoi_invalid (s : Str) (h : (Atoi s).2 = some .invalid) : (Atoi s).1 = 0 := by
  unfold Atoi ParseInt at h ⊢
  cases s with
  | nil => rfl
  | cons c cs =>
    simp only [] at h ⊢
    split at h
    · rfl
    · next hn =>
      split_ifs at h <;> simp at h

/-! ## Lines of the RFC 3164 shape -/

/-- A pattern that begins with `^` matches at the start of the input only. -/
theorem regexp.searchFrom_anchored (n : Nat) (r : Regex) (init : Caps) :
    ∀ (s : Str), s.length < n → searchFrom n (.grp 0 (.seq .bot r)) init s = none
  | [], h => by
    have h1 : ¬ (([] : Str).length = n) := by omega
    simp only [searchFrom, run, h1, if_false]
  | x :: xs, h => by
    have h1 : ¬ ((x :: xs).length = n) := by omega
    have ih := regexp.searchFrom_anchored n r init xs (by simp at h; omega)
    simp only [searchFrom, run, h1, if_false, ih]

theorem regexp.find_anchored_none (r : Regex) (g : Nat) (s : Str)
    (h : run s.length (.grp 0 (.seq .bot r)) (fun _ c => some c) s (List.replicate (g + 1) []) =
      none) :
    FindStringSubmatch (.seq .bot r) g s = none := by
  unfold FindStringSubmatch
  cases s with
  | nil => simpa [searchFrom] using h
  | cons x xs =>
    simp only [searchFrom, h]
    exact regexp.searchFrom_anchored _ r _ xs (by simp)

theorem parser.RFC5424_no_match (P rest : Str) (l : Char)
    (hP : ∀ a ∈ P, isDigit a = true) (hl : isDigit l = false) :
    FindStringSubmatch RFC5424Pattern 9 ('<' :: (P ++ '>' :: l :: rest)) = none := by
  have hpat : RFC5424Pattern = .seq .bot (seqs [.chr '<', .grp 1 (.rep isDigit 1 true), .chr '>',
      .grp 2 (.rep isDigit 1 true),
      .rep isWs 1 true, .grp 3 (.rep notWs 1 true),
      .rep isWs 1 true, .grp 4 (.rep notWs 1 true),
      .rep isWs 1 true, .grp 5 (.rep notWs 1 true),
      .rep isWs 1 true, .grp 6 (.rep notWs 1 true),
      .rep isWs 1 true, .grp 7 (.rep notWs 1 true),
      .rep isWs 1 true, .grp 8 (.rep notWs 1 true),
      .rep isWs 1 true, .grp 9 (.rep notNL 0 true), .eot]) := rfl
  rw [hpat]
  refine regexp.find_anchored_none _ 9 _ ?_
  simp only [RFC5424Pattern, seqs, run, if_true]
  refine regexp.repGreedy_none _ _ _ (by simp [isDigit]) P 1 hP ?_
  intro j hj
  rcases Nat.lt_or_ge j P.length with hlt | hge
  · obtain ⟨d, t, hd⟩ : ∃ d t, P.drop j = d :: t := by
      cases h : P.drop j with
      | nil =>
        have := congrArg List.length h
        simp at this
        omega
      | cons d t => exact ⟨d, t, rfl⟩
    have hdm : d ∈ P := List.mem_of_mem_drop (by rw [hd]; simp)
    have hdd := hP d hdm
    have hne : d ≠ '>' := by
      intro e; rw [e] at hdd; revert hdd; decide
    rw [hd]
    simp only [List.cons_append, hne, if_false]
  · rw [List.drop_of_length_le hge]
    simp only [List.nil_append, if_true, repGreedy, hl, Bool.false_eq_true, if_false]
    simp

theorem regexp.take_of_eq_append (s T rest : Str) (h : s = T ++ rest) :
    s.take (s.length - rest.length) = T := by
  subst h
  simp

theorem regexp.head?_append_all {A r : Str} {p : Char → Bool} (hne : A ≠ [])
    (hA : ∀ a ∈ A, p a = false) : ∀ a ∈ (A ++ r).head?, p a = false := by
  intro a ha
  exact hA a (regexp.head?_append_mem hne ha)

theorem regexp.isWs_false_of_isDigit (a : Char) (h : isDigit a = true) : isWs a = false := by
  simp only [isDigit, Bool.and_eq_true, decide_eq_true_eq] at h
  rw [Bool.eq_false_iff]
  intro hw
  simp only [isWs, Bool.or_eq_true, beq_iff_eq] at hw
  rcases hw with (((hw | hw) | hw) | hw) | hw
  · rw [hw] at h; revert h; decide
  · rw [hw] at h; revert h; decide
  · omega
  · rw [hw] at h; revert h; decide
  · rw [hw] at h; revert h; decide

theorem regexp.take_timestamp (Mon D HH MM SS rest : Str) :
    (Mon ++ ' ' :: (D ++ ' ' :: (HH ++ ':' :: (MM ++ ':' :: (SS ++ rest))))).take
        ((Mon ++ ' ' :: (D ++ ' ' :: (HH ++ ':' :: (MM ++ ':' :: (SS ++ rest))))).length -
          rest.length) =
      Mon ++ ' ' :: (D ++ ' ' :: (HH ++ ':' :: (MM ++ ':' :: SS))) :=
  regexp.take_of_eq_append _ _ _ (by simp)

theorem regexp.take_bracket (PID rest : Str) :
    ('[' :: (PID ++ ']' :: rest)).take (('[' :: (PID ++ ']' :: rest)).length - rest.length) =
      '[' :: (PID ++ [']']) :=
  regexp.take_of_eq_append _ _ _ (by simp)

theorem regexp.drop_cons_of_lt {A : Str} {j : Nat} (h : j < A.length) :
    ∃ d t, A.drop j = d :: t ∧ d ∈ A := by
  cases hd : A.drop j with
  | nil =>
    have := congrArg List.length hd
    simp at this
    omega
  | cons d t => exact ⟨d, t, rfl, List.mem_of_mem_drop (by rw [hd]; simp)⟩

theorem parser.RFC3164_match_plain (P Mon D HH MM SS HOST APP MSG : Str)
    (hP : ∀ a ∈ P, isDigit a = true) (hPne : P ≠ [])
    (hMon : ∀ a ∈ Mon, isWord a = true) (hMonne : Mon ≠ [])
    (hD : ∀ a ∈ D, isDigit a = true) (hDne : D ≠ [])
    (hHH : ∀ a ∈ HH, isDigit a = true) (hHHne : HH ≠ [])
    (hMM : ∀ a ∈ MM, isDigit a = true) (hMMne : MM ≠ [])
    (hSS : ∀ a ∈ SS, isDigit a = true) (hSSne : SS ≠ [])
    (hHOST : ∀ a ∈ HOST, notWs a = true) (hHOSTne : HOST ≠ [])
    (hAPP : ∀ a ∈ APP, notWs a = true) (hAPPne : APP ≠ [])
    (hAPP2 : ∀ a ∈ APP, a ≠ ':' ∧ a ≠ '[')
    (hMSG : ∀ a ∈ MSG, notNL a = true) (hMSGhd : ∀ a ∈ MSG.head?, isWs a = false) :
    FindStringSubmatch RFC3164Pattern 7
        ('<' :: (P ++ '>' :: (Mon ++ ' ' :: (D ++ ' ' :: (HH ++ ':' :: (MM ++ ':' :: (SS ++ ' ' ::
          (HOST ++ ' ' :: (APP ++ ':' :: ' ' :: MSG))))))))) =
      some ['<' :: (P ++ '>' :: (Mon ++ ' ' :: (D ++ ' ' :: (HH ++ ':' :: (MM ++ ':' :: (SS ++
          ' ' :: (HOST ++ ' ' :: (APP ++ ':' :: ' ' :: MSG)))))))),
        P, Mon ++ ' ' :: (D ++ ' ' :: (HH ++ ':' :: (MM ++ ':' :: SS))), HOST, APP, [], [],
        MSG] := by
  refine regexp.searchFrom_of_run _ _ _ _ _ ?_
  simp only [RFC3164Pattern, seqs, run, if_true]
  refine regexp.repGreedy_run _ _ _ _ (by simp [isDigit]) ?_ P 1 hP (regexp.one_le_length hPne)
  simp only [if_true, regexp.take_length_sub]
  refine regexp.repGreedy_run _ _ _ _ (by simp [isWord, isDigit]) ?_ Mon 1 hMon
    (regexp.one_le_length hMonne)
  refine regexp.repGreedy_run _ _ _ _
    (regexp.head?_append_all hDne (fun a ha => regexp.isWs_false_of_isDigit a (hD a ha))) ?_
    [' '] 1 (regexp.mem_singleton_space _ (by decide)) (Nat.le_refl _)
  refine regexp.repGreedy_run _ _ _ _ (by simp [isDigit]) ?_ D 1 hD (regexp.one_le_length hDne)
  refine regexp.repGreedy_run _ _ _ _
    (regexp.head?_append_all hHHne (fun a ha => regexp.isWs_false_of_isDigit a (hHH a ha))) ?_
    [' '] 1 (regexp.mem_singleton_space _ (by decide)) (Nat.le_refl _)
  refine regexp.repGreedy_run _ _ _ _ (by simp [isDigit]) ?_ HH 1 hHH
    (regexp.one_le_length hHHne)
  simp only [if_true]
  refine regexp.repGreedy_run _ _ _ _ (by simp [isDigit]) ?_ MM 1 hMM
    (regexp.one_le_length hMMne)
  simp only [if_true]
  refine regexp.repGreedy_run _ _ _ _ (by simp [isDigit]) ?_ SS 1 hSS
    (regexp.one_le_length hSSne)
  simp only [regexp.take_timestamp]
  refine regexp.repGreedy_run _ _ _ _ (regexp.isWs_false_of_notWs hHOSTne hHOST) ?_ [' '] 1
    (regexp.mem_singleton_space _ (by decide)) (Nat.le_refl _)
  refine regexp.repGreedy_run _ _ _ _ (by simp [notWs, isWs]) ?_ HOST 1 hHOST
    (regexp.one_le_length hHOSTne)
  simp only [regexp.take_length_sub]
  refine regexp.repGreedy_run _ _ _ _ (regexp.isWs_false_of_notWs hAPPne hAPP) ?_ [' '] 1
    (regexp.mem_singleton_space _ (by decide)) (Nat.le_refl _)
  refine regexp.repLazy_run _ _ _ _ ?_ APP 1 hAPP (regexp.one_le_length hAPPne) ?_
  · have e1 : ¬ (':' = '[') := by decide
    simp only [e1, if_false, if_true, regexp.take_length_sub]
    refine regexp.repGreedy_run _ _ _ _ hMSGhd ?_ [' '] 1
      (regexp.mem_singleton_space _ (by decide)) (Nat.le_refl _)
    refine regexp.repGreedy_all _ _ _ ?_ MSG 0 hMSG (Nat.zero_le _)
    simp only [List.isEmpty_nil, if_true, List.length_nil, Nat.sub_zero, List.take_length,
      List.replicate, List.set_cons_succ, List.set_cons_zero]
  · intro j _ hj
    obtain ⟨d, t, hd, hdm⟩ := regexp.drop_cons_of_lt hj
    rw [hd]
    simp only [List.cons_append, (hAPP2 d hdm).1, (hAPP2 d hdm).2, if_false]

theorem parser.RFC3164_match_pid (P Mon D HH MM SS HOST APP PID MSG : Str)
    (hP : ∀ a ∈ P, isDigit a = true) (hPne : P ≠ [])
    (hMon : ∀ a ∈ Mon, isWord a = true) (hMonne : Mon ≠ [])
    (hD : ∀ a ∈ D, isDigit a = true) (hDne : D ≠ [])
    (hHH : ∀ a ∈ HH, isDigit a = true) (hHHne : HH ≠ [])
    (hMM : ∀ a ∈ MM, isDigit a = true) (hMMne : MM ≠ [])
    (hSS : ∀ a ∈ SS, isDigit a = true) (hSSne : SS ≠ [])
    (hHOST : ∀ a ∈ HOST, notWs a = true) (hHOSTne : HOST ≠ [])
    (hAPP : ∀ a ∈ APP, notWs a = true) (hAPPne : APP ≠ [])
    (hAPP2 : ∀ a ∈ APP, a ≠ ':' ∧ a ≠ '[')
    (hPID : ∀ a ∈ PID, isDigit a = true) (hPIDne : PID ≠ [])
    (hMSG : ∀ a ∈ MSG, notNL a = true) (hMSGhd : ∀ a ∈ MSG.head?, isWs a = false) :
    FindStringSubmatch RFC3164Pattern 7
        ('<' :: (P ++ '>' :: (Mon ++ ' ' :: (D ++ ' ' :: (HH ++ ':' :: (MM ++ ':' :: (SS ++ ' ' ::
          (HOST ++ ' ' :: (APP ++ '[' :: (PID ++ ']' :: ':' :: ' ' :: MSG)))))))))) =
      some ['<' :: (P ++ '>' :: (Mon ++ ' ' :: (D ++ ' ' :: (HH ++ ':' :: (MM ++ ':' :: (SS ++
          ' ' :: (HOST ++ ' ' :: (APP ++ '[' :: (PID ++ ']' :: ':' :: ' ' :: MSG))))))))),
        P, Mon ++ ' ' :: (D ++ ' ' :: (HH ++ ':' :: (MM ++ ':' :: SS))), HOST, APP,
        '[' :: (PID ++ [']']), PID, MSG] := by
  refine regexp.searchFrom_of_run _ _ _ _ _ ?_
  simp only [RFC3164Pattern, seqs, run, if_true]
  refine regexp.repGreedy_run _ _ _ _ (by simp [isDigit]) ?_ P 1 hP (regexp.one_le_length hPne)
  simp only [if_true, regexp.take_length_sub]
  refine regexp.repGreedy_run _ _ _ _ (by simp [isWord, isDigit]) ?_ Mon 1 hMon
    (regexp.one_le_length hMonne)
  refine regexp.repGreedy_run _ _ _ _
    (regexp.head?_append_all hDne (fun a ha => regexp.isWs_false_of_isDigit a (hD a ha))) ?_
    [' '] 1 (regexp.mem_singleton_space _ (by decide)) (Nat.le_refl _)
  refine regexp.repGreedy_run _ _ _ _ (by simp [isDigit]) ?_ D 1 hD (regexp.one_le_length hDne)
  refine regexp.repGreedy_run _ _ _ _
    (regexp.head?_append_all hHHne (fun a ha => regexp.isWs_false_of_isDigit a (hHH a ha))) ?_
    [' '] 1 (regexp.mem_singleton_space _ (by decide)) (Nat.le_refl _)
  refine regexp.repGreedy_run _ _ _ _ (by simp [isDigit]) ?_ HH 1 hHH
    (regexp.one_le_length hHHne)
  simp only [if_true]
  refine regexp.repGreedy_run _ _ _ _ (by simp [isDigit]) ?_ MM 1 hMM
    (regexp.one_le_length hMMne)
  simp only [if_true]
  refine regexp.repGreedy_run _ _ _ _ (by simp [isDigit]) ?_ SS 1 hSS
    (regexp.one_le_length hSSne)
  simp only [regexp.take_timestamp]
  refine regexp.repGreedy_run _ _ _ _ (regexp.isWs_false_of_notWs hHOSTne hHOST) ?_ [' '] 1
    (regexp.mem_singleton_space _ (by decide)) (Nat.le_refl _)
  refine regexp.repGreedy_run _ _ _ _ (by simp [notWs, isWs]) ?_ HOST 1 hHOST
    (regexp.one_le_length hHOSTne)
  simp only [regexp.take_length_sub]
  refine regexp.repGreedy_run _ _ _ _ (regexp.isWs_false_of_notWs hAPPne hAPP) ?_ [' '] 1
    (regexp.mem_singleton_space _ (by decide)) (Nat.le_refl _)
  refine regexp.repLazy_run _ _ _ _ ?_ APP 1 hAPP (regexp.one_le_length hAPPne) ?_
  · simp only [if_true, regexp.take_length_sub]
    generalize hE : repGreedy isDigit _ 1 (PID ++ _) = e
    have he : e = some ['<' :: (P ++ '>' :: (Mon ++ ' ' :: (D ++ ' ' :: (HH ++ ':' :: (MM ++
        ':' :: (SS ++ ' ' :: (HOST ++ ' ' :: (APP ++ '[' :: (PID ++ ']' :: ':' :: ' ' ::
        MSG))))))))),
        P, Mon ++ ' ' :: (D ++ ' ' :: (HH ++ ':' :: (MM ++ ':' :: SS))), HOST, APP,
        '[' :: (PID ++ [']']), PID, MSG] := by
      rw [← hE]
      refine regexp.repGreedy_run _ _ _ _ (by simp [isDigit]) ?_ PID 1 hPID
        (regexp.one_le_length hPIDne)
      simp only [if_true, regexp.take_length_sub]
      refine regexp.repGreedy_run _ _ _ _ hMSGhd ?_ [' '] 1
        (regexp.mem_singleton_space _ (by decide)) (Nat.le_refl _)
      refine regexp.repGreedy_all _ _ _ ?_ MSG 0 hMSG (Nat.zero_le _)
      simp only [List.isEmpty_nil, if_true, List.length_nil, Nat.sub_zero, List.take_length,
        List.replicate, List.set_cons_succ, List.set_cons_zero, regexp.take_bracket]
    rw [he]
  · intro j _ hj
    obtain ⟨d, t, hd, hdm⟩ := regexp.drop_cons_of_lt hj
    rw [hd]
    simp only [List.cons_append, (hAPP2 d hdm).1, (hAPP2 d hdm).2, if_false]

theorem Spec.isDigits_iff (s : Str) :
    isDigits s = true ↔ s ≠ [] ∧ ∀ a ∈ s, isDigit a = true := by
  cases s <;> simp [isDigits]

theorem Spec.isToken_iff (s : Str) :
    isToken s = true ↔ s ≠ [] ∧ ∀ a ∈ s, notWs a = true := by
  cases s <;> simp [isToken]

theorem Spec.isMessage_iff (s : Str) :
    isMessage s = true ↔ (∀ a ∈ s, notNL a = true) ∧ ∀ a ∈ s.head?, isWs a = false := by
  cases s <;> simp [isMessage]

theorem Spec.isName_iff (s : Str) :
    isName s = true ↔
      s ≠ [] ∧ (∀ a ∈ s, notWs a = true) ∧ ∀ a ∈ s, a ≠ ':' ∧ a ≠ '[' := by
  unfold isName
  simp only [Bool.and_eq_true, Bool.not_eq_true', List.isEmpty_eq_false, List.all_eq_true,
    bne_iff_ne, ne_eq]
  constructor
  · rintro ⟨h1, h2⟩
    exact ⟨h1, fun a ha => (h2 a ha).1.1, fun a ha => ⟨(h2 a ha).1.2, (h2 a ha).2⟩⟩
  · rintro ⟨h1, h2, h3⟩
    exact ⟨h1, fun a ha => ⟨⟨h2 a ha, (h3 a ha).1⟩, (h3 a ha).2⟩⟩

theorem Spec.isWordFromLetter_elim (s : Str) (h : isWordFromLetter s = true) :
    ∃ l t, s = l :: t ∧ isDigit l = false ∧ ∀ a ∈ s, isWord a = true := by
  cases s with
  | nil => simp [isWordFromLetter] at h
  | cons l t =>
    simp only [isWordFromLetter, List.head?_cons, Bool.and_eq_true, List.all_eq_true] at h
    refine ⟨l, t, rfl, ?_, h.1⟩
    have hl := h.2
    simp only [isLetter, Bool.or_eq_true, Bool.and_eq_true, decide_eq_true_eq] at hl
    rw [Bool.eq_false_iff]
    intro hd
    simp only [isDigit, Bool.and_eq_true, decide_eq_true_eq] at hd
    omega

/-- C7 (as amended): a line `<P>Mon D HH:MM:SS HOST APP: MSG` or
`<P>Mon D HH:MM:SS HOST APP[PID]: MSG` of the RFC 3164 shape is accepted by the
syslog parser, with hostname HOST, application APP, description MSG and result
unknown; the process id is 0 without the bracket part, the number PID when that
number is at most `2^63 - 1`, and `2^63 - 1` when it is larger. -/
theorem C7_rfc3164_line_fields {Time : Type} (lib : Lib Time) (call : Call Time)
    (P Mon D HH MM SS HOST APP : Str) (PID : Option Str) (MSG : Str)
    (hP : isDigits P = true) (hMon : isWordFromLetter Mon = true) (hD : isDigits D = true)
    (hHH : isDigits HH = true) (hMM : isDigits MM = true) (hSS : isDigits SS = true)
    (hHOST : isName HOST = true) (hAPP : isName APP = true)
    (hPID : ∀ pid ∈ PID, isDigits pid = true) (hMSG : isMessage MSG = true) :
    ∃ ev, SyslogParser.Parse lib call (rfc3164LineOf P Mon D HH MM SS HOST APP PID MSG) = .ok ev ∧
      ev.Source.Hostname = HOST ∧ ev.Source.Application = APP ∧
      ev.Source.ProcessID = processIDOf PID ∧ ev.Description = MSG ∧ ev.Result = ResultUnknown := by
  rw [Spec.isDigits_iff] at hP hD hHH hMM hSS
  rw [Spec.isName_iff] at hHOST hAPP
  rw [Spec.isMessage_iff] at hMSG
  obtain ⟨l, Mon', hMoneq, hl, hMonw⟩ := Spec.isWordFromLetter_elim Mon hMon
  have hMonne : Mon ≠ [] := by rw [hMoneq]; simp
  cases PID with
  | none =>
    have hline : rfc3164LineOf P Mon D HH MM SS HOST APP none MSG =
        '<' :: (P ++ '>' :: (Mon ++ ' ' :: (D ++ ' ' :: (HH ++ ':' :: (MM ++ ':' :: (SS ++ ' ' ::
          (HOST ++ ' ' :: (APP ++ ':' :: ' ' :: MSG)))))))) := by
      simp [rfc3164LineOf, bracketPart]
    have h3164 := parser.RFC3164_match_plain P Mon D HH MM SS HOST APP MSG hP.2 hP.1 hMonw hMonne
      hD.2 hD.1 hHH.2 hHH.1 hMM.2 hMM.1 hSS.2 hSS.1 hHOST.2.1 hHOST.1 hAPP.2.1 hAPP.1 hAPP.2.2
      hMSG.1 hMSG.2
    have h5424 : FindStringSubmatch RFC5424Pattern 9
        (rfc3164LineOf P Mon D HH MM SS HOST APP none MSG) = none := by
      rw [hline, hMoneq]
      exact parser.RFC5424_no_match P _ l hP.2 hl
    rw [← hline] at h3164
    have hparse : SyslogParser.Parse lib call (rfc3164LineOf P Mon D HH MM SS HOST APP none MSG) =
        SyslogParser.parseRFC3164 lib call
          [rfc3164LineOf P Mon D HH MM SS HOST APP none MSG, P,
            Mon ++ ' ' :: (D ++ ' ' :: (HH ++ ':' :: (MM ++ ':' :: SS))), HOST, APP, [], [],
            MSG] := by
      unfold SyslogParser.Parse
      rw [h5424, h3164]
    exact ⟨_, hparse.trans rfl, rfl, rfl, rfl, rfl, rfl⟩
  | some pid =>
    have hpid := hPID pid rfl
    rw [Spec.isDigits_iff] at hpid
    have hline : rfc3164LineOf P Mon D HH MM SS HOST APP (some pid) MSG =
        '<' :: (P ++ '>' :: (Mon ++ ' ' :: (D ++ ' ' :: (HH ++ ':' :: (MM ++ ':' :: (SS ++ ' ' ::
          (HOST ++ ' ' :: (APP ++ '[' :: (pid ++ ']' :: ':' :: ' ' :: MSG))))))))) := by
      simp [rfc3164LineOf, bracketPart]
    have h3164 := parser.RFC3164_match_pid P Mon D HH MM SS HOST APP pid MSG hP.2 hP.1 hMonw
      hMonne hD.2 hD.1 hHH.2 hHH.1 hMM.2 hMM.1 hSS.2 hSS.1 hHOST.2.1 hHOST.1 hAPP.2.1 hAPP.1
      hAPP.2.2 hpid.2 hpid.1 hMSG.1 hMSG.2
    have h5424 : FindStringSubmatch RFC5424Pattern 9
        (rfc3164LineOf P Mon D HH MM SS HOST APP (some pid) MSG) = none := by
      rw [hline, hMoneq]
      exact parser.RFC5424_no_match P _ l hP.2 hl
    rw [← hline] at h3164
    have hparse : SyslogParser.Parse lib call
          (rfc3164LineOf P Mon D HH MM SS HOST APP (some pid) MSG) =
        SyslogParser.parseRFC3164 lib call
          [rfc3164LineOf P Mon D HH MM SS HOST APP (some pid) MSG, P,
            Mon ++ ' ' :: (D ++ ' ' :: (HH ++ ':' :: (MM ++ ':' :: SS))), HOST, APP,
            '[' :: (pid ++ [']']), pid, MSG] := by
      unfold SyslogParser.Parse
      rw [h5424, h3164]
    refine ⟨_, hparse.trans rfl, rfl, rfl, ?_, rfl, rfl⟩
    show (if pid ≠ [] then (Atoi pid).1 else 0) = _
    rw [if_pos hpid.1]
    exact Go.Atoi_digits pid hpid.1 hpid.2

/-- C7 (as amended) at the RFC 3164 line of the test suite. -/
theorem C7_rfc3164_line_fields_witness :
    rfc3164LineOf "134".toList "Oct".toList "11".toList "22".toList "14".toList "15".toList
        "mymachine".toList "su".toList none "'su root' failed for lonvick on /dev/pts/8".toList =
      rfc3164Line ∧
    ∃ ev, SyslogParser.Parse (exampleLib (.error [])) exampleCall
        (rfc3164LineOf "134".toList "Oct".toList "11".toList "22".toList "14".toList "15".toList
          "mymachine".toList "su".toList none
          "'su root' failed for lonvick on /dev/pts/8".toList) = .ok ev ∧
      ev.Source.Hostname = "mymachine".toList ∧ ev.Source.Application = "su".toList ∧
      ev.Source.ProcessID = 0 ∧
      ev.Description = "'su root' failed for lonvick on /dev/pts/8".toList ∧
      ev.Result = ResultUnknown :=
  ⟨by decide,
    C7_rfc3164_line_fields (exampleLib (.error [])) exampleCall "134".toList "Oct".toList
      "11".toList "22".toList "14".toList "15".toList "mymachine".toList "su".toList none
      "'su root' failed for lonvick on /dev/pts/8".toList
      (by decide) (by decide) (by decide) (by decide) (by decide) (by decide) (by decide)
      (by decide) (by simp) (by decide)⟩

/-- C7 fails as stated: for the PID `9223372036854775808` the process id of the
event is `9223372036854775807`. -/
theorem C7_process_id_not_the_pid :
    ∃ ev, SyslogParser.Parse (exampleLib (.error [])) exampleCall
        (rfc3164LineOf "134".toList "Oct".toList "11".toList "22".toList "14".toList "15".toList
          "mymachine".toList "su".toList (some "9223372036854775808".toList) "x".toList) =
        .ok ev ∧
      isDigits "9223372036854775808".toList = true ∧
      decimalValue "9223372036854775808".toList = 9223372036854775808 ∧
      ev.Source.ProcessID = 9223372036854775807 :=
  ⟨_, rfl, by decide, by decide, by decide⟩

/-! ## Lines of the RFC 5424 shape -/

/-- The digit loop of `ParseUint` on any text: a range error when the digits at
its start pass `2^64 - 1`, else their value when the text is all digits, else a
syntax error. -/
theorem Go.parseUintLoop_spec : ∀ (s : Str) (acc : Nat), acc ≤ 2 ^ 64 - 1 →
    parseUintLoop s acc =
      if (s.takeWhile isDigit).foldl (fun acc c => acc * 10 + (c.toNat - 48)) acc > 2 ^ 64 - 1 then
        .error .outOfRange
      else if s.all isDigit = true then
        .ok ((s.takeWhile isDigit).foldl (fun acc c => acc * 10 + (c.toNat - 48)) acc)
      else .error .invalid
  | [], acc, hacc => by
    simp only [parseUintLoop, List.takeWhile_nil, List.foldl_nil, List.all_nil, if_true]
    rw [if_neg (by omega)]
  | c :: cs, acc, hacc => by
    unfold parseUintLoop
    by_cases hc : isDigit c = true
    · have hc' := hc
      simp only [isDigit, Bool.and_eq_true, decide_eq_true_eq] at hc'
      have hd : digitVal c = some (c.toNat - 48) := by simp [digitVal, hc']
      have hm := Go.le_foldl_digits (cs.takeWhile isDigit) (acc * 10 + (c.toNat - 48))
      simp only [hd, List.takeWhile_cons, hc, if_true, List.foldl_cons, List.all_cons,
        Bool.true_and]
      by_cases hov : acc * 10 + (c.toNat - 48) > 2 ^ 64 - 1
      · rw [if_pos hov, if_pos (by omega)]
      · rw [if_neg hov]
        exact Go.parseUintLoop_spec cs _ (by omega)
    · have hc' := hc
      simp only [isDigit, Bool.and_eq_true, decide_eq_true_eq] at hc'
      have hd : digitVal c = none := by simp [digitVal, hc']
      have hcf : isDigit c = false := by simpa using hc
      simp only [hd, List.takeWhile_cons, hcf, Bool.false_eq_true, if_false, List.foldl_nil,
        List.all_cons, Bool.false_and]
      rw [if_neg (by omega)]

theorem Spec.takeWhile_of_all (s : Str) (h : s.all isDigit = true) : s.takeWhile isDigit = s := by
  induction s with
  | nil => rfl
  | cons c cs ih =>
    simp only [List.all_cons, Bool.and_eq_true] at h
    simp only [List.takeWhile_cons, h.1, if_true, ih h.2]

/-- The result of `ParseUint` on any text. -/
theorem Go.ParseUint_spec (s : Str) :
    ParseUint s =
      if decimalValue (s.takeWhile isDigit) > 2 ^ 64 - 1 then (2 ^ 64 - 1, some .outOfRange)
      else if isDigits s = true then (decimalValue s, none)
      else (0, some .invalid) := by
  cases s with
  | nil => decide
  | cons c cs =>
    unfold ParseUint
    simp only [Go.parseUintLoop_spec (c :: cs) 0 (by decide)]
    unfold decimalValue isDigits
    by_cases hov : ((c :: cs).takeWhile isDigit).foldl (fun acc c => acc * 10 + (c.toNat - 48)) 0 >
        2 ^ 64 - 1
    · simp only [hov, if_true]
    · simp only [hov, if_false, List.isEmpty_cons, Bool.not_false, Bool.true_and]
      by_cases hall : (c :: cs).all isDigit = true
      · simp only [hall, if_true, Spec.takeWhile_of_all _ hall]
      · simp only [hall, if_false, Bool.false_eq_true]

/-- The value `ParseInt` computes from the sign and the unsigned part of a
token. -/
theorem Go.ParseInt_body (neg : Bool) (body : Str) :
    (match ParseUint body with
      | (_, some .invalid) => ((0 : Int), some NumError.invalid)
      | (un, _) =>
        if !neg && un ≥ 2 ^ 63 then ((2 : Int) ^ 63 - 1, some .outOfRange)
        else if neg && un > 2 ^ 63 then (-(2 : Int) ^ 63, some .outOfRange)
        else (if neg then -(un : Int) else (un : Int), none)).1 =
      if isDigits body = true then
        clampInt64 (if neg = true then -(decimalValue body : Int) else (decimalValue body : Int))
      else if decimalValue (body.takeWhile isDigit) > 2 ^ 64 - 1 then
        (if neg = true then -(2 : Int) ^ 63 else (2 : Int) ^ 63 - 1)
      else 0 := by
  rw [Go.ParseUint_spec]
  have h64 : (2 : Nat) ^ 64 - 1 ≥ 2 ^ 63 := by decide
  have h64' : (2 : Nat) ^ 64 - 1 > 2 ^ 63 := by decide
  by_cases hov : decimalValue (body.takeWhile isDigit) > 2 ^ 64 - 1
  · rw [if_pos hov]
    simp only []
    by_cases hd : isDigits body = true
    · rw [if_pos hd]
      have hall : body.all isDigit = true := by
        rw [Spec.isDigits_iff] at hd
        exact List.all_eq_true.mpr hd.2
      rw [Spec.takeWhile_of_all body hall] at hov
      unfold clampInt64
      cases neg
      · simp only [Bool.not_false, Bool.true_and, decide_eq_true_eq, h64, if_true,
          Bool.false_eq_true, if_false]
        omega
      · simp only [Bool.not_true, Bool.false_and, Bool.false_eq_true, if_false, Bool.true_and,
          decide_eq_true_eq, h64', if_true]
        omega
    · rw [if_neg hd, if_pos hov]
      cases neg
      · simp only [Bool.not_false, Bool.true_and, decide_eq_true_eq, h64, if_true,
          Bool.false_eq_true, if_false]
      · simp only [Bool.not_true, Bool.false_and, Bool.false_eq_true, if_false, Bool.true_and,
          decide_eq_true_eq, h64', if_true]
  · rw [if_neg hov]
    by_cases hd : isDigits body = true
    · rw [if_pos hd, if_pos hd]
      simp only []
      unfold clampInt64
      cases neg
      · simp only [Bool.not_false, Bool.true_and, decide_eq_true_eq, Bool.false_and,
          Bool.false_eq_true, if_false]
        split_ifs <;> simp only [] <;> omega
      · simp only [Bool.not_true, Bool.false_and, Bool.false_eq_true, if_false, Bool.true_and,
          decide_eq_true_eq, if_true]
        split_ifs <;> simp only [] <;> omega
    · rw [if_neg hd, if_neg hd, if_neg hov]

/-- The value `Atoi` returns, its error dropped, on any token. -/
theorem Go.Atoi_value (s : Str) : (Atoi s).1 = procIDRule s := by
  cases s with
  | nil => decide
  | cons c cs =>
    have hrule : procIDRule (c :: cs) =
        if isDigits (unsignedPart (c :: cs)) = true then
          clampInt64 (if c = '-' then -(decimalValue (unsignedPart (c :: cs)) : Int)
            else (decimalValue (unsignedPart (c :: cs)) : Int))
        else if decimalValue ((unsignedPart (c :: cs)).takeWhile isDigit) > 2 ^ 64 - 1 then
          (if c = '-' then -(2 : Int) ^ 63 else (2 : Int) ^ 63 - 1)
        else 0 := by
      unfold procIDRule signedDecimal leadingDigits
      simp only [List.head?_cons, Option.some.injEq]
      by_cases hd : isDigits (unsignedPart (c :: cs)) = true
      · simp only [hd, if_true]
      · simp only [hd, if_false, Bool.false_eq_true]
    rw [hrule]
    unfold Atoi ParseInt
    have hbody : (if (c == '+' || c == '-') = true then cs else c :: cs) =
        unsignedPart (c :: cs) := by
      unfold unsignedPart
      by_cases h1 : c = '+'
      · simp [h1]
      · by_cases h2 : c = '-'
        · simp [h2]
        · simp [h1, h2]
    simp only [hbody]
    refine (Go.ParseInt_body (c == '-') (unsignedPart (c :: cs))).trans ?_
    simp only [beq_iff_eq]

/-- C8 (as amended): a line `<P>V TS HOST APP PROCID MSGID SD MSG` of the RFC 5424
shape is parsed by the RFC 5424 branch, with hostname HOST, application APP,
description MSG, `syslog_version` V and `syslog_msgid` MSGID; the process id is 0
when PROCID is "-"; it is the number PROCID when PROCID is a decimal integer,
with or without a sign, within the bounds of `int`, and the nearer bound,
`2^63 - 1` or `-2^63`, when that integer is outside them; and it is 0 when PROCID
is not a number, unless the digits at its start already pass `2^64 - 1`, when
it is the bound on the side of its sign. -/
theorem C8_rfc5424_line_fields {Time : Type} (lib : Lib Time) (call : Call Time)
    (P V TS HOST APP PROCID MSGID SD MSG : Str)
    (hP : isDigits P = true) (hV : isDigits V = true) (hTS : isToken TS = true)
    (hHOST : isToken HOST = true) (hAPP : isToken APP = true) (hPROCID : isToken PROCID = true)
    (hMSGID : isToken MSGID = true) (hSD : isToken SD = true) (hMSG : isMessage MSG = true) :
    ∃ ev, SyslogParser.Parse lib call (rfc5424LineOf P V TS HOST APP PROCID MSGID SD MSG) = .ok ev ∧
      SyslogParser.Parse lib call (rfc5424LineOf P V TS HOST APP PROCID MSGID SD MSG) =
        SyslogParser.parseRFC5424 lib call
          [rfc5424LineOf P V TS HOST APP PROCID MSGID SD MSG, P, V, TS, HOST, APP, PROCID, MSGID,
            SD, MSG] ∧
      ev.Source.Hostname = HOST ∧ ev.Source.Application = APP ∧ ev.Description = MSG ∧
      ev.AdditionalData.get? "syslog_version".toList = some (.str V) ∧
      ev.AdditionalData.get? "syslog_msgid".toList = some (.str MSGID) ∧
      (isDigits PROCID = true →
        ev.Source.ProcessID = min (decimalValue PROCID : Int) (2 ^ 63 - 1)) ∧
      (PROCID = "-".toList ∨ (Atoi PROCID).2 = some .invalid → ev.Source.ProcessID = 0) ∧
      ev.Source.ProcessID = procIDRule PROCID ∧
      (∀ n : Int, signedDecimal PROCID = some n → inInt64 n → ev.Source.ProcessID = n) ∧
      (∀ n : Int, signedDecimal PROCID = some n → ev.Source.ProcessID = clampInt64 n) ∧
      (signedDecimal PROCID = none → decimalValue (leadingDigits PROCID) ≤ 2 ^ 64 - 1 →
        ev.Source.ProcessID = 0) := by
  rw [Spec.isDigits_iff] at hP hV
  rw [Spec.isToken_iff] at hTS hHOST hAPP hPROCID hMSGID hSD
  rw [Spec.isMessage_iff] at hMSG
  have hm := parser.RFC5424_match P V TS HOST APP PROCID MSGID SD MSG hP.2 hP.1 hV.2 hV.1
    hTS.2 hTS.1 hHOST.2 hHOST.1 hAPP.2 hAPP.1 hPROCID.2 hPROCID.1 hMSGID.2 hMSGID.1 hSD.2 hSD.1
    hMSG.1 hMSG.2
  have hline : rfc5424LineOf P V TS HOST APP PROCID MSGID SD MSG =
      '<' :: (P ++ '>' :: (V ++ ' ' :: (TS ++ ' ' :: (HOST ++ ' ' :: (APP ++ ' ' ::
          (PROCID ++ ' ' :: (MSGID ++ ' ' :: (SD ++ ' ' :: MSG)))))))) := by
    simp [rfc5424LineOf]
  rw [← hline] at hm
  have hparse : SyslogParser.Parse lib call (rfc5424LineOf P V TS HOST APP PROCID MSGID SD MSG) =
      SyslogParser.parseRFC5424 lib call
        [rfc5424LineOf P V TS HOST APP PROCID MSGID SD MSG, P, V, TS, HOST, APP, PROCID, MSGID,
          SD, MSG] := by
    unfold SyslogParser.Parse
    rw [hm]
  have hrule : (if PROCID ≠ "-".toList then (Atoi PROCID).1 else 0) = procIDRule PROCID := by
    by_cases hdash : PROCID = "-".toList
    · rw [if_neg (by simp [hdash]), hdash]
      decide
    · rw [if_pos hdash]
      exact Go.Atoi_value PROCID
  refine ⟨_, hparse.trans rfl, hparse, rfl, rfl, rfl, ?_, ?_, ?_, ?_, hrule, ?_, ?_, ?_⟩
  · simp only [Go.get?_set]
    rfl
  · simp only [Go.get?_set]
    rfl
  · intro hd
    rw [Spec.isDigits_iff] at hd
    have hne : PROCID ≠ "-".toList := by
      intro e
      have := hd.2 '-' (by rw [e]; simp)
      revert this; decide
    show (if PROCID ≠ "-".toList then (Atoi PROCID).1 else 0) = _
    rw [if_pos hne]
    exact Go.Atoi_digits PROCID hd.1 hd.2
  · intro h
    show (if PROCID ≠ "-".toList then (Atoi PROCID).1 else 0) = 0
    rcases h with h | h
    · rw [if_neg (by simp [h])]
    · split_ifs
      · exact Go.Atoi_invalid PROCID h
      · rfl
  · intro n hn hr
    show (if PROCID ≠ "-".toList then (Atoi PROCID).1 else 0) = n
    rw [hrule]
    unfold procIDRule
    rw [hn]
    unfold inInt64 at hr
    unfold clampInt64
    simp only []
    omega
  · intro n hn
    show (if PROCID ≠ "-".toList then (Atoi PROCID).1 else 0) = _
    rw [hrule]
    unfold procIDRule
    rw [hn]
  · intro hn hle
    show (if PROCID ≠ "-".toList then (Atoi PROCID).1 else 0) = 0
    rw [hrule]
    unfold procIDRule
    rw [hn]
    simp only []
    rw [if_neg (by omega)]

/-- C8 (as amended) at the RFC 5424 line of the test suite, and at the same line
with the PROCID `-5`. -/
theorem C8_rfc5424_line_fields_witness :
    rfc5424LineOf "165".toList "1".toList "2023-10-11T22:14:15.003Z".toList
        "mymachine.example.com".toList "evntslog".toList "-".toList "ID47".toList "-".toList
        "User login successful".toList =
      ("<165>1 2023-10-11T22:14:15.003Z mymachine.example.com evntslog - ID47 - " ++
        "User login successful").toList ∧
    (∃ ev, SyslogParser.Parse (exampleLib (.error [])) exampleCall
        (rfc5424LineOf "165".toList "1".toList "2023-10-11T22:14:15.003Z".toList
          "mymachine.example.com".toList "evntslog".toList "-".toList "ID47".toList "-".toList
          "User login successful".toList) = .ok ev ∧
      ev.Source.Hostname = "mymachine.example.com".toList ∧
      ev.Source.Application = "evntslog".toList ∧ ev.Source.ProcessID = 0) ∧
    signedDecimal "-5".toList = some (-5) ∧ signedDecimal "+5".toList = some 5 ∧
    signedDecimal "7".toList = some 7 ∧ signedDecimal "-".toList = none ∧
    signedDecimal "5x".toList = none ∧ inInt64 (-5) ∧
    (∃ ev, SyslogParser.Parse (exampleLib (.error [])) exampleCall
        (rfc5424LineOf "165".toList "1".toList "2023-10-11T22:14:15.003Z".toList
          "mymachine.example.com".toList "evntslog".toList "-5".toList "ID47".toList "-".toList
          "User login successful".toList) = .ok ev ∧
      ev.Source.ProcessID = -5) ∧
    (∃ ev, SyslogParser.Parse (exampleLib (.error [])) exampleCall
        (rfc5424LineOf "165".toList "1".toList "2023-10-11T22:14:15.003Z".toList
          "mymachine.example.com".toList "evntslog".toList "+5".toList "ID47".toList "-".toList
          "User login successful".toList) = .ok ev ∧
      ev.Source.ProcessID = 5) :=
  ⟨by decide,
    (C8_rfc5424_line_fields (exampleLib (.error [])) exampleCall "165".toList "1".toList
      "2023-10-11T22:14:15.003Z".toList "mymachine.example.com".toList "evntslog".toList
      "-".toList "ID47".toList "-".toList "User login successful".toList
      (by decide) (by decide) (by decide) (by decide) (by decide) (by decide) (by decide)
      (by decide) (by decide)).imp
      (fun _ h => ⟨h.1, h.2.2.1, h.2.2.2.1, h.2.2.2.2.2.2.2.2.1 (Or.inl rfl)⟩),
    by decide, by decide, by decide, by decide, by decide, by unfold inInt64; decide,
    (C8_rfc5424_line_fields (exampleLib (.error [])) exampleCall "165".toList "1".toList
      "2023-10-11T22:14:15.003Z".toList "mymachine.example.com".toList "evntslog".toList
      "-5".toList "ID47".toList "-".toList "User login successful".toList
      (by decide) (by decide) (by decide) (by decide) (by decide) (by decide) (by decide)
      (by decide) (by decide)).imp
      (fun _ h => ⟨h.1, h.2.2.2.2.2.2.2.2.2.2.1 (-5) (by decide) (by unfold inInt64; decide)⟩),
    (C8_rfc5424_line_fields (exampleLib (.error [])) exampleCall "165".toList "1".toList
      "2023-10-11T22:14:15.003Z".toList "mymachine.example.com".toList "evntslog".toList
      "+5".toList "ID47".toList "-".toList "User login successful".toList
      (by decide) (by decide) (by decide) (by decide) (by decide) (by decide) (by decide)
      (by decide) (by decide)).imp
      (fun _ h => ⟨h.1, h.2.2.2.2.2.2.2.2.2.2.1 5 (by decide) (by unfold inInt64; decide)⟩)⟩

/-- C8 fails as stated: for the PROCID `9223372036854775808`, a number, the
process id of the event is `9223372036854775807`; and for the PROCID
`99999999999999999999x`, which is not a number, it is `9223372036854775807` too,
not 0. -/
theorem C8_process_id_not_the_number :
    (∃ ev, SyslogParser.Parse (exampleLib (.error [])) exampleCall
        (rfc5424LineOf "165".toList "1".toList "2023-10-11T22:14:15.003Z".toList
          "mymachine.example.com".toList "evntslog".toList "9223372036854775808".toList
          "ID47".toList "-".toList "User login successful".toList) = .ok ev ∧
      isDigits "9223372036854775808".toList = true ∧
      decimalValue "9223372036854775808".toList = 9223372036854775808 ∧
      ev.Source.ProcessID = 9223372036854775807) ∧
    (∃ ev, SyslogParser.Parse (exampleLib (.error [])) exampleCall
        (rfc5424LineOf "165".toList "1".toList "2023-10-11T22:14:15.003Z".toList
          "mymachine.example.com".toList "evntslog".toList "99999999999999999999x".toList
          "ID47".toList "-".toList "User login successful".toList) = .ok ev ∧
      signedDecimal "99999999999999999999x".toList = none ∧
      ev.Source.ProcessID = 9223372036854775807) :=
  ⟨⟨_, rfl, by decide, by decide, by decide⟩, ⟨_, rfl, by decide, by decide⟩⟩

/-! ## The grammar of the CEF pattern -/

/-- What a successful greedy repetition has consumed. -/
theorem regexp.repGreedy_sound {α : Type} (p : Char → Bool) (k : Str → Option α) (x : α) :
    ∀ (s : Str) (min : Nat), repGreedy p k min s = some x →
      ∃ A rest, s = A ++ rest ∧ (∀ a ∈ A, p a = true) ∧ min ≤ A.length ∧ k rest = some x
  | [], min, h => by
    unfold repGreedy at h
    split_ifs at h with hm
    exact ⟨[], [], rfl, by simp, by simp [hm], h⟩
  | c :: cs, min, h => by
    unfold repGreedy at h
    by_cases hc : p c = true
    · simp only [hc, if_true] at h
      cases hrec : repGreedy p k (min - 1) cs with
      | some y =>
        rw [hrec] at h
        simp only [Option.some.injEq] at h
        subst h
        obtain ⟨A, rest, hs, hA, hmin, hk⟩ := regexp.repGreedy_sound p k y cs (min - 1) hrec
        refine ⟨c :: A, rest, by rw [hs]; rfl, ?_, by simp; omega, hk⟩
        intro a ha
        rcases List.mem_cons.mp ha with rfl | ha
        · exact hc
        · exact hA a ha
      | none =>
        rw [hrec] at h
        simp only at h
        by_cases hm : min = 0
        · rw [if_pos hm] at h
          exact ⟨[], c :: cs, rfl, by simp, by simp [hm], h⟩
        · rw [if_neg hm] at h
          cases h
    · simp only [hc, Bool.false_eq_true, if_false] at h
      by_cases hm : min = 0
      · rw [if_pos hm] at h
        exact ⟨[], c :: cs, rfl, by simp, by simp [hm], h⟩
      · rw [if_neg hm] at h
        cases h

theorem regexp.run_chr_sound (n : Nat) (a : Char) (k : Str → Caps → Option Caps) (s : Str)
    (c x : Caps) (h : run n (.chr a) k s c = some x) : ∃ t, s = a :: t ∧ k t c = some x := by
  cases s with
  | nil => simp [run] at h
  | cons b t =>
    simp only [run] at h
    split_ifs at h with hb
    exact ⟨t, by rw [hb], h⟩

theorem regexp.run_grp_rep_sound (n i : Nat) (p : Char → Bool) (min : Nat)
    (k : Str → Caps → Option Caps) (s : Str) (c x : Caps)
    (h : run n (.grp i (.rep p min true)) k s c = some x) :
    ∃ A rest c', s = A ++ rest ∧ (∀ a ∈ A, p a = true) ∧ min ≤ A.length ∧ k rest c' = some x := by
  simp only [run] at h
  obtain ⟨A, rest, hs, hA, hmin, hk⟩ := regexp.repGreedy_sound p _ x s min h
  exact ⟨A, rest, _, hs, hA, hmin, hk⟩

theorem regexp.run_seq (n : Nat) (a b : Regex) (k : Str → Caps → Option Caps) :
    run n (.seq a b) k = run n a (run n b k) := by
  funext s c
  simp only [run]

theorem regexp.run_eot_sound (n : Nat) (k : Str → Caps → Option Caps) (s : Str) (c x : Caps)
    (h : run n .eot k s c = some x) : s = [] := by
  cases s with
  | nil => rfl
  | cons b t => simp [run] at h

/-- A match of a pattern that begins with `^` is a match at the start of the
input. -/
theorem regexp.find_anchored_some (r : Regex) (g : Nat) (s : Str) (m : Caps)
    (h : FindStringSubmatch (.seq .bot r) g s = some m) :
    ∃ c, run s.length r (fun s' c' => some (c'.set 0 (s.take (s.length - s'.length)))) s c =
      some m := by
  unfold FindStringSubmatch at h
  have hrun : run s.length (.grp 0 (.seq .bot r)) (fun _ c => some c) s
      (List.replicate (g + 1) []) = some m := by
    cases s with
    | nil => simpa [searchFrom] using h
    | cons x xs =>
      simp only [searchFrom] at h
      cases hr : run (x :: xs).length (.grp 0 (.seq .bot r)) (fun _ c => some c) (x :: xs)
          (List.replicate (g + 1) []) with
      | some c => rw [hr] at h; exact h
      | none =>
        rw [hr] at h
        simp only at h
        rw [regexp.searchFrom_anchored _ r _ xs (by simp)] at h
        cases h
  simp only [run, if_true] at hrun
  exact ⟨_, hrun⟩

theorem parser.cefPattern_sound (raw : Str) (m : Caps)
    (h : FindStringSubmatch cefPattern 8 raw = some m) : cefShape raw := by
  have hpat : cefPattern = .seq .bot (seqs [.chr 'C', .chr 'E', .chr 'F', .chr ':',
      .grp 1 (.rep isDigit 1 true), .chr '|',
      .grp 2 (.rep notPipe 0 true), .chr '|', .grp 3 (.rep notPipe 0 true), .chr '|',
      .grp 4 (.rep notPipe 0 true), .chr '|', .grp 5 (.rep notPipe 0 true), .chr '|',
      .grp 6 (.rep notPipe 0 true), .chr '|', .grp 7 (.rep notPipe 0 true), .chr '|',
      .grp 8 (.rep notNL 0 true), .eot]) := rfl
  rw [hpat] at h
  obtain ⟨c, h⟩ := regexp.find_anchored_some _ 8 raw m h
  generalize raw.length = n at h
  generalize (fun (s' : Str) (c' : Caps) => some (c'.set 0 (raw.take (n - s'.length)))) = k at h
  simp only [seqs, regexp.run_seq] at h
  obtain ⟨t1, e1, h1⟩ := regexp.run_chr_sound _ _ _ _ _ _ h
  obtain ⟨t2, e2, h2⟩ := regexp.run_chr_sound _ _ _ _ _ _ h1
  obtain ⟨t3, e3, h3⟩ := regexp.run_chr_sound _ _ _ _ _ _ h2
  obtain ⟨t4, e4, h4⟩ := regexp.run_chr_sound _ _ _ _ _ _ h3
  obtain ⟨ver, t5, c5, e5, hver, hvlen, h5⟩ :=
    regexp.run_grp_rep_sound _ _ _ _ _ _ _ _ h4
  obtain ⟨t6, e6, h6⟩ := regexp.run_chr_sound _ _ _ _ _ _ h5
  obtain ⟨f2, t7, c7, e7, hf2, _, h7⟩ :=
    regexp.run_grp_rep_sound _ _ _ _ _ _ _ _ h6
  obtain ⟨t8, e8, h8⟩ := regexp.run_chr_sound _ _ _ _ _ _ h7
  obtain ⟨f3, t9, c9, e9, hf3, _, h9⟩ :=
    regexp.run_grp_rep_sound _ _ _ _ _ _ _ _ h8
  obtain ⟨t10, e10, h10⟩ := regexp.run_chr_sound _ _ _ _ _ _ h9
  obtain ⟨f4, t11, c11, e11, hf4, _, h11⟩ :=
    regexp.run_grp_rep_sound _ _ _ _ _ _ _ _ h10
  obtain ⟨t12, e12, h12⟩ := regexp.run_chr_sound _ _ _ _ _ _ h11
  obtain ⟨f5, t13, c13, e13, hf5, _, h13⟩ :=
    regexp.run_grp_rep_sound _ _ _ _ _ _ _ _ h12
  obtain ⟨t14, e14, h14⟩ := regexp.run_chr_sound _ _ _ _ _ _ h13
  obtain ⟨f6, t15, c15, e15, hf6, _, h15⟩ :=
    regexp.run_grp_rep_sound _ _ _ _ _ _ _ _ h14
  obtain ⟨t16, e16, h16⟩ := regexp.run_chr_sound _ _ _ _ _ _ h15
  obtain ⟨f7, t17, c17, e17, hf7, _, h17⟩ :=
    regexp.run_grp_rep_sound _ _ _ _ _ _ _ _ h16
  obtain ⟨t18, e18, h18⟩ := regexp.run_chr_sound _ _ _ _ _ _ h17
  obtain ⟨ext, t19, c19, e19, hext, _, h19⟩ :=
    regexp.run_grp_rep_sound _ _ _ _ _ _ _ _ h18
  have e0 := regexp.run_eot_sound _ _ _ _ _ h19
  subst e0 e19 e18 e17 e16 e15 e14 e13 e12 e11 e10 e9 e8 e7 e6 e5 e4 e3 e2 e1
  refine ⟨ver, f2, f3, f4, f5, f6, f7, ext, ?_, ?_, ?_, ?_, ?_, ?_, ?_, ?_, ?_⟩
  · simp [cefLineOf]
  · simp only [isDigits, Bool.and_eq_true, Bool.not_eq_true', List.all_eq_true]
    refine ⟨?_, hver⟩
    cases ver with
    | nil => simp at hvlen
    | cons _ _ => rfl
  all_goals simpa [noPipe, noNewline] using ‹_›

theorem parser.cefPattern_match (ver f2 f3 f4 f5 f6 f7 ext : Str)
    (hver : ∀ a ∈ ver, isDigit a = true) (hvne : ver ≠ [])
    (hf2 : ∀ a ∈ f2, notPipe a = true) (hf3 : ∀ a ∈ f3, notPipe a = true)
    (hf4 : ∀ a ∈ f4, notPipe a = true) (hf5 : ∀ a ∈ f5, notPipe a = true)
    (hf6 : ∀ a ∈ f6, notPipe a = true) (hf7 : ∀ a ∈ f7, notPipe a = true)
    (hext : ∀ a ∈ ext, notNL a = true) :
    FindStringSubmatch cefPattern 8
        ('C' :: 'E' :: 'F' :: ':' :: (ver ++ '|' :: (f2 ++ '|' :: (f3 ++ '|' :: (f4 ++ '|' ::
          (f5 ++ '|' :: (f6 ++ '|' :: (f7 ++ '|' :: ext)))))))) =
      some ['C' :: 'E' :: 'F' :: ':' :: (ver ++ '|' :: (f2 ++ '|' :: (f3 ++ '|' :: (f4 ++ '|' ::
          (f5 ++ '|' :: (f6 ++ '|' :: (f7 ++ '|' :: ext))))))),
        ver, f2, f3, f4, f5, f6, f7, ext] := by
  refine regexp.searchFrom_of_run _ _ _ _ _ ?_
  simp only [cefPattern, seqs, run, if_true]
  refine regexp.repGreedy_run _ _ _ _ (by simp [isDigit]) ?_ ver 1 hver
    (regexp.one_le_length hvne)
  simp only [if_true, regexp.take_length_sub]
  refine regexp.repGreedy_run _ _ _ _ (by simp [notPipe]) ?_ f2 0 hf2 (Nat.zero_le _)
  simp only [if_true, regexp.take_length_sub]
  refine regexp.repGreedy_run _ _ _ _ (by simp [notPipe]) ?_ f3 0 hf3 (Nat.zero_le _)
  simp only [if_true, regexp.take_length_sub]
  refine regexp.repGreedy_run _ _ _ _ (by simp [notPipe]) ?_ f4 0 hf4 (Nat.zero_le _)
  simp only [if_true, regexp.take_length_sub]
  refine regexp.repGreedy_run _ _ _ _ (by simp [notPipe]) ?_ f5 0 hf5 (Nat.zero_le _)
  simp only [if_true, regexp.take_length_sub]
  refine regexp.repGreedy_run _ _ _ _ (by simp [notPipe]) ?_ f6 0 hf6 (Nat.zero_le _)
  simp only [if_true, regexp.take_length_sub]
  refine regexp.repGreedy_run _ _ _ _ (by simp [notPipe]) ?_ f7 0 hf7 (Nat.zero_le _)
  simp only [if_true, regexp.take_length_sub]
  refine regexp.repGreedy_all _ _ _ ?_ ext 0 hext (Nat.zero_le _)
  simp only [List.isEmpty_nil, if_true, List.length_nil, Nat.sub_zero, List.take_length,
    List.replicate, List.set_cons_succ, List.set_cons_zero]

theorem Spec.noPipe_iff (s : Str) : noPipe s = true ↔ ∀ a ∈ s, notPipe a = true := by
  simp [noPipe]

theorem Spec.noNewline_iff (s : Str) : noNewline s = true ↔ ∀ a ∈ s, notNL a = true := by
  simp [noNewline]

/-- The groups the CEF pattern captures on a line of the CEF grammar. -/
theorem parser.cefPattern_groups (ver vendor product dver sig name sev ext : Str)
    (hver : isDigits ver = true) (hvendor : noPipe vendor = true)
    (hproduct : noPipe product = true) (hdver : noPipe dver = true) (hsig : noPipe sig = true)
    (hname : noPipe name = true) (hsev : noPipe sev = true) (hext : noNewline ext = true) :
    FindStringSubmatch cefPattern 8 (cefLineOf ver vendor product dver sig name sev ext) =
      some [cefLineOf ver vendor product dver sig name sev ext, ver, vendor, product, dver, sig,
        name, sev, ext] := by
  rw [Spec.isDigits_iff] at hver
  rw [Spec.noPipe_iff] at hvendor hproduct hdver hsig hname hsev
  rw [Spec.noNewline_iff] at hext
  have hline : cefLineOf ver vendor product dver sig name sev ext =
      'C' :: 'E' :: 'F' :: ':' :: (ver ++ '|' :: (vendor ++ '|' :: (product ++ '|' :: (dver ++
        '|' :: (sig ++ '|' :: (name ++ '|' :: (sev ++ '|' :: ext))))))) := by
    simp [cefLineOf]
  rw [hline]
  exact parser.cefPattern_match ver vendor product dver sig name sev ext hver.2 hver.1 hvendor
    hproduct hdver hsig hname hsev hext

/-- The CEF pattern matches exactly the lines of the CEF grammar. -/
theorem parser.cefPattern_iff (raw : Str) :
    (∃ m, FindStringSubmatch cefPattern 8 raw = some m) ↔ cefShape raw := by
  constructor
  · rintro ⟨m, h⟩
    exact parser.cefPattern_sound raw m h
  · rintro ⟨ver, vendor, product, dver, sig, name, sev, ext, rfl, h1, h2, h3, h4, h5, h6, h7, h8⟩
    exact ⟨_, parser.cefPattern_groups ver vendor product dver sig name sev ext h1 h2 h3 h4 h5 h6
      h7 h8⟩

/-! ## Trimming keeps a leading tag -/

theorem Go.trimLeft_append (m : Str) (hm : ∀ a ∈ m.head?, isSpace a = false) (hne : m ≠ []) :
    ∀ (l : Str), trimLeft (l ++ m) = trimLeft l ++ m
  | [] => by
    cases m with
    | nil => exact absurd rfl hne
    | cons b t =>
      have hb : isSpace b = false := hm b (by simp)
      simp [trimLeft, hb]
  | a :: l => by
    have ih := Go.trimLeft_append m hm hne l
    rw [List.cons_append]
    unfold trimLeft
    by_cases ha : isSpace a = true
    · simp only [ha, if_true, ih]
    · simp only [ha, Bool.false_eq_true, if_false, List.cons_append]

/-- Trimming leaves in place a leading text that neither starts nor ends with
whitespace. -/
theorem Go.TrimSpace_append (pre rest : Str) (hne : pre ≠ [])
    (h1 : ∀ a ∈ pre.head?, isSpace a = false) (h2 : ∀ a ∈ pre.reverse.head?, isSpace a = false) :
    TrimSpace (pre ++ rest) = pre ++ (trimLeft rest.reverse).reverse := by
  unfold TrimSpace
  have e1 : trimLeft (pre ++ rest) = pre ++ rest := by
    cases pre with
    | nil => exact absurd rfl hne
    | cons a p =>
      have ha : isSpace a = false := h1 a (by simp)
      simp [trimLeft, ha]
  rw [e1, List.reverse_append,
    Go.trimLeft_append pre.reverse h2 (by simpa using hne) rest.reverse, List.reverse_append,
    List.reverse_reverse]

theorem Go.TrimSpace_hasPrefix (pre raw : Str) (hne : pre ≠ [])
    (h1 : ∀ a ∈ pre.head?, isSpace a = false) (h2 : ∀ a ∈ pre.reverse.head?, isSpace a = false)
    (h : HasPrefix raw pre = true) : HasPrefix (TrimSpace raw) pre = true := by
  unfold HasPrefix at h ⊢
  rw [List.isPrefixOf_iff_prefix] at h ⊢
  obtain ⟨t, rfl⟩ := h
  rw [Go.TrimSpace_append pre t hne h1 h2]
  exact List.prefix_append _ _

theorem processor.detect_cef_of_hasPrefix (raw : Str) (h : HasPrefix raw "CEF:".toList = true) :
    DetectLogType raw = LogTypeCEF := by
  have h' := Go.TrimSpace_hasPrefix "CEF:".toList raw (by decide) (by decide) (by decide) h
  unfold DetectLogType
  simp only [h', if_true]

theorem Spec.cefShape_count (raw : Str) (h : cefShape raw) : 7 ≤ raw.count '|' := by
  obtain ⟨ver, vendor, product, dver, sig, name, sev, ext, rfl, _⟩ := h
  simp only [cefLineOf, List.count_append]
  have e : ("|".toList).count '|' = 1 := by decide
  rw [e]
  omega

/-- C13: the CEF parser accepts a line exactly when the line is `CEF:`, one or
more decimal digits, `|`, six further header fields free of `|` and each
terminated by `|`, and an extension text free of newlines; every other line is
rejected as malformed; and a line that begins with `CEF:` and has fewer than
seven `|` is classified cef by the detector and rejected by `Process`. -/
theorem C13_cef_grammar {Time : Type} (lib : Lib Time) (call : Call Time) (raw : Str) :
    ((∃ ev, CEFParser.Parse lib call raw = .ok ev) ↔ cefShape raw) ∧
      (¬ cefShape raw → CEFParser.Parse lib call raw = .error .invalidCEF) ∧
      (HasPrefix raw "CEF:".toList = true → raw.count '|' < 7 →
        DetectLogType raw = LogTypeCEF ∧ Process lib call raw = .error .invalidCEF) := by
  have hiff := parser.cefPattern_iff raw
  have hrej : ¬ cefShape raw → CEFParser.Parse lib call raw = .error .invalidCEF := by
    intro hns
    unfold CEFParser.Parse
    cases hf : FindStringSubmatch cefPattern 8 raw with
    | none => rfl
    | some m => exact absurd (hiff.mp ⟨m, hf⟩) hns
  refine ⟨⟨?_, ?_⟩, hrej, ?_⟩
  · rintro ⟨ev, hev⟩
    by_contra hns
    rw [hrej hns] at hev
    cases hev
  · intro hs
    obtain ⟨m, hm⟩ := hiff.mpr hs
    unfold CEFParser.Parse
    rw [hm]
    exact ⟨_, rfl⟩
  · intro hp hc
    have hd := processor.detect_cef_of_hasPrefix raw hp
    refine ⟨hd, ?_⟩
    have hns : ¬ cefShape raw := fun hs => by
      have := Spec.cefShape_count raw hs
      omega
    unfold Process
    rw [hd]
    exact hrej hns

/-- C13 at a line with the CEF tag and two `|` only, and at the CEF line of the
test suite. -/
theorem C13_cef_grammar_witness :
    HasPrefix "CEF:0|Vendor|Product".toList "CEF:".toList = true ∧
      "CEF:0|Vendor|Product".toList.count '|' < 7 ∧
      DetectLogType "CEF:0|Vendor|Product".toList = LogTypeCEF ∧
      Process (exampleLib (.error [])) exampleCall "CEF:0|Vendor|Product".toList =
        .error .invalidCEF ∧
      cefShape cefLine :=
  ⟨by decide, by decide,
    ((C13_cef_grammar (exampleLib (.error [])) exampleCall "CEF:0|Vendor|Product".toList).2.2
      (by decide) (by decide)).1,
    ((C13_cef_grammar (exampleLib (.error [])) exampleCall "CEF:0|Vendor|Product".toList).2.2
      (by decide) (by decide)).2,
    ((C13_cef_grammar (exampleLib (.error [])) exampleCall cefLine).1).mp ⟨_, rfl⟩⟩

/-! ## The event of a CEF line -/

theorem Go.keys_set_nodup {V : Type} (m : GoMap V) (k : Str) (v : V) (h : m.keys.Nodup) :
    (m.set k v).keys.Nodup := by
  unfold GoMap.set GoMap.keys at *
  rw [List.map_cons, List.nodup_cons]
  constructor
  · simp only [List.mem_map, List.mem_filter, bne_iff_ne, ne_eq, not_exists, not_and, and_imp]
    intro e _ he1 he2
    exact he1 he2
  · exact (List.filter_sublist _).map Prod.fst |>.nodup h

theorem parser.CEFParser.parseExtensionsLoop_nodup :
    ∀ (parts : List Str) (m : GoMap Str), m.keys.Nodup →
      (CEFParser.parseExtensionsLoop parts m).keys.Nodup
  | [], m, h => h
  | part :: parts, m, h => by
    unfold CEFParser.parseExtensionsLoop
    simp only []
    split_ifs
    · exact parser.CEFParser.parseExtensionsLoop_nodup parts _ (Go.keys_set_nodup m _ _ h)
    · exact parser.CEFParser.parseExtensionsLoop_nodup parts m h

theorem parser.CEFParser.parseExtensions_nodup (ext : Str) :
    (CEFParser.parseExtensions ext).keys.Nodup :=
  parser.CEFParser.parseExtensionsLoop_nodup _ [] (by simp [GoMap.keys])

/-- A key without the tag is not touched by the copy of the extensions. -/
theorem parser.CEFParser.copyExtensions_get?_other (k0 : Str)
    (h0 : HasPrefix k0 "cef_".toList = false) :
    ∀ (exts : List (Str × Str)) (ad : GoMap Value),
      (CEFParser.copyExtensions exts ad).get? k0 = ad.get? k0
  | [], _ => rfl
  | (k, v) :: rest, ad => by
    unfold CEFParser.copyExtensions
    rw [parser.CEFParser.copyExtensions_get?_other k0 h0 rest, Go.get?_set]
    have hne : k0 ≠ "cef_".toList ++ k := by
      intro e
      rw [e] at h0
      simp [HasPrefix, List.isPrefixOf] at h0
    rw [if_neg hne]

/-- What the copy of the extensions leaves under a tagged key. -/
theorem parser.CEFParser.copyExtensions_get?_tagged (k0 : Str) :
    ∀ (exts : List (Str × Str)) (ad : GoMap Value), (exts.map Prod.fst).Nodup →
      (CEFParser.copyExtensions exts ad).get? ("cef_".toList ++ k0) =
        match List.lookup k0 exts with
        | some v => some (.str v)
        | none => ad.get? ("cef_".toList ++ k0)
  | [], _, _ => rfl
  | (k, v) :: rest, ad, h => by
    rw [List.map_cons, List.nodup_cons] at h
    unfold CEFParser.copyExtensions
    rw [parser.CEFParser.copyExtensions_get?_tagged k0 rest _ h.2, Go.get?_set]
    by_cases hk : k0 = k
    · subst hk
      have hnone : List.lookup k0 rest = none := by
        rw [List.lookup_eq_none_iff]
        intro p hp
        rw [bne_iff_ne]
        intro e
        exact h.1 (List.mem_map.mpr ⟨p, hp, e.symm⟩)
      simp [hnone, List.lookup_cons]
    · have hne : (k0 == k) = false := by simpa using hk
      have hne2 : "cef_".toList ++ k0 ≠ "cef_".toList ++ k := by
        intro e
        exact hk (List.append_cancel_left e)
      simp only [List.lookup_cons, hne, if_neg hne2]

/-- C11: a CEF line with the header fields (version, vendor, product,
device-version, signature-id, name, severity) is accepted with description =
name, source.application = vendor + " " + product, and the entries
`device_vendor`, `device_product`, `device_version` and `signature_id` of
additional_data equal to the header fields, whatever the extension text is. -/
theorem C11_cef_header_fields {Time : Type} (lib : Lib Time) (call : Call Time)
    (ver vendor product dver sig name sev ext : Str)
    (hver : isDigits ver = true) (hvendor : noPipe vendor = true)
    (hproduct : noPipe product = true) (hdver : noPipe dver = true) (hsig : noPipe sig = true)
    (hname : noPipe name = true) (hsev : noPipe sev = true) (hext : noNewline ext = true) :
    ∃ ev, CEFParser.Parse lib call (cefLineOf ver vendor product dver sig name sev ext) = .ok ev ∧
      ev.Description = name ∧
      ev.Source.Application = vendor ++ " ".toList ++ product ∧
      ev.AdditionalData.get? "device_vendor".toList = some (.str vendor) ∧
      ev.AdditionalData.get? "device_product".toList = some (.str product) ∧
      ev.AdditionalData.get? "device_version".toList = some (.str dver) ∧
      ev.AdditionalData.get? "signature_id".toList = some (.str sig) := by
  have hg := parser.cefPattern_groups ver vendor product dver sig name sev ext hver hvendor
    hproduct hdver hsig hname hsev hext
  obtain ⟨ev, hev⟩ : ∃ ev,
      CEFParser.Parse lib call (cefLineOf ver vendor product dver sig name sev ext) = .ok ev := by
    unfold CEFParser.Parse
    rw [hg]
    exact ⟨_, rfl⟩
  refine ⟨ev, hev, ?_⟩
  unfold CEFParser.Parse at hev
  rw [hg] at hev
  injection hev with hev
  subst hev
  refine ⟨rfl, rfl, ?_, ?_, ?_, ?_⟩
  all_goals
    refine (parser.CEFParser.copyExtensions_get?_other _ (by decide) _ _).trans ?_
    simp only [Go.get?_set]
    rfl

/-- C11 at the CEF line of the test suite. -/
theorem C11_cef_header_fields_witness :
    cefLineOf "0".toList "Security".toList "threatmanager".toList "1.0".toList "100".toList
        "worm successfully stopped".toList "10".toList
        "src=10.0.0.1 dst=2.1.2.2 spt=1232".toList = cefLine ∧
    ∃ ev, CEFParser.Parse (exampleLib (.error [])) exampleCall
        (cefLineOf "0".toList "Security".toList "threatmanager".toList "1.0".toList "100".toList
          "worm successfully stopped".toList "10".toList
          "src=10.0.0.1 dst=2.1.2.2 spt=1232".toList) = .ok ev ∧
      ev.Description = "worm successfully stopped".toList ∧
      ev.AdditionalData.get? "device_vendor".toList = some (.str "Security".toList) ∧
      ev.AdditionalData.get? "device_product".toList = some (.str "threatmanager".toList) :=
  ⟨by decide,
    (C11_cef_header_fields (exampleLib (.error [])) exampleCall "0".toList "Security".toList
      "threatmanager".toList "1.0".toList "100".toList "worm successfully stopped".toList
      "10".toList "src=10.0.0.1 dst=2.1.2.2 spt=1232".toList
      (by decide) (by decide) (by decide) (by decide) (by decide) (by decide) (by decide)
      (by decide)).imp
      (fun _ h => ⟨h.1, h.2.1, h.2.2.2.1, h.2.2.2.2.1⟩)⟩

/-- C12 (as amended): for a CEF line, every parsed extension key `k` with value
`v` is stored as `additional_data["cef_" + k] = v`; `cef_version` holds the header
version and `cef_severity` the header severity token unless the extensions have
a key `version` or `severity`, whose value is then stored in their place. -/
theorem C12_cef_extensions_and_header {Time : Type} (lib : Lib Time) (call : Call Time)
    (ver vendor product dver sig name sev ext : Str)
    (hver : isDigits ver = true) (hvendor : noPipe vendor = true)
    (hproduct : noPipe product = true) (hdver : noPipe dver = true) (hsig : noPipe sig = true)
    (hname : noPipe name = true) (hsev : noPipe sev = true) (hext : noNewline ext = true) :
    ∃ ev, CEFParser.Parse lib call (cefLineOf ver vendor product dver sig name sev ext) = .ok ev ∧
      (∀ k v, (CEFParser.parseExtensions ext).get? k = some v →
        ev.AdditionalData.get? ("cef_".toList ++ k) = some (.str v)) ∧
      ev.AdditionalData.get? "cef_version".toList =
        some (.str (((CEFParser.parseExtensions ext).get? "version".toList).getD ver)) ∧
      ev.AdditionalData.get? "cef_severity".toList =
        some (.str (((CEFParser.parseExtensions ext).get? "severity".toList).getD sev)) := by
  have hg := parser.cefPattern_groups ver vendor product dver sig name sev ext hver hvendor
    hproduct hdver hsig hname hsev hext
  obtain ⟨ev, hev⟩ : ∃ ev,
      CEFParser.Parse lib call (cefLineOf ver vendor product dver sig name sev ext) = .ok ev := by
    unfold CEFParser.Parse
    rw [hg]
    exact ⟨_, rfl⟩
  refine ⟨ev, hev, ?_⟩
  unfold CEFParser.Parse at hev
  rw [hg] at hev
  injection hev with hev
  subst hev
  have hnd := parser.CEFParser.parseExtensions_nodup ext
  refine ⟨?_, ?_, ?_⟩
  · intro k v hk
    refine (parser.CEFParser.copyExtensions_get?_tagged k _ _ hnd).trans ?_
    have hk' : List.lookup k (CEFParser.parseExtensions ext) = some v := hk
    rw [hk']
  · refine (parser.CEFParser.copyExtensions_get?_tagged "version".toList _ _ hnd).trans ?_
    show (match List.lookup "version".toList (CEFParser.parseExtensions ext) with
      | some v => some (Value.str v)
      | none => _) = _
    unfold GoMap.get?
    cases List.lookup "version".toList (CEFParser.parseExtensions ext) with
    | some v => rfl
    | none =>
      simp only [Go.get?_set, Option.getD_none]
      rfl
  · refine (parser.CEFParser.copyExtensions_get?_tagged "severity".toList _ _ hnd).trans ?_
    show (match List.lookup "severity".toList (CEFParser.parseExtensions ext) with
      | some v => some (Value.str v)
      | none => _) = _
    unfold GoMap.get?
    cases List.lookup "severity".toList (CEFParser.parseExtensions ext) with
    | some v => rfl
    | none =>
      simp only [Option.getD_none]
      rfl

/-- C12 (as amended) at the CEF line of the test suite. -/
theorem C12_cef_extensions_and_header_witness :
    ∃ ev, CEFParser.Parse (exampleLib (.error [])) exampleCall
        (cefLineOf "0".toList "Security".toList "threatmanager".toList "1.0".toList "100".toList
          "worm successfully stopped".toList "10".toList
          "src=10.0.0.1 dst=2.1.2.2 spt=1232".toList) = .ok ev ∧
      ev.AdditionalData.get? "cef_src".toList = some (.str "10.0.0.1".toList) ∧
      ev.AdditionalData.get? "cef_version".toList = some (.str "0".toList) ∧
      ev.AdditionalData.get? "cef_severity".toList = some (.str "10".toList) :=
  (C12_cef_extensions_and_header (exampleLib (.error [])) exampleCall "0".toList
    "Security".toList "threatmanager".toList "1.0".toList "100".toList
    "worm successfully stopped".toList "10".toList "src=10.0.0.1 dst=2.1.2.2 spt=1232".toList
    (by decide) (by decide) (by decide) (by decide) (by decide) (by decide) (by decide)
    (by decide)).imp
    (fun _ h => ⟨h.1, h.2.1 "src".toList "10.0.0.1".toList (by decide), h.2.2.1, h.2.2.2⟩)

/-- C12 fails as stated: on a CEF line with header version `0` and the
extension `version=9`, the entry `cef_version` of additional_data is `9`. -/
theorem C12_extension_replaces_header_entry :
    ∃ ev, CEFParser.Parse (exampleLib (.error [])) exampleCall
        (cefLineOf "0".toList "V".toList "P".toList "1".toList "1".toList "n".toList "5".toList
          "version=9".toList) = .ok ev ∧
      (CEFParser.parseExtensions "version=9".toList).get? "version".toList =
        some "9".toList ∧
      ev.AdditionalData.get? "cef_version".toList = some (.str "9".toList) ∧
      ev.AdditionalData.get? "cef_version".toList ≠ some (.str "0".toList) :=
  ⟨_, rfl, by decide, by decide, by decide⟩

/-! ## The result, the accounts and the category of a CEF record -/

theorem parser.CEFParser.resultFromAct_eq (tbl : Char → Char) (extensions : GoMap Str) :
    CEFParser.resultFromAct tbl extensions =
      if presentAnd (extensions.get? "act".toList) (fun v =>
          containsFold tbl v "allow".toList || containsFold tbl v "permit".toList) then
        ResultSuccess
      else if presentAnd (extensions.get? "act".toList) (fun v =>
          containsFold tbl v "block".toList || containsFold tbl v "deny".toList) then
        ResultFailure
      else ResultUnknown := by
  unfold CEFParser.resultFromAct
  cases extensions.get? "act".toList with
  | none => simp [presentAnd]
  | some act => simp only [presentAnd, Spec.containsFold_eq]

/-- C14: the result of a CEF record is decided in the order: `outcome` present
and containing "success" gives success; else `outcome` present and containing
"fail" or "deny" gives failure; else `act` present and containing "allow" or
"permit" gives success; else `act` present and containing "block" or "deny"
gives failure; else unknown (case-insensitive substring tests); the extensions
"act=login outcome=success" give success. -/
theorem C14_cef_result_order (tbl : Char → Char) (extensions : GoMap Str) :
    CEFParser.determineResult tbl extensions = cefResultRule tbl extensions ∧
      CEFParser.determineResult tbl
        (CEFParser.parseExtensions "act=login outcome=success".toList) = ResultSuccess := by
  constructor
  · unfold CEFParser.determineResult cefResultRule
    simp only [parser.CEFParser.resultFromAct_eq]
    cases extensions.get? "outcome".toList with
    | none => simp [presentAnd]
    | some outcome => simp only [presentAnd, Spec.containsFold_eq]
  · have h : (CEFParser.parseExtensions "act=login outcome=success".toList).get?
        "outcome".toList = some "success".toList := by decide
    unfold CEFParser.determineResult
    rw [h]
    have h2 : Contains (ToLower tbl "success".toList) "success".toList = true := by
      have : ToLower tbl "success".toList = "success".toList := by
        simp [ToLower, toLowerRune, asciiLower]
      rw [this]
      decide
    simp only [h2, if_true]

/-- C16: the category of a CEF record is decided by case-insensitive substring
search on the event name, the first hit winning in the order
login/logon/authentication, access/denied/permission,
modify/change/update/delete, network/connection/firewall,
security/threat/attack/malware, else system-event; the signature id and the
extensions have no influence. -/
theorem C16_cef_category_order (tbl : Char → Char) (signatureID name : Str)
    (extensions : GoMap Str) :
    CEFParser.categorizeCEFEvent tbl signatureID name extensions = cefCategoryRule tbl name ∧
      ∀ (signatureID' : Str) (extensions' : GoMap Str),
        CEFParser.categorizeCEFEvent tbl signatureID' name extensions' =
          CEFParser.categorizeCEFEvent tbl signatureID name extensions := by
  refine ⟨?_, fun _ _ => rfl⟩
  unfold CEFParser.categorizeCEFEvent cefCategoryRule
  simp only [Spec.containsFold_eq]

/-- C15: for a CEF line, subject_account is present exactly when the extensions
have the key `suser`, with username the value of `suser` and domain the value of
`sdomain` (empty when absent); object_account likewise from `duser` and
`ddomain`; the action is the value of `act` when present and empty otherwise. -/
theorem C15_cef_accounts_and_action {Time : Type} (lib : Lib Time) (call : Call Time)
    (ver vendor product dver sig name sev ext : Str)
    (hver : isDigits ver = true) (hvendor : noPipe vendor = true)
    (hproduct : noPipe product = true) (hdver : noPipe dver = true) (hsig : noPipe sig = true)
    (hname : noPipe name = true) (hsev : noPipe sev = true) (hext : noNewline ext = true) :
    ∃ ev, CEFParser.Parse lib call (cefLineOf ver vendor product dver sig name sev ext) = .ok ev ∧
      ev.SubjectAccount = ((CEFParser.parseExtensions ext).get? "suser".toList).map (fun u =>
        { Username := u
          Domain := ((CEFParser.parseExtensions ext).get? "sdomain".toList).getD []
          UserID := [] }) ∧
      ev.ObjectAccount = ((CEFParser.parseExtensions ext).get? "duser".toList).map (fun u =>
        { Username := u
          Domain := ((CEFParser.parseExtensions ext).get? "ddomain".toList).getD []
          UserID := [] }) ∧
      ev.Action = ((CEFParser.parseExtensions ext).get? "act".toList).getD [] := by
  have hg := parser.cefPattern_groups ver vendor product dver sig name sev ext hver hvendor
    hproduct hdver hsig hname hsev hext
  obtain ⟨ev, hev⟩ : ∃ ev,
      CEFParser.Parse lib call (cefLineOf ver vendor product dver sig name sev ext) = .ok ev := by
    unfold CEFParser.Parse
    rw [hg]
    exact ⟨_, rfl⟩
  refine ⟨ev, hev, ?_⟩
  unfold CEFParser.Parse at hev
  rw [hg] at hev
  injection hev with hev
  subst hev
  refine ⟨?_, ?_, ?_⟩
  · show (match (CEFParser.parseExtensions ext).get? "suser".toList with
      | some suser => some _
      | none => none) = _
    cases (CEFParser.parseExtensions ext).get? "suser".toList <;> rfl
  · show (match (CEFParser.parseExtensions ext).get? "duser".toList with
      | some duser => some _
      | none => none) = _
    cases (CEFParser.parseExtensions ext).get? "duser".toList <;> rfl
  · show (match (CEFParser.parseExtensions ext).get? "act".toList with
      | some act => act
      | none => []) = _
    cases (CEFParser.parseExtensions ext).get? "act".toList <;> rfl

/-- C15 at the CEF line of the test suite that carries a user. -/
theorem C15_cef_accounts_and_action_witness :
    cefLineOf "0".toList "Vendor".toList "Product".toList "1.0".toList "200".toList
        "User Login".toList "5".toList
        "suser=john.doe sdomain=EXAMPLE act=login outcome=success".toList = cefUserLine ∧
    ∃ ev, CEFParser.Parse (exampleLib (.error [])) exampleCall
        (cefLineOf "0".toList "Vendor".toList "Product".toList "1.0".toList "200".toList
          "User Login".toList "5".toList
          "suser=john.doe sdomain=EXAMPLE act=login outcome=success".toList) = .ok ev ∧
      ev.SubjectAccount =
        some { Username := "john.doe".toList, Domain := "EXAMPLE".toList, UserID := [] } ∧
      ev.ObjectAccount = none ∧ ev.Action = "login".toList :=
  ⟨by decide,
    (C15_cef_accounts_and_action (exampleLib (.error [])) exampleCall "0".toList
      "Vendor".toList "Product".toList "1.0".toList "200".toList "User Login".toList "5".toList
      "suser=john.doe sdomain=EXAMPLE act=login outcome=success".toList
      (by decide) (by decide) (by decide) (by decide) (by decide) (by decide) (by decide)
      (by decide)).imp
      (fun _ h => ⟨h.1, h.2.1.trans (by decide), h.2.2.1.trans (by decide),
        h.2.2.2.trans (by decide)⟩)⟩

/-! ## The severity, the category and the result of a LEEF record -/

theorem Go.ToLower_ascii_fixed (tbl : Char → Char) (s : Str)
    (h : ∀ c ∈ s, c.toNat < 128 ∧ ¬ (65 ≤ c.toNat ∧ c.toNat ≤ 90)) : ToLower tbl s = s := by
  unfold ToLower
  induction s with
  | nil => rfl
  | cons c cs ih =>
    have hc := h c (by simp)
    rw [List.map_cons, ih (fun d hd => h d (by simp [hd]))]
    simp only [toLowerRune, hc.1, if_true, asciiLower, hc.2, if_false]

/-- C18: the severity of a LEEF record is decided from the attribute `sev` in
the order critical/fatal/"10", high/error/"8"/"7", medium/warn/"5"/"6",
low/"3"/"4", info/"1"/"2" (keywords as case-insensitive substrings, numerals as
exact values); every other value, such as "9" or "0", and an absent `sev` give
info. -/
theorem C18_leef_severity_order (tbl : Char → Char) (attrs : GoMap Str) :
    LEEFParser.mapLEEFSeverityToGOST tbl attrs =
        leefSeverityRule tbl (attrs.get? "sev".toList) ∧
      leefSeverityRule tbl (some "9".toList) = SeverityInfo ∧
      leefSeverityRule tbl (some "0".toList) = SeverityInfo ∧
      leefSeverityRule tbl none = SeverityInfo := by
  refine ⟨?_, ?_, ?_, rfl⟩
  · unfold LEEFParser.mapLEEFSeverityToGOST
    cases attrs.get? "sev".toList with
    | none => rfl
    | some sev =>
      simp only [leefSeverityRule, Spec.containsFold_eq, beq_iff_eq, Bool.or_eq_true,
        decide_eq_true_eq]
  · simp only [leefSeverityRule, Spec.containsFold_eq,
      Go.ToLower_ascii_fixed tbl "9".toList (by decide)]
    decide
  · simp only [leefSeverityRule, Spec.containsFold_eq,
      Go.ToLower_ascii_fixed tbl "0".toList (by decide)]
    decide

theorem parser.LEEFParser.categoryFromEventID_eq (tbl : Char → Char) (e : Str) :
    LEEFParser.categoryFromEventID (ToLower tbl e) = leefEventIDRule tbl e := by
  unfold LEEFParser.categoryFromEventID leefEventIDRule
  simp only [Spec.containsFold_eq]

/-- C19: the category of a LEEF record is authentication, access or
network-event when the attribute `cat` is present and contains "auth", else
"access", else "network" (case-insensitively); when `cat` is absent or
inconclusive the event id decides, the first hit winning in the order
login/auth, access/permission, modify/change, network/connection,
security/threat, else system-event. -/
theorem C19_leef_category_order (tbl : Char → Char) (eventID : Str) (attrs : GoMap Str) :
    LEEFParser.categorizeLEEFEvent tbl eventID attrs =
      leefCategoryRule tbl eventID (attrs.get? "cat".toList) := by
  unfold LEEFParser.categorizeLEEFEvent leefCategoryRule
  cases attrs.get? "cat".toList with
  | none => simp [presentAnd, parser.LEEFParser.categoryFromEventID_eq]
  | some cat =>
    simp only [presentAnd, Spec.containsFold_eq, parser.LEEFParser.categoryFromEventID_eq]

theorem parser.LEEFParser.resultFromAction_eq (tbl : Char → Char) (attrs : GoMap Str) :
    LEEFParser.resultFromAction tbl attrs =
      if presentAnd (attrs.get? "action".toList) (fun v =>
          containsFold tbl v "allow".toList || containsFold tbl v "permit".toList) then
        ResultSuccess
      else if presentAnd (attrs.get? "action".toList) (fun v =>
          containsFold tbl v "block".toList || containsFold tbl v "deny".toList) then
        ResultFailure
      else ResultUnknown := by
  unfold LEEFParser.resultFromAction
  cases attrs.get? "action".toList with
  | none => simp [presentAnd]
  | some act => simp only [presentAnd, Spec.containsFold_eq]

/-- C20: the result of a LEEF record is decided in the order: `result` present
and containing "success" or "allow" gives success; else `result` present and
containing "fail" or "deny" gives failure; else `action` present and containing
"allow" or "permit" gives success; else `action` present and containing "block"
or "deny" gives failure; else unknown; the LEEF 2.0 line of the test suite gives
success. -/
theorem C20_leef_result_order (tbl : Char → Char) (attrs : GoMap Str) :
    LEEFParser.determineResult tbl attrs = leefResultRule tbl attrs ∧
      ∃ ev, LEEFParser.Parse (exampleLib (.error [])) exampleCall leefV2Line = .ok ev ∧
        ev.Result = ResultSuccess := by
  refine ⟨?_, _, rfl, by decide⟩
  unfold LEEFParser.determineResult leefResultRule
  simp only [parser.LEEFParser.resultFromAction_eq]
  cases attrs.get? "result".toList with
  | none => simp [presentAnd]
  | some result => simp only [presentAnd, Spec.containsFold_eq]

/-! ## Cutting a part at its first `=` -/

theorem Go.byteLen_append : ∀ (a b : Str), byteLen (a ++ b) = byteLen a + byteLen b
  | [], b => by simp [byteLen]
  | c :: a, b => by
    rw [List.cons_append]
    simp only [byteLen, Go.byteLen_append a b]
    omega

theorem Go.indexFrom_singleton_none (a : Char) : ∀ (s : Str) (off : Nat), a ∉ s →
    indexFrom [a] s off = -1
  | [], _, _ => by simp [indexFrom, List.isPrefixOf]
  | c :: cs, off, h => by
    have hc : a ≠ c := fun e => h (by simp [e])
    have ih := Go.indexFrom_singleton_none a cs (off + c.utf8Size) (fun e => h (by simp [e]))
    unfold indexFrom
    simp only [List.isPrefixOf, Bool.and_true, beq_iff_eq]
    rw [if_neg hc, ih]

/-- The runes before the lower bound of a slice are skipped. -/
theorem Go.sliceFrom_skip (lo hi : Nat) (post : Str) :
    ∀ (pre : Str) (off : Nat), off + byteLen pre ≤ lo →
      sliceFrom lo hi (pre ++ post) off = sliceFrom lo hi post (off + byteLen pre)
  | [], off, _ => by simp [byteLen]
  | c :: cs, off, h => by
    have hp := Char.utf8Size_pos c
    simp only [byteLen] at h
    rw [List.cons_append, sliceFrom]
    rw [if_neg (fun hh => by omega), Go.sliceFrom_skip lo hi post cs (off + c.utf8Size) (by omega)]
    simp only [byteLen, Nat.add_assoc]

/-- The byte index of the first `a` of a string and the two slices around it. -/
theorem Go.cut_at_first (a : Char) (ha : a.utf8Size = 1) (pre post : Str) (hpre : a ∉ pre) :
    Index (pre ++ a :: post) [a] = (byteLen pre : Int) ∧
      slice (pre ++ a :: post) 0 (byteLen pre) = pre ∧
      slice (pre ++ a :: post) (byteLen pre + 1) (byteLen (pre ++ a :: post)) = post := by
  refine ⟨?_, ?_, ?_⟩
  · unfold Index
    rw [Go.indexFrom_singleton_append a post pre 0 hpre]
    simp
  · unfold slice
    have h := Go.sliceFrom_append 0 (a :: post) pre 0 (Nat.le_refl _)
    simpa using h
  · unfold slice
    have e : pre ++ a :: post = (pre ++ [a]) ++ post := by simp
    have hb : byteLen (pre ++ [a]) = byteLen pre + 1 := by
      rw [Go.byteLen_append]
      simp [byteLen, ha]
    rw [e, Go.sliceFrom_skip _ _ post (pre ++ [a]) 0 (by omega), Go.byteLen_append, hb]
    have h := Go.sliceFrom_append (byteLen pre + 1) [] post (0 + (byteLen pre + 1))
      (by omega)
    simp only [List.append_nil] at h
    have e2 : 0 + (byteLen pre + 1) + byteLen post = byteLen pre + 1 + byteLen post := by omega
    rw [e2] at h
    exact h

theorem Go.takeWhile_ne_append (a : Char) (post : Str) :
    ∀ (pre : Str), a ∉ pre →
      (pre ++ a :: post).takeWhile (fun c => c != a) = pre ∧
      (pre ++ a :: post).dropWhile (fun c => c != a) = a :: post
  | [], _ => by simp
  | c :: cs, h => by
    have hc : c ≠ a := fun e => h (by simp [e])
    have ih := Go.takeWhile_ne_append a post cs (fun e => h (by simp [e]))
    have hb : (c != a) = true := by simpa using hc
    rw [List.cons_append, List.takeWhile_cons, List.dropWhile_cons]
    simp only [hb, if_true, ih, and_self]

theorem parser.LEEFParser.parseAttributesLoop_eq :
    ∀ (parts : List Str) (m : GoMap Str),
      LEEFParser.parseAttributesLoop parts m =
        (parts.filterMap keyValueOf).foldl (fun m kv => m.set kv.1 kv.2) m
  | [], _ => rfl
  | part :: parts, m => by
    unfold LEEFParser.parseAttributesLoop
    simp only []
    by_cases hm : '=' ∈ part
    · obtain ⟨pre, post, rfl, hpre⟩ := List.eq_append_cons_of_mem hm
      obtain ⟨h1, h2, h3⟩ := Go.cut_at_first '=' (by decide) pre post hpre
      obtain ⟨h4, h5⟩ := Go.takeWhile_ne_append '=' post pre hpre
      have hidx : Index (pre ++ '=' :: post) "=".toList = (byteLen pre : Int) := h1
      have hne : (byteLen pre : Int) ≠ -1 := by omega
      rw [hidx, if_pos hne, Int.toNat_ofNat, h2, h3,
        parser.LEEFParser.parseAttributesLoop_eq parts]
      simp only [List.filterMap_cons, keyValueOf, hm, if_true, h4, h5, List.drop_succ_cons,
        List.drop_zero, List.foldl_cons]
    · have hidx : Index part "=".toList = -1 := Go.indexFrom_singleton_none '=' part 0 hm
      rw [hidx, if_neg (by simp), parser.LEEFParser.parseAttributesLoop_eq parts]
      simp only [List.filterMap_cons, keyValueOf, hm, if_false]

/-! ## The grammar of the LEEF pattern and the accounts of a LEEF record -/

theorem Spec.isVersion_iff (s : Str) :
    isVersion s = true ↔ s ≠ [] ∧ ∀ a ∈ s, digitOrDot a = true := by
  cases s <;> simp [isVersion]

/-- A line the LEEF pattern matches has the shape `LEEF:ver|vendor|product|pver|eid|attrs`. -/
theorem parser.leefPattern_sound (raw : Str) (m : Caps)
    (h : FindStringSubmatch leefPattern 6 raw = some m) :
    ∃ ver vendor product pver eid attrs : Str,
      raw = leefLineOf ver vendor product pver eid attrs ∧ isVersion ver = true ∧
        noPipe vendor = true ∧ noPipe product = true ∧ noPipe pver = true ∧
        noPipe eid = true ∧ noNewline attrs = true := by
  have hpat : leefPattern = .seq .bot (seqs [.chr 'L', .chr 'E', .chr 'E', .chr 'F', .chr ':',
      .grp 1 (.rep digitOrDot 1 true), .chr '|',
      .grp 2 (.rep notPipe 0 true), .chr '|', .grp 3 (.rep notPipe 0 true), .chr '|',
      .grp 4 (.rep notPipe 0 true), .chr '|', .grp 5 (.rep notPipe 0 true), .chr '|',
      .grp 6 (.rep notNL 0 true), .eot]) := rfl
  rw [hpat] at h
  obtain ⟨c, h⟩ := regexp.find_anchored_some _ 6 raw m h
  generalize raw.length = n at h
  generalize (fun (s' : Str) (c' : Caps) => some (c'.set 0 (raw.take (n - s'.length)))) = k at h
  simp only [seqs, regexp.run_seq] at h
  obtain ⟨t1, e1, h1⟩ := regexp.run_chr_sound _ _ _ _ _ _ h
  obtain ⟨t2, e2, h2⟩ := regexp.run_chr_sound _ _ _ _ _ _ h1
  obtain ⟨t3, e3, h3⟩ := regexp.run_chr_sound _ _ _ _ _ _ h2
  obtain ⟨t4, e4, h4⟩ := regexp.run_chr_sound _ _ _ _ _ _ h3
  obtain ⟨t5, e5, h5⟩ := regexp.run_chr_sound _ _ _ _ _ _ h4
  obtain ⟨ver, t6, c6, e6, hver, hvlen, h6⟩ :=
    regexp.run_grp_rep_sound _ _ _ _ _ _ _ _ h5
  obtain ⟨t7, e7, h7⟩ := regexp.run_chr_sound _ _ _ _ _ _ h6
  obtain ⟨f2, t8, c8, e8, hf2, _, h8⟩ :=
    regexp.run_grp_rep_sound _ _ _ _ _ _ _ _ h7
  obtain ⟨t9, e9, h9⟩ := regexp.run_chr_sound _ _ _ _ _ _ h8
  obtain ⟨f3, t10, c10, e10, hf3, _, h10⟩ :=
    regexp.run_grp_rep_sound _ _ _ _ _ _ _ _ h9
  obtain ⟨t11, e11, h11⟩ := regexp.run_chr_sound _ _ _ _ _ _ h10
  obtain ⟨f4, t12, c12, e12, hf4, _, h12⟩ :=
    regexp.run_grp_rep_sound _ _ _ _ _ _ _ _ h11
  obtain ⟨t13, e13, h13⟩ := regexp.run_chr_sound _ _ _ _ _ _ h12
  obtain ⟨f5, t14, c14, e14, hf5, _, h14⟩ :=
    regexp.run_grp_rep_sound _ _ _ _ _ _ _ _ h13
  obtain ⟨t15, e15, h15⟩ := regexp.run_chr_sound _ _ _ _ _ _ h14
  obtain ⟨att, t16, c16, e16, hatt, _, h16⟩ :=
    regexp.run_grp_rep_sound _ _ _ _ _ _ _ _ h15
  have e0 := regexp.run_eot_sound _ _ _ _ _ h16
  subst e0 e16 e15 e14 e13 e12 e11 e10 e9 e8 e7 e6 e5 e4 e3 e2 e1
  refine ⟨ver, f2, f3, f4, f5, att, ?_, ?_, ?_, ?_, ?_, ?_, ?_⟩
  · simp [leefLineOf]
  · rw [Spec.isVersion_iff]
    refine ⟨?_, hver⟩
    cases ver with
    | nil => simp at hvlen
    | cons _ _ => simp
  all_goals simpa [noPipe, noNewline] using ‹_›

theorem parser.leefPattern_match (ver f2 f3 f4 f5 att : Str)
    (hver : ∀ a ∈ ver, digitOrDot a = true) (hvne : ver ≠ [])
    (hf2 : ∀ a ∈ f2, notPipe a = true) (hf3 : ∀ a ∈ f3, notPipe a = true)
    (hf4 : ∀ a ∈ f4, notPipe a = true) (hf5 : ∀ a ∈ f5, notPipe a = true)
    (hatt : ∀ a ∈ att, notNL a = true) :
    FindStringSubmatch leefPattern 6
        ('L' :: 'E' :: 'E' :: 'F' :: ':' :: (ver ++ '|' :: (f2 ++ '|' :: (f3 ++ '|' :: (f4 ++
          '|' :: (f5 ++ '|' :: att)))))) =
      some ['L' :: 'E' :: 'E' :: 'F' :: ':' :: (ver ++ '|' :: (f2 ++ '|' :: (f3 ++ '|' :: (f4 ++
          '|' :: (f5 ++ '|' :: att))))),
        ver, f2, f3, f4, f5, att] := by
  refine regexp.searchFrom_of_run _ _ _ _ _ ?_
  simp only [leefPattern, seqs, run, if_true]
  refine regexp.repGreedy_run _ _ _ _ (by simp [digitOrDot, isDigit]) ?_ ver 1 hver
    (regexp.one_le_length hvne)
  simp only [if_true, regexp.take_length_sub]
  refine regexp.repGreedy_run _ _ _ _ (by simp [notPipe]) ?_ f2 0 hf2 (Nat.zero_le _)
  simp only [if_true, regexp.take_length_sub]
  refine regexp.repGreedy_run _ _ _ _ (by simp [notPipe]) ?_ f3 0 hf3 (Nat.zero_le _)
  simp only [if_true, regexp.take_length_sub]
  refine regexp.repGreedy_run _ _ _ _ (by simp [notPipe]) ?_ f4 0 hf4 (Nat.zero_le _)
  simp only [if_true, regexp.take_length_sub]
  refine regexp.repGreedy_run _ _ _ _ (by simp [notPipe]) ?_ f5 0 hf5 (Nat.zero_le _)
  simp only [if_true, regexp.take_length_sub]
  refine regexp.repGreedy_all _ _ _ ?_ att 0 hatt (Nat.zero_le _)
  simp only [List.isEmpty_nil, if_true, List.length_nil, Nat.sub_zero, List.take_length,
    List.replicate, List.set_cons_succ, List.set_cons_zero]

/-- The groups the LEEF pattern captures on a line of the LEEF shape. -/
theorem parser.leefPattern_groups (ver vendor product pver eid attrs : Str)
    (hver : isVersion ver = true) (hvendor : noPipe vendor = true)
    (hproduct : noPipe product = true) (hpver : noPipe pver = true) (heid : noPipe eid = true)
    (hattrs : noNewline attrs = true) :
    FindStringSubmatch leefPattern 6 (leefLineOf ver vendor product pver eid attrs) =
      some [leefLineOf ver vendor product pver eid attrs, ver, vendor, product, pver, eid,
        attrs] := by
  rw [Spec.isVersion_iff] at hver
  rw [Spec.noPipe_iff] at hvendor hproduct hpver heid
  rw [Spec.noNewline_iff] at hattrs
  have hline : leefLineOf ver vendor product pver eid attrs =
      'L' :: 'E' :: 'E' :: 'F' :: ':' :: (ver ++ '|' :: (vendor ++ '|' :: (product ++ '|' ::
        (pver ++ '|' :: (eid ++ '|' :: attrs))))) := by
    simp [leefLineOf]
  rw [hline]
  exact parser.leefPattern_match ver vendor product pver eid attrs hver.2 hver.1 hvendor
    hproduct hpver heid hattrs

/-- C21: a line the LEEF parser accepts is `LEEF:ver|vendor|product|pver|eid|attrs`
and, on the attribute map of `attrs` under the version `ver`: subject_account is
made of `srcUser` and `srcDomain` when `srcUser` is present, else of `usrName`
alone when `usrName` is present, else it is absent; object_account is present
exactly when `dstUser` is, with the domain `dstDomain`; the action is the value
of `action`, else of `cat`, else empty. -/
theorem C21_leef_accounts_and_action {Time : Type} (lib : Lib Time) (call : Call Time)
    (raw : Str) (ev : GOSTEvent Time) (h : LEEFParser.Parse lib call raw = .ok ev) :
    ∃ ver vendor product pver eid attrs : Str,
      raw = leefLineOf ver vendor product pver eid attrs ∧ isVersion ver = true ∧
        noPipe vendor = true ∧ noPipe product = true ∧ noPipe pver = true ∧
        noPipe eid = true ∧ noNewline attrs = true ∧
        ev.SubjectAccount = leefSubjectRule (LEEFParser.parseAttributes attrs ver) ∧
        ev.ObjectAccount = leefObjectRule (LEEFParser.parseAttributes attrs ver) ∧
        ev.Action = leefActionRule (LEEFParser.parseAttributes attrs ver) := by
  cases hf : FindStringSubmatch leefPattern 6 raw with
  | none =>
    unfold LEEFParser.Parse at h
    rw [hf] at h
    cases h
  | some m =>
    obtain ⟨ver, vendor, product, pver, eid, attrs, rfl, h1, h2, h3, h4, h5, h6⟩ :=
      parser.leefPattern_sound raw m hf
    have hg := parser.leefPattern_groups ver vendor product pver eid attrs h1 h2 h3 h4 h5 h6
    refine ⟨ver, vendor, product, pver, eid, attrs, rfl, h1, h2, h3, h4, h5, h6, ?_⟩
    unfold LEEFParser.Parse at h
    rw [hg] at h
    injection h with h
    subst h
    refine ⟨?_, ?_, ?_⟩
    · show (match (LEEFParser.parseAttributes attrs ver).get? "srcUser".toList with
        | some srcUser => some _
        | none =>
          match (LEEFParser.parseAttributes attrs ver).get? "usrName".toList with
          | some usrName => some _
          | none => none) = _
      unfold leefSubjectRule
      cases (LEEFParser.parseAttributes attrs ver).get? "srcUser".toList with
      | some u => rfl
      | none => cases (LEEFParser.parseAttributes attrs ver).get? "usrName".toList <;> rfl
    · show (match (LEEFParser.parseAttributes attrs ver).get? "dstUser".toList with
        | some dstUser => some _
        | none => none) = _
      unfold leefObjectRule
      cases (LEEFParser.parseAttributes attrs ver).get? "dstUser".toList <;> rfl
    · show (match (LEEFParser.parseAttributes attrs ver).get? "action".toList with
        | some action => action
        | none =>
          match (LEEFParser.parseAttributes attrs ver).get? "cat".toList with
          | some cat => cat
          | none => []) = _
      unfold leefActionRule
      cases (LEEFParser.parseAttributes attrs ver).get? "action".toList with
      | some u => rfl
      | none => cases (LEEFParser.parseAttributes attrs ver).get? "cat".toList <;> rfl

/-- C21 at the LEEF line of version 2.0 of the test suite: the subject is the
user `admin` of the attribute `usrName`, there is no object account and the
action is `login`. -/
theorem C21_leef_accounts_and_action_witness :
    ∃ ev, LEEFParser.Parse (exampleLib (.error [])) exampleCall leefV2Line = .ok ev ∧
      ev.SubjectAccount = some { Username := "admin".toList, Domain := [], UserID := [] } ∧
      ev.ObjectAccount = none ∧ ev.Action = "login".toList ∧
      ∃ ver vendor product pver eid attrs : Str,
        leefV2Line = leefLineOf ver vendor product pver eid attrs ∧ isVersion ver = true ∧
          noPipe vendor = true ∧ noPipe product = true ∧ noPipe pver = true ∧
          noPipe eid = true ∧ noNewline attrs = true ∧
          ev.SubjectAccount = leefSubjectRule (LEEFParser.parseAttributes attrs ver) ∧
          ev.ObjectAccount = leefObjectRule (LEEFParser.parseAttributes attrs ver) ∧
          ev.Action = leefActionRule (LEEFParser.parseAttributes attrs ver) :=
  ⟨_, rfl, by decide, by decide, by decide,
    C21_leef_accounts_and_action (exampleLib (.error [])) exampleCall leefV2Line _ rfl⟩

/-! ## The severity, the category, the result and the description of an XML record -/

theorem parser.XMLParser.enrich_description {Time : Type} (tbl : Char → Char) :
    ∀ (ds : List Data) (g : GOSTEvent Time),
      (XMLParser.enrichEventFromEventData tbl g ds).Description = g.Description
  | [], g => by simp [XMLParser.enrichEventFromEventData]
  | d :: ds, g => by
    unfold XMLParser.enrichEventFromEventData
    simp only []
    split_ifs
    all_goals first
      | exact parser.XMLParser.enrich_description tbl ds g
      | exact parser.XMLParser.enrich_description tbl ds _

/-- The fields of the event of a decoded XML record that the methods of the
parser compute. -/
theorem parser.XMLParser.parse_fields {Time : Type} (lib : Lib Time) (call : Call Time)
    (raw : Str) (event : Event) (h : lib.xmlDecode raw = .ok event) :
    ∃ ev, XMLParser.Parse lib call raw = .ok ev ∧
      ev.Severity = XMLParser.mapXMLLevelToGOST event.System.Level ∧
      ev.Category = XMLParser.categorizeXMLEvent lib.unicodeLower event ∧
      ev.Result = XMLParser.determineResult lib.unicodeLower event ∧
      ev.Description = XMLParser.buildDescription event := by
  unfold XMLParser.Parse
  rw [h]
  refine ⟨_, rfl, ?_, ?_, ?_, ?_⟩
  · exact (parser.XMLParser.enrich_fields lib.unicodeLower event.EventData _).1
  · exact (parser.XMLParser.enrich_fields lib.unicodeLower event.EventData _).2.1
  · exact (parser.XMLParser.enrich_fields lib.unicodeLower event.EventData _).2.2.1
  · exact parser.XMLParser.enrich_description lib.unicodeLower event.EventData _

/-- C22: the severity of the XML level `l` is the entry of `l` in the table
1 critical, 2 high, 3 medium, 4 info, 5 low, and info for every level outside
the table, 0 and the negative levels included; this is the severity of the
event of every record that decodes with the level `l`; the levels 1 to 4 go
down the severity scale and level 5 goes up again, above level 4. -/
theorem C22_xml_level_table (l : Int) :
    XMLParser.mapXMLLevelToGOST l = (List.lookup l xmlLevelTable).getD SeverityInfo ∧
      XMLParser.mapXMLLevelToGOST 1 = SeverityCritical ∧
      XMLParser.mapXMLLevelToGOST 2 = SeverityHigh ∧
      XMLParser.mapXMLLevelToGOST 3 = SeverityMedium ∧
      XMLParser.mapXMLLevelToGOST 4 = SeverityInfo ∧
      XMLParser.mapXMLLevelToGOST 5 = SeverityLow ∧
      ((l < 1 ∨ 5 < l) → XMLParser.mapXMLLevelToGOST l = SeverityInfo) ∧
      (∀ {Time : Type} (lib : Lib Time) (call : Call Time) (raw : Str) (event : Event),
        lib.xmlDecode raw = .ok event → event.System.Level = l →
        ∃ ev, XMLParser.Parse lib call raw = .ok ev ∧
          ev.Severity = (List.lookup l xmlLevelTable).getD SeverityInfo) ∧
      severityRank (XMLParser.mapXMLLevelToGOST 3) > severityRank (XMLParser.mapXMLLevelToGOST 4) ∧
      severityRank (XMLParser.mapXMLLevelToGOST 4) < severityRank (XMLParser.mapXMLLevelToGOST 5) := by
  have hrule : XMLParser.mapXMLLevelToGOST l = (List.lookup l xmlLevelTable).getD SeverityInfo := by
    unfold XMLParser.mapXMLLevelToGOST xmlLevelTable
    by_cases h1 : l = 1
    · subst h1; rfl
    by_cases h2 : l = 2
    · subst h2; rfl
    by_cases h3 : l = 3
    · subst h3; rfl
    by_cases h4 : l = 4
    · subst h4; rfl
    by_cases h5 : l = 5
    · subst h5; rfl
    have e1 : (l == 1) = false := by simpa using h1
    have e2 : (l == 2) = false := by simpa using h2
    have e3 : (l == 3) = false := by simpa using h3
    have e4 : (l == 4) = false := by simpa using h4
    have e5 : (l == 5) = false := by simpa using h5
    simp only [List.lookup, e1, e2, e3, e4, e5, h1, h2, h3, h4, h5, if_false, Option.getD_none]
  refine ⟨hrule, by decide, by decide, by decide, by decide, by decide, ?_, ?_, by decide,
    by decide⟩
  · intro h
    unfold XMLParser.mapXMLLevelToGOST
    rw [if_neg (by omega), if_neg (by omega), if_neg (by omega), if_neg (by omega),
      if_neg (by omega)]
  · intro Time lib call raw event hdec hl
    obtain ⟨ev, hev, hsev, _⟩ := parser.XMLParser.parse_fields lib call raw event hdec
    exact ⟨ev, hev, by rw [hsev, hl, hrule]⟩

/-- C23: the category of an XML record is decided by the event id first
(4624..4634 authentication, 4720..4767 authorization, 4660..4663 access,
4670..4690 data-modification), whatever the channel and the provider name are;
outside these ranges `security` in the channel or in the provider name, in any
case of the letters, gives security-event and everything else system-event;
this is the category of the event of every record that decodes. The record of
the test suite, id 4624 with the provider
`Microsoft-Windows-Security-Auditing`, is authentication, not security-event. -/
theorem C23_xml_category_order (tbl : Char → Char) (event : Event) :
    XMLParser.categorizeXMLEvent tbl event =
        xmlCategoryRule tbl event.System.EventID event.System.Channel
          event.System.Provider.Name ∧
      ((4624 ≤ event.System.EventID ∧ event.System.EventID ≤ 4634) →
        XMLParser.categorizeXMLEvent tbl event = CategoryAuthentication) ∧
      ((4720 ≤ event.System.EventID ∧ event.System.EventID ≤ 4767) →
        XMLParser.categorizeXMLEvent tbl event = CategoryAuthorization) ∧
      ((4660 ≤ event.System.EventID ∧ event.System.EventID ≤ 4663) →
        XMLParser.categorizeXMLEvent tbl event = CategoryAccess) ∧
      ((4670 ≤ event.System.EventID ∧ event.System.EventID ≤ 4690) →
        XMLParser.categorizeXMLEvent tbl event = CategoryDataModification) ∧
      (∀ {Time : Type} (lib : Lib Time) (call : Call Time) (raw : Str),
        lib.xmlDecode raw = .ok event →
        ∃ ev, XMLParser.Parse lib call raw = .ok ev ∧
          ev.Category = xmlCategoryRule lib.unicodeLower event.System.EventID
            event.System.Channel event.System.Provider.Name) ∧
      (∃ ev, XMLParser.Parse (exampleLib (.ok xmlLogonEvent)) exampleCall [] = .ok ev ∧
        ev.Category = CategoryAuthentication) ∧
      XMLParser.categorizeXMLEvent id
        { xmlLogonEvent with System := { xmlLogonEvent.System with EventID := 1102 } } =
          CategorySecurityEvent := by
  have hrules : ∀ tbl' : Char → Char, XMLParser.categorizeXMLEvent tbl' event =
      xmlCategoryRule tbl' event.System.EventID event.System.Channel
        event.System.Provider.Name := by
    intro tbl'
    unfold XMLParser.categorizeXMLEvent xmlCategoryRule
    simp only [Spec.containsFold_eq, ge_iff_le]
    split_ifs <;> rfl
  have hrule := hrules tbl
  refine ⟨hrule, ?_, ?_, ?_, ?_, ?_, ⟨_, rfl, by decide⟩, by decide⟩
  · intro h
    rw [hrule]
    unfold xmlCategoryRule
    rw [if_pos h]
  · intro h
    rw [hrule]
    unfold xmlCategoryRule
    rw [if_neg (by omega), if_pos h]
  · intro h
    rw [hrule]
    unfold xmlCategoryRule
    rw [if_neg (by omega), if_neg (by omega), if_pos h]
  · intro h
    rw [hrule]
    unfold xmlCategoryRule
    rw [if_neg (by omega), if_neg (by omega), if_neg (by omega), if_pos h]
  · intro Time lib call raw hdec
    obtain ⟨ev, hev, _, hcat, _⟩ := parser.XMLParser.parse_fields lib call raw event hdec
    exact ⟨ev, hev, by rw [hcat, hrules]⟩

theorem parser.XMLParser.resultFromData_eq (tbl : Char → Char) :
    ∀ (data : List Data), XMLParser.resultFromData tbl data = data.findSome? (pairVerdict tbl)
  | [] => rfl
  | d :: rest => by
    have ih := parser.XMLParser.resultFromData_eq tbl rest
    have hb : ∀ (a b : Str), (a == b) = decide (a = b) := fun a b => by
      by_cases h : a = b <;> simp [h]
    unfold XMLParser.resultFromData
    simp only [List.findSome?_cons, pairVerdict, Spec.containsFold_eq, ih, hb]
    split_ifs <;> rfl

/-- C24: the result of an XML record is the verdict of the first pair of
`EventData`, in document order, that gives one (a pair whose name contains
`status` or `result`: success when its value contains `success` or is `0` or
`0x0`, failure when it contains `fail` or `error`); without such a pair the
levels 1 and 2 give failure; otherwise the id 4625 gives failure, the ids 4624
and 4634..4647 give success and every other id unknown; this is the result of
the event of every record that decodes. An event with the id 4624, the level 2
and no pair is a failure. -/
theorem C24_xml_result_order (tbl : Char → Char) (event : Event) :
    XMLParser.determineResult tbl event = xmlResultRule tbl event ∧
      (∀ {Time : Type} (lib : Lib Time) (call : Call Time) (raw : Str),
        lib.xmlDecode raw = .ok event →
        ∃ ev, XMLParser.Parse lib call raw = .ok ev ∧
          ev.Result = xmlResultRule lib.unicodeLower event) ∧
      XMLParser.determineResult tbl { System := { EventID := 4624, Level := 2 } } =
        ResultFailure ∧
      XMLParser.determineResult tbl { System := { EventID := 4624, Level := 4 } } =
        ResultSuccess := by
  have hrules : ∀ tbl' : Char → Char,
      XMLParser.determineResult tbl' event = xmlResultRule tbl' event := by
    intro tbl'
    unfold XMLParser.determineResult xmlResultRule
    rw [parser.XMLParser.resultFromData_eq]
    cases event.EventData.findSome? (pairVerdict tbl') with
    | some r => rfl
    | none =>
      simp only [ge_iff_le]
      split_ifs <;> first | rfl | omega
  refine ⟨hrules tbl, ?_, rfl, rfl⟩
  intro Time lib call raw hdec
  obtain ⟨ev, hev, _, _, hres, _⟩ := parser.XMLParser.parse_fields lib call raw event hdec
  exact ⟨ev, hev, by rw [hres, hrules]⟩

theorem parser.XMLParser.descriptionParts_eq :
    ∀ (data : List Data), XMLParser.descriptionParts data =
      (data.filter (fun d => !d.Value.isEmpty)).map (fun d => d.Name ++ ": ".toList ++ d.Value)
  | [] => rfl
  | d :: rest => by
    have ih := parser.XMLParser.descriptionParts_eq rest
    unfold XMLParser.descriptionParts
    rw [ih]
    by_cases hv : d.Value = []
    · simp [hv]
    · have hv2 : d.Value.isEmpty = false := by
        cases hd : d.Value with
        | nil => exact absurd hd hv
        | cons _ _ => rfl
      simp [hv, hv2]

/-- C26: the description of an XML record is made of the texts `Name: Value` of
the pairs of `EventData` with a non-empty value, in document order, joined by
`; `; without such a pair it is `Event ID <id> from <provider>`; this is the
description of the event of every record that decodes. -/
theorem C26_xml_description (event : Event) :
    XMLParser.buildDescription event = xmlDescriptionRule event ∧
      (∀ {Time : Type} (lib : Lib Time) (call : Call Time) (raw : Str),
        lib.xmlDecode raw = .ok event →
        ∃ ev, XMLParser.Parse lib call raw = .ok ev ∧
          ev.Description = xmlDescriptionRule event) ∧
      (∃ ev, XMLParser.Parse (exampleLib (.ok xmlLogonEvent)) exampleCall [] = .ok ev ∧
        ev.Description = "TargetUserName: john.doe; TargetDomainName: EXAMPLE".toList) ∧
      XMLParser.buildDescription { xmlLogonEvent with EventData := [{ Name := "n".toList }] } =
        "Event ID 4624 from Microsoft-Windows-Security-Auditing".toList := by
  have hrule : XMLParser.buildDescription event = xmlDescriptionRule event := by
    unfold XMLParser.buildDescription xmlDescriptionRule Join
    simp only [parser.XMLParser.descriptionParts_eq]
    by_cases h0 : event.EventData = []
    · simp [h0]
    · have hlen : event.EventData.length > 0 := List.length_pos.mpr h0
      rw [if_pos hlen]
      cases hp : (event.EventData.filter (fun d => !d.Value.isEmpty)).map
          (fun d => d.Name ++ ": ".toList ++ d.Value) with
      | nil => simp
      | cons a l => simp
  refine ⟨hrule, ?_, ⟨_, rfl, by decide⟩, by decide⟩
  intro Time lib call raw hdec
  obtain ⟨ev, hev, _, _, _, hdesc⟩ := parser.XMLParser.parse_fields lib call raw event hdec
  exact ⟨ev, hev, by rw [hdesc, hrule]⟩

/-! ## The subject account and the additional data of an XML record -/

theorem Spec.lastWhere_none (p : Data → Bool) :
    ∀ (data : List Data), (∀ d ∈ data, p d = false) → lastWhere p data = none
  | [], _ => rfl
  | d :: rest, h => by
    have ih := Spec.lastWhere_none p rest (fun x hx => h x (List.mem_cons_of_mem _ hx))
    have hd := h d (List.mem_cons_self _ _)
    simp [lastWhere, ih, hd]

theorem Spec.lastWhere_congr (p q : Data → Bool) :
    ∀ (data : List Data), (∀ d ∈ data, p d = q d) → lastWhere p data = lastWhere q data
  | [], _ => rfl
  | d :: rest, h => by
    have ih := Spec.lastWhere_congr p q rest (fun x hx => h x (List.mem_cons_of_mem _ hx))
    have hd := h d (List.mem_cons_self _ _)
    simp [lastWhere, ih, hd]

/-- The subject account after `enrichEventFromEventData`. -/
theorem parser.XMLParser.enrich_subject {Time : Type} (tbl : Char → Char) :
    ∀ (data : List Data) (g : GOSTEvent Time),
      (XMLParser.enrichEventFromEventData tbl g data).SubjectAccount =
        if data.all (fun d => !namesUser tbl d && !namesDomain tbl d) = true then
          g.SubjectAccount
        else
          some
            { UserID := (g.SubjectAccount.getD {}).UserID
              Username :=
                match lastWhere (namesUser tbl) data with
                | some d => d.Value
                | none => (g.SubjectAccount.getD {}).Username
              Domain :=
                match lastWhere (fun d => namesDomain tbl d && !namesUser tbl d) data with
                | some d => d.Value
                | none => (g.SubjectAccount.getD {}).Domain }
  | [], g => by simp [XMLParser.enrichEventFromEventData]
  | d :: rest, g => by
    have hU : (Contains (ToLower tbl d.Name) "targetusername".toList ||
        Contains (ToLower tbl d.Name) "subjectusername".toList) = namesUser tbl d := by
      simp only [namesUser, Spec.containsFold_eq]
    have hD : (Contains (ToLower tbl d.Name) "targetdomainname".toList ||
        Contains (ToLower tbl d.Name) "subjectdomainname".toList) = namesDomain tbl d := by
      simp only [namesDomain, Spec.containsFold_eq]
    unfold XMLParser.enrichEventFromEventData
    simp only [hU, hD]
    by_cases hall : rest.all (fun d => !namesUser tbl d && !namesDomain tbl d) = true
    · have hn : ∀ x ∈ rest, namesUser tbl x = false ∧ namesDomain tbl x = false := by
        intro x hx
        have := List.all_eq_true.mp hall x hx
        simpa using this
      have h1 := Spec.lastWhere_none (namesUser tbl) rest (fun x hx => (hn x hx).1)
      have h2 := Spec.lastWhere_none (fun d => namesDomain tbl d && !namesUser tbl d) rest
        (fun x hx => by simp [(hn x hx).2])
      by_cases hu : namesUser tbl d = true
      · rw [if_pos hu, parser.XMLParser.enrich_subject tbl rest]
        simp [hall, lastWhere, h1, h2, hu]
      · have hu' : namesUser tbl d = false := by simpa using hu
        rw [if_neg hu]
        by_cases hd : namesDomain tbl d = true
        · rw [if_pos hd, parser.XMLParser.enrich_subject tbl rest]
          simp [hall, lastWhere, h1, h2, hu', hd]
        · have hd' : namesDomain tbl d = false := by simpa using hd
          rw [if_neg hd]
          have key : ∀ g' : GOSTEvent Time, g'.SubjectAccount = g.SubjectAccount →
              (XMLParser.enrichEventFromEventData tbl g' rest).SubjectAccount =
                g.SubjectAccount := by
            intro g' hg'
            rw [parser.XMLParser.enrich_subject tbl rest, if_pos hall, hg']
          have hgoal : ∀ x : Option Account,
              x = g.SubjectAccount →
              x = (if (d :: rest).all (fun d => !namesUser tbl d && !namesDomain tbl d) = true
                then g.SubjectAccount
                else some
                  { UserID := (g.SubjectAccount.getD {}).UserID
                    Username :=
                      match lastWhere (namesUser tbl) (d :: rest) with
                      | some d => d.Value
                      | none => (g.SubjectAccount.getD {}).Username
                    Domain :=
                      match lastWhere (fun d => namesDomain tbl d && !namesUser tbl d)
                          (d :: rest) with
                      | some d => d.Value
                      | none => (g.SubjectAccount.getD {}).Domain }) := by
            intro x hx
            simp [hall, hu', hd', hx]
          apply hgoal
          split_ifs <;> exact key _ rfl
    · have hall' : rest.all (fun d => !namesUser tbl d && !namesDomain tbl d) = false := by
        simpa using hall
      have hcons : (d :: rest).all (fun d => !namesUser tbl d && !namesDomain tbl d) = false := by
        simp only [List.all_cons, hall', Bool.and_false]
      rw [hcons]
      simp only [Bool.false_eq_true, if_false]
      by_cases hu : namesUser tbl d = true
      · rw [if_pos hu, parser.XMLParser.enrich_subject tbl rest, hall']
        simp only [Bool.false_eq_true, if_false, lastWhere, hu, Bool.not_true, Bool.and_false,
          if_true, Option.getD_some]
        cases lastWhere (namesUser tbl) rest <;>
          cases lastWhere (fun d => namesDomain tbl d && !namesUser tbl d) rest <;> rfl
      · have hu' : namesUser tbl d = false := by simpa using hu
        rw [if_neg hu]
        by_cases hd : namesDomain tbl d = true
        · rw [if_pos hd, parser.XMLParser.enrich_subject tbl rest, hall']
          simp only [Bool.false_eq_true, if_false, lastWhere, hu', hd, Bool.not_false,
            Bool.and_true, if_true, Option.getD_some]
          cases lastWhere (namesUser tbl) rest <;>
            cases lastWhere (fun d => namesDomain tbl d && !namesUser tbl d) rest <;> rfl
        · have hd' : namesDomain tbl d = false := by simpa using hd
          rw [if_neg hd]
          have key : ∀ g' : GOSTEvent Time, g'.SubjectAccount = g.SubjectAccount →
              (XMLParser.enrichEventFromEventData tbl g' rest).SubjectAccount =
                some
                  { UserID := (g.SubjectAccount.getD {}).UserID
                    Username :=
                      match lastWhere (namesUser tbl) (d :: rest) with
                      | some d => d.Value
                      | none => (g.SubjectAccount.getD {}).Username
                    Domain :=
                      match lastWhere (fun d => namesDomain tbl d && !namesUser tbl d)
                          (d :: rest) with
                      | some d => d.Value
                      | none => (g.SubjectAccount.getD {}).Domain } := by
            intro g' hg'
            rw [parser.XMLParser.enrich_subject tbl rest, hall', hg']
            simp only [Bool.false_eq_true, if_false, lastWhere, hu', hd', Bool.false_and]
            cases lastWhere (namesUser tbl) rest <;>
              cases lastWhere (fun d => namesDomain tbl d && !namesUser tbl d) rest <;> rfl
          split_ifs <;> exact key _ rfl

/-- C25 (as amended): the subject account of a decoded XML record is absent
exactly when the Security user id is empty and no pair of `EventData` names a
user or a domain; otherwise its user id is the Security user id, its username
is the value of the last pair whose name contains `targetusername` or
`subjectusername`, and its domain is the value of the last pair whose name
contains `targetdomainname` or `subjectdomainname` and does not name a user
(empty without such a pair); when no name holds both a user word and a domain
word this is the account as the specification words it. -/
theorem C25_xml_subject_account {Time : Type} (lib : Lib Time) (call : Call Time)
    (raw : Str) (event : Event) (h : lib.xmlDecode raw = .ok event) :
    ∃ ev, XMLParser.Parse lib call raw = .ok ev ∧
      ev.SubjectAccount =
        xmlSubjectRule lib.unicodeLower event.System.SecurityUserID event.EventData ∧
      (ev.SubjectAccount = none ↔
        (event.System.SecurityUserID = [] ∧
          ∀ d ∈ event.EventData,
            namesUser lib.unicodeLower d = false ∧ namesDomain lib.unicodeLower d = false)) ∧
      ((∀ d ∈ event.EventData,
          ¬ (namesUser lib.unicodeLower d = true ∧ namesDomain lib.unicodeLower d = true)) →
        ev.SubjectAccount =
          xmlSubjectAsWorded lib.unicodeLower event.System.SecurityUserID event.EventData) := by
  have hrule : ∀ ev, XMLParser.Parse lib call raw = .ok ev →
      ev.SubjectAccount =
        xmlSubjectRule lib.unicodeLower event.System.SecurityUserID event.EventData := by
    intro ev hev
    unfold XMLParser.Parse at hev
    rw [h] at hev
    injection hev with hev
    subst hev
    rw [parser.XMLParser.enrich_subject]
    unfold xmlSubjectRule xmlSubjectWith valueOfLast
    by_cases hu : event.System.SecurityUserID = []
    · by_cases hall : event.EventData.all
          (fun d => !namesUser lib.unicodeLower d && !namesDomain lib.unicodeLower d) = true
      · simp [hu, hall]
      · simp only [hu, hall, ne_eq, not_true_eq_false, if_false, true_and, Bool.false_eq_true]
        cases lastWhere (namesUser lib.unicodeLower) event.EventData <;>
          cases lastWhere (fun d => namesDomain lib.unicodeLower d &&
            !namesUser lib.unicodeLower d) event.EventData <;> rfl
    · by_cases hall : event.EventData.all
          (fun d => !namesUser lib.unicodeLower d && !namesDomain lib.unicodeLower d) = true
      · have hn : ∀ x ∈ event.EventData,
            namesUser lib.unicodeLower x = false ∧ namesDomain lib.unicodeLower x = false := by
          intro x hx
          have := List.all_eq_true.mp hall x hx
          simpa using this
        have h1 := Spec.lastWhere_none (namesUser lib.unicodeLower) event.EventData
          (fun x hx => (hn x hx).1)
        have h2 := Spec.lastWhere_none
          (fun d => namesDomain lib.unicodeLower d && !namesUser lib.unicodeLower d)
          event.EventData (fun x hx => by simp [(hn x hx).2])
        simp [hu, hall, h1, h2]
      · simp only [hu, hall, ne_eq, not_false_eq_true, if_true, false_and, if_false,
          Bool.false_eq_true, Option.getD_some]
  obtain ⟨ev, hev⟩ : ∃ ev, XMLParser.Parse lib call raw = .ok ev := by
    unfold XMLParser.Parse
    rw [h]
    exact ⟨_, rfl⟩
  have hs := hrule ev hev
  refine ⟨ev, hev, hs, ?_, ?_⟩
  · rw [hs]
    unfold xmlSubjectRule xmlSubjectWith
    constructor
    · intro hnone
      split_ifs at hnone with hc
      refine ⟨hc.1, fun d hd => ?_⟩
      have := List.all_eq_true.mp hc.2 d hd
      simpa using this
    · rintro ⟨hu, hn⟩
      rw [if_pos]
      refine ⟨hu, List.all_eq_true.mpr (fun d hd => ?_)⟩
      simp [(hn d hd).1, (hn d hd).2]
  · intro hboth
    rw [hs]
    unfold xmlSubjectRule xmlSubjectAsWorded xmlSubjectWith valueOfLast
    rw [Spec.lastWhere_congr
      (fun d => namesDomain lib.unicodeLower d && !namesUser lib.unicodeLower d)
      (namesDomain lib.unicodeLower) event.EventData]
    intro d hd
    have := hboth d hd
    cases hu : namesUser lib.unicodeLower d <;> cases hdm : namesDomain lib.unicodeLower d <;>
      simp_all

/-- C25 at the record of the test suite: the pairs `TargetUserName=john.doe` and
`TargetDomainName=EXAMPLE` without a Security block give the username
`john.doe` and the domain `EXAMPLE`. -/
theorem C25_xml_subject_account_witness :
    (exampleLib (.ok xmlLogonEvent)).xmlDecode [] = .ok xmlLogonEvent ∧
      ∃ ev, XMLParser.Parse (exampleLib (.ok xmlLogonEvent)) exampleCall [] = .ok ev ∧
        ev.SubjectAccount =
          some { Username := "john.doe".toList, Domain := "EXAMPLE".toList, UserID := [] } :=
  ⟨rfl,
    (C25_xml_subject_account (exampleLib (.ok xmlLogonEvent)) exampleCall [] xmlLogonEvent
      rfl).imp (fun _ h => ⟨h.1, h.2.1.trans (by decide)⟩)⟩

/-- C25 fails as stated: for one pair whose name holds both `TargetUserName` and
`TargetDomainName` the parser sets the username and leaves the domain empty,
where the rule as worded gives the value of the pair as the domain. -/
theorem C25_domain_not_from_a_user_pair :
    ∃ ev, XMLParser.Parse
        (exampleLib (.ok { EventData :=
          [{ Name := "TargetUserName/TargetDomainName".toList, Value := "x".toList }] }))
        exampleCall [] = .ok ev ∧
      ev.SubjectAccount = some { Username := "x".toList, Domain := [], UserID := [] } ∧
      xmlSubjectAsWorded id []
          [{ Name := "TargetUserName/TargetDomainName".toList, Value := "x".toList }] =
        some { Username := "x".toList, Domain := "x".toList, UserID := [] } :=
  ⟨_, rfl, by decide, by decide⟩

/-- The entry of a key after the loop over the pairs of `EventData`: the value
of the last named pair stored under that key, else the entry before the loop. -/
theorem parser.XMLParser.copyEventData_get? (k : Str) :
    ∀ (data : List Data) (ad : GoMap Value),
      (XMLParser.copyEventData data ad).get? k =
        match lastWhere (fun d => !d.Name.isEmpty && ("xml_".toList ++ d.Name == k)) data with
        | some d => some (.str d.Value)
        | none => ad.get? k
  | [], ad => rfl
  | d :: rest, ad => by
    unfold XMLParser.copyEventData
    by_cases hn : d.Name = []
    · rw [if_neg (by simp [hn]), parser.XMLParser.copyEventData_get? k rest ad]
      simp only [lastWhere, hn, List.isEmpty_nil, Bool.not_true, Bool.false_and,
        Bool.false_eq_true, if_false]
      cases lastWhere (fun d => !d.Name.isEmpty && ("xml_".toList ++ d.Name == k)) rest <;> rfl
    · have hne : d.Name.isEmpty = false := by
        cases hd : d.Name with
        | nil => exact absurd hd hn
        | cons _ _ => rfl
      rw [if_pos hn, parser.XMLParser.copyEventData_get? k rest _]
      simp only [lastWhere, hne, Bool.not_false, Bool.true_and, beq_iff_eq]
      cases lastWhere (fun d => !d.Name.isEmpty && ("xml_".toList ++ d.Name == k)) rest with
      | some x => rfl
      | none =>
        simp only [Go.get?_set]
        by_cases hk : k = "xml_".toList ++ d.Name
        · simp [hk]
        · have hk' : ¬ ("xml_".toList ++ d.Name = k) := fun e => hk e.symm
          rw [if_neg hk, if_neg hk']

/-- C27 (as amended): in the additional data of a decoded XML record, the key
`xml_` + n of a non-empty name n holds the value of the last pair of `EventData`
named n; a header entry `xml_event_id`, `xml_level`, `xml_task`, `xml_opcode`,
`xml_keywords`, `xml_channel` or `xml_record_id` holds the value of the System
block when no pair is named by the part of the key after `xml_`; and
`provider_guid` always holds the Guid of the provider. -/
theorem C27_xml_additional_data {Time : Type} (lib : Lib Time) (call : Call Time)
    (raw : Str) (event : Event) (h : lib.xmlDecode raw = .ok event) :
    ∃ ev, XMLParser.Parse lib call raw = .ok ev ∧
      (∀ n v, n ≠ [] → lastNamed n event.EventData = some v →
        ev.AdditionalData.get? ("xml_".toList ++ n) = some (.str v)) ∧
      (∀ n hv, (n, hv) ∈ xmlHeaderEntries event.System →
        (∀ d ∈ event.EventData, d.Name ≠ n) →
        ev.AdditionalData.get? ("xml_".toList ++ n) = some hv) ∧
      ev.AdditionalData.get? "provider_guid".toList = some (.str event.System.Provider.Guid) := by
  obtain ⟨ev, hev⟩ : ∃ ev, XMLParser.Parse lib call raw = .ok ev := by
    unfold XMLParser.Parse
    rw [h]
    exact ⟨_, rfl⟩
  refine ⟨ev, hev, ?_⟩
  unfold XMLParser.Parse at hev
  rw [h] at hev
  injection hev with hev
  subst hev
  rw [(parser.XMLParser.enrich_fields lib.unicodeLower event.EventData _).2.2.2]
  simp only [parser.XMLParser.copyEventData_get?]
  refine ⟨?_, ?_, ?_⟩
  · intro n v hn hl
    have hne : n.isEmpty = false := by
      cases n with
      | nil => exact absurd rfl hn
      | cons _ _ => rfl
    have hc := Spec.lastWhere_congr
      (fun d => !d.Name.isEmpty && ("xml_".toList ++ d.Name == "xml_".toList ++ n))
      (fun d => d.Name == n) event.EventData (by
        intro d _
        by_cases e : d.Name = n
        · subst e
          simp [hne]
        · have e' : ("xml_".toList ++ d.Name == "xml_".toList ++ n) = false := by
            simpa using e
          have e'' : (d.Name == n) = false := by simpa using e
          beta_reduce
          rw [e', e'']
          simp)
    rw [hc]
    unfold lastNamed at hl
    cases hw : lastWhere (fun d => d.Name == n) event.EventData with
    | none => rw [hw] at hl; cases hl
    | some x =>
      rw [hw] at hl
      simp only [Option.map_some', Option.some.injEq] at hl
      simp only [hl]
  · intro n hv hmem hno
    have hw := Spec.lastWhere_none
      (fun d => !d.Name.isEmpty && ("xml_".toList ++ d.Name == "xml_".toList ++ n))
      event.EventData (by
        intro d hd
        have e : ("xml_".toList ++ d.Name == "xml_".toList ++ n) = false := by
          simpa using hno d hd
        beta_reduce
        rw [e]
        simp)
    rw [hw]
    simp only [xmlHeaderEntries, List.mem_cons, Prod.mk.injEq, List.mem_singleton,
      List.not_mem_nil, or_false] at hmem
    rcases hmem with ⟨rfl, rfl⟩ | ⟨rfl, rfl⟩ | ⟨rfl, rfl⟩ | ⟨rfl, rfl⟩ | ⟨rfl, rfl⟩ |
      ⟨rfl, rfl⟩ | ⟨rfl, rfl⟩ <;>
    · simp only [Go.get?_set]
      simp
  · have hw := Spec.lastWhere_none
      (fun d => !d.Name.isEmpty && ("xml_".toList ++ d.Name == "provider_guid".toList))
      event.EventData (by
        intro d _
        have e : ("xml_".toList ++ d.Name == "provider_guid".toList) = false := by
          simp
        beta_reduce
        rw [e]
        simp)
    rw [hw]
    simp only [Go.get?_set]
    simp

/-- C27 at the record of the test suite. -/
theorem C27_xml_additional_data_witness :
    (exampleLib (.ok xmlLogonEvent)).xmlDecode [] = .ok xmlLogonEvent ∧
      ∃ ev, XMLParser.Parse (exampleLib (.ok xmlLogonEvent)) exampleCall [] = .ok ev ∧
        ev.AdditionalData.get? "xml_TargetUserName".toList = some (.str "john.doe".toList) ∧
        ev.AdditionalData.get? "xml_event_id".toList = some (.int 4624) ∧
        ev.AdditionalData.get? "provider_guid".toList =
          some (.str xmlLogonEvent.System.Provider.Guid) :=
  ⟨rfl,
    (C27_xml_additional_data (exampleLib (.ok xmlLogonEvent)) exampleCall [] xmlLogonEvent
      rfl).imp (fun _ h =>
        ⟨h.1, h.2.1 "TargetUserName".toList "john.doe".toList (by decide) (by decide),
          h.2.2.1 "event_id".toList (.int 4624) (by decide) (by decide), h.2.2.2⟩)⟩

/-- C27 fails as stated: a pair named `level` replaces the header entry
`xml_level`, a pair without a name is dropped, and of two pairs with one name
only the value of the second is kept. -/
theorem C27_pair_replaces_header_entry :
    ∃ ev, XMLParser.Parse
        (exampleLib (.ok { System := { Level := 4 }, EventData :=
          [{ Name := "level".toList, Value := "x".toList },
            { Name := [], Value := "y".toList },
            { Name := "a".toList, Value := "1".toList },
            { Name := "a".toList, Value := "2".toList }] }))
        exampleCall [] = .ok ev ∧
      ev.AdditionalData.get? "xml_level".toList = some (.str "x".toList) ∧
      ev.AdditionalData.get? "xml_level".toList ≠ some (.int 4) ∧
      ev.AdditionalData.get? "xml_".toList = none ∧
      ev.AdditionalData.get? "xml_a".toList = some (.str "2".toList) ∧
      ev.AdditionalData.keys.length = 9 :=
  ⟨_, rfl, by decide, by decide, by decide, by decide, by decide⟩

/-! ## The XML rule and the priority rule of the detector -/

theorem Go.contains_iff_infix (sub : Str) : ∀ (s : Str), Contains s sub = true ↔ sub <:+: s
  | [] => by
    simp only [Contains, List.isPrefixOf_iff_prefix, List.prefix_nil, List.infix_nil]
  | c :: cs => by
    have ih := Go.contains_iff_infix sub cs
    simp only [Contains, Bool.or_eq_true, List.isPrefixOf_iff_prefix, ih, List.infix_cons_iff]

/-- Trimming keeps an occurrence of a text that is free of whitespace. -/
theorem Go.TrimSpace_contains (s sub : Str) (hne : sub ≠ [])
    (hsub : ∀ c ∈ sub, isSpace c = false) (h : Contains s sub = true) :
    Contains (TrimSpace s) sub = true := by
  rw [Go.contains_iff_infix] at h ⊢
  obtain ⟨a, b, rfl⟩ := h
  have hh : ∀ (x : Str), ∀ c ∈ (sub ++ x).head?, isSpace c = false := by
    intro x c hc
    cases sub with
    | nil => exact absurd rfl hne
    | cons y ys =>
      simp only [List.cons_append, List.head?_cons, Option.mem_def, Option.some.injEq] at hc
      exact hsub c (by simp [hc])
  have hl : ∀ (x : Str), ∀ c ∈ (sub.reverse ++ x).head?, isSpace c = false := by
    intro x c hc
    have hr : sub.reverse ≠ [] := by simpa using hne
    cases hrev : sub.reverse with
    | nil => exact absurd hrev hr
    | cons y ys =>
      rw [hrev] at hc
      simp only [List.cons_append, List.head?_cons, Option.mem_def, Option.some.injEq] at hc
      have : y ∈ sub := by
        have : y ∈ sub.reverse := by rw [hrev]; simp
        simpa using this
      exact hsub c (hc ▸ this)
  unfold TrimSpace
  rw [List.append_assoc, Go.trimLeft_append (sub ++ b) (hh b) (by simp [hne]) a,
    List.reverse_append, List.reverse_append, List.append_assoc,
    Go.trimLeft_append (sub.reverse ++ (trimLeft a).reverse) (hl _) (by simp [hne]) b.reverse,
    List.reverse_append, List.reverse_append, List.reverse_reverse, List.reverse_reverse]
  exact ⟨trimLeft a, (trimLeft b.reverse).reverse, by simp⟩

theorem Go.hasPrefix_lt (t : Str) (h : HasPrefix t "<".toList = true) : ∃ r, t = '<' :: r := by
  cases t with
  | nil => simp [HasPrefix, List.isPrefixOf] at h
  | cons c r =>
    simp only [HasPrefix, String.toList, String.data, List.isPrefixOf, Bool.and_true,
      beq_iff_eq] at h
    exact ⟨r, by rw [← h]⟩

/-- C28: an input that begins with `<` and contains `<?xml` is classified xml,
also when it begins with a syslog priority, and `Process` hands it to the XML
parser. -/
theorem C28_xml_before_priority {Time : Type} (lib : Lib Time) (call : Call Time) (raw : Str)
    (h1 : HasPrefix raw "<".toList = true) (h2 : Contains raw "<?xml".toList = true) :
    DetectLogType raw = LogTypeXML ∧ DetectLogType raw ≠ LogTypeSyslog ∧
      Process lib call raw = XMLParser.Parse lib call raw := by
  have hd : DetectLogType raw = LogTypeXML := by
    have p1 := Go.TrimSpace_hasPrefix "<".toList raw (by decide) (by decide) (by decide) h1
    have p2 := Go.TrimSpace_contains raw "<?xml".toList (by decide) (by decide) h2
    unfold DetectLogType
    simp only []
    obtain ⟨r, hr⟩ := Go.hasPrefix_lt _ p1
    rw [hr] at p1 p2 ⊢
    have c1 : HasPrefix ('<' :: r) "CEF:".toList = false := rfl
    have c2 : HasPrefix ('<' :: r) "LEEF:".toList = false := rfl
    simp only [c1, c2, p1, p2, Bool.false_eq_true, if_false, Bool.and_self, Bool.true_or,
      if_true]
  refine ⟨hd, by rw [hd]; decide, ?_⟩
  unfold Process
  rw [hd]

/-- C28 at a syslog record whose message carries an XML payload: the priority
rule would match it and the syslog parser would accept it, yet it is classified
xml and handed to the XML parser. -/
theorem C28_xml_before_priority_witness :
    HasPrefix syslogWithXmlLine "<".toList = true ∧
      Contains syslogWithXmlLine "<?xml".toList = true ∧
      priorityShapeNonEmpty syslogWithXmlLine = true ∧
      (∃ ev, SyslogParser.Parse (exampleLib (.error [])) exampleCall syslogWithXmlLine =
        .ok ev) ∧
      DetectLogType syslogWithXmlLine = LogTypeXML ∧
      DetectLogType syslogWithXmlLine ≠ LogTypeSyslog ∧
      Process (exampleLib (.error [])) exampleCall syslogWithXmlLine =
        XMLParser.Parse (exampleLib (.error [])) exampleCall syslogWithXmlLine :=
  ⟨by decide, by decide, by decide, ⟨_, rfl⟩,
    C28_xml_before_priority (exampleLib (.error [])) exampleCall syslogWithXmlLine
      (by decide) (by decide)⟩

theorem Go.contains_of_hasPrefix (t sub : Str) (h : HasPrefix t sub = true) :
    Contains t sub = true := by
  rw [Go.contains_iff_infix]
  unfold HasPrefix at h
  rw [List.isPrefixOf_iff_prefix] at h
  exact h.isInfix

/-- The index of the first `>` of a text that begins with `<`, and the slice
between the two brackets. -/
theorem Go.priority_cut (d post : Str) (hd : '>' ∉ d) :
    Index ('<' :: (d ++ '>' :: post)) ">".toList = ((1 + byteLen d : Nat) : Int) ∧
      slice ('<' :: (d ++ '>' :: post)) 1 (1 + byteLen d) = d ∧
      ('<' :: (d ++ '>' :: post)).takeWhile (fun c => c != '>') = '<' :: d := by
  have hpre : '>' ∉ '<' :: d := by
    intro h
    rcases List.mem_cons.mp h with h | h
    · exact absurd h (by decide)
    · exact hd h
  refine ⟨?_, ?_, ?_⟩
  · have h := Go.indexFrom_singleton_append '>' post ('<' :: d) 0 hpre
    have e : byteLen ('<' :: d) = 1 + byteLen d := by
      simp only [byteLen]
      rfl
    rw [e, Nat.zero_add] at h
    exact h
  · unfold slice
    rw [sliceFrom, if_neg (by omega)]
    have h := Go.sliceFrom_append 1 ('>' :: post) d 1 (Nat.le_refl _)
    have e : (0 : Nat) + '<'.utf8Size = 1 := rfl
    rw [e]
    exact h
  · exact (Go.takeWhile_ne_append '>' post ('<' :: d) hpre).1

theorem processor.detect_syslog_iff (t : Str) :
    (if HasPrefix t "CEF:".toList = true then LogTypeCEF
      else if HasPrefix t "LEEF:".toList = true then LogTypeLEEF
      else if ((HasPrefix t "<".toList && Contains t "<?xml".toList) ||
          HasPrefix t "<?xml".toList) = true then LogTypeXML
      else if HasPrefix t "<Event".toList = true then LogTypeXML
      else if (HasPrefix t "<".toList && Contains t ">".toList) = true then
        if Index t ">".toList > 0 ∧ Index t ">".toList < 10 then
          if isNumeric (slice t 1 (Index t ">".toList).toNat) = true then LogTypeSyslog
          else LogTypeUnknown
        else LogTypeUnknown
      else LogTypeUnknown) = LogTypeSyslog ↔ syslogHeuristic t = true := by
  by_cases hp : HasPrefix t "<".toList = true
  · obtain ⟨r, rfl⟩ := Go.hasPrefix_lt t hp
    have c1 : HasPrefix ('<' :: r) "CEF:".toList = false := rfl
    have c2 : HasPrefix ('<' :: r) "LEEF:".toList = false := rfl
    simp only [c1, c2, hp, Bool.false_eq_true, if_false, Bool.true_and]
    unfold syslogHeuristic
    rw [hp]
    by_cases hx : Contains ('<' :: r) "<?xml".toList = true
    · simp only [hx, Bool.true_or, if_true, Bool.not_true, Bool.false_and]
      simp
    · have hx' : Contains ('<' :: r) "<?xml".toList = false := by simpa using hx
      have hx2 : HasPrefix ('<' :: r) "<?xml".toList = false := by
        cases hq : HasPrefix ('<' :: r) "<?xml".toList with
        | false => rfl
        | true => exact absurd (Go.contains_of_hasPrefix _ _ hq) hx
      simp only [hx', hx2, Bool.or_self, Bool.false_eq_true, if_false, Bool.not_false,
        Bool.true_and]
      by_cases hgt : '>' ∈ r
      · obtain ⟨d, post, rfl, hd⟩ := List.eq_append_cons_of_mem hgt
        obtain ⟨k1, k2, k3⟩ := Go.priority_cut d post hd
        have hmem : '>' ∈ '<' :: (d ++ '>' :: post) := by simp
        have hc : Contains ('<' :: (d ++ '>' :: post)) ">".toList = true :=
          (Go.contains_singleton '>' _).mpr hmem
        have hbl : byteLen ('<' :: d) = 1 + byteLen d := by
          simp only [byteLen]
          rfl
        simp only [firstIndexOf, hmem, if_true, k3, hbl, List.drop_succ_cons, List.drop_zero, hc,
          k1, Int.toNat_ofNat, k2, processor.isNumeric_eq]
        by_cases hE : HasPrefix ('<' :: (d ++ '>' :: post)) "<Event".toList = true
        · have hdE : isDigits d = false := by
            cases d with
            | nil => simp [HasPrefix, List.isPrefixOf] at hE
            | cons c d' =>
              simp only [HasPrefix, String.toList, String.data, List.cons_append,
                List.isPrefixOf, Bool.and_eq_true, beq_iff_eq] at hE
              have hcE : c = 'E' := hE.2.1.symm
              subst hcE
              simp [isDigits, isDigit]
          rw [if_pos hE]
          simp [hdE]
        · rw [if_neg hE]
          have hrange : (((1 + byteLen d : Nat) : Int) > 0 ∧ ((1 + byteLen d : Nat) : Int) < 10) ↔
              (1 ≤ 1 + byteLen d ∧ 1 + byteLen d ≤ 9) := by omega
          by_cases hr : (1 ≤ 1 + byteLen d ∧ 1 + byteLen d ≤ 9)
          · rw [if_pos (hrange.mpr hr)]
            simp only [hr, and_self, decide_True, Bool.true_and, isDigits]
            cases hA : d.all isDigit <;> cases hB : d.isEmpty <;> simp
          · rw [if_neg (fun h => hr (hrange.mp h))]
            have hr2 : ¬ (1 + byteLen d ≤ 9) := by omega
            simp [hr2]
      · have hmem : '>' ∉ '<' :: r := by
          intro h
          rcases List.mem_cons.mp h with h | h
          · exact absurd h (by decide)
          · exact hgt h
        have hc : Contains ('<' :: r) ">".toList = false := by
          cases hq : Contains ('<' :: r) ">".toList with
          | false => rfl
          | true => exact absurd ((Go.contains_singleton '>' _).mp hq) hmem
        simp only [firstIndexOf, hmem, if_false, hc, Bool.false_eq_true]
        split_ifs <;> simp
  · have hp' : HasPrefix t "<".toList = false := by simpa using hp
    unfold syslogHeuristic
    simp only [hp', Bool.false_and, Bool.false_eq_true, if_false, Bool.false_or]
    split_ifs <;> simp

/-- C29: the detector answers syslog exactly when the input, without its leading
and trailing whitespace, begins with `<`, does not contain `<?xml`, has its first
`>` at a byte index from 1 to 9, and the text strictly between the two brackets
is a non-empty run of decimal digits; the index of the first `>`, when positive,
is below the length of the trimmed text, so the slice between the brackets is
within bounds; `<>` and a priority of nine digits are unknown, a priority of
eight digits is syslog. -/
theorem C29_syslog_heuristic (raw : Str) :
    (DetectLogType raw = LogTypeSyslog ↔ syslogHeuristic (TrimSpace raw) = true) ∧
      (0 < Index (TrimSpace raw) ">".toList →
        1 ≤ (Index (TrimSpace raw) ">".toList).toNat ∧
          (Index (TrimSpace raw) ">".toList).toNat < byteLen (TrimSpace raw)) ∧
      DetectLogType "<>".toList = LogTypeUnknown ∧
      DetectLogType "<123456789>1 x".toList = LogTypeUnknown ∧
      DetectLogType "<12345678>1 x".toList = LogTypeSyslog ∧
      DetectLogType "<13x>1 x".toList = LogTypeUnknown := by
  refine ⟨?_, ?_, by decide, by decide, by decide, by decide⟩
  · unfold DetectLogType
    simp only []
    exact processor.detect_syslog_iff (TrimSpace raw)
  · generalize TrimSpace raw = t
    intro h
    by_cases hgt : '>' ∈ t
    · obtain ⟨pre, post, rfl, hpre⟩ := List.eq_append_cons_of_mem hgt
      have hi : Index (pre ++ '>' :: post) ">".toList = ((0 + byteLen pre : Nat) : Int) :=
        Go.indexFrom_singleton_append '>' post pre 0 hpre
      rw [Nat.zero_add] at hi
      rw [hi] at h ⊢
      rw [Int.toNat_ofNat, Go.byteLen_append]
      have hb : byteLen ('>' :: post) = 1 + byteLen post := by
        simp only [byteLen]
        rfl
      rw [hb]
      omega
    · have hi : Index t ">".toList = -1 := Go.indexFrom_singleton_none '>' t 0 hgt
      rw [hi] at h
      omega

/-! ## The tokens of a CEF extension text -/

theorem Go.splitRune_ne_nil (sep : Char) : ∀ (s : Str), splitRune sep s ≠ []
  | [] => by simp [splitRune]
  | c :: cs => by
    unfold splitRune
    split_ifs
    · simp
    · cases splitRune sep cs <;> simp

/-- The parts of a split are free of the separator. -/
theorem Go.splitRune_no_sep (sep : Char) :
    ∀ (s : Str), ∀ t ∈ splitRune sep s, sep ∉ t
  | [], t, ht => by
    simp only [splitRune, List.mem_singleton] at ht
    subst ht
    simp
  | c :: cs, t, ht => by
    have ih := Go.splitRune_no_sep sep cs
    unfold splitRune at ht
    by_cases hc : (c == sep) = true
    · rw [if_pos hc] at ht
      rcases List.mem_cons.mp ht with rfl | ht
      · simp
      · exact ih t ht
    · rw [if_neg hc] at ht
      have hc' : sep ≠ c := fun e => hc (by simp [e])
      cases hs : splitRune sep cs with
      | nil => exact absurd hs (Go.splitRune_ne_nil sep cs)
      | cons p ps =>
        rw [hs] at ht ih
        simp only [List.mem_cons] at ht
        rcases ht with rfl | ht
        · intro hm
          rcases List.mem_cons.mp hm with hm | hm
          · exact hc' hm
          · exact ih p (by simp) hm
        · exact ih t (by simp [ht])

/-- Joining the parts of a split with the separator gives the text back. -/
theorem Go.join_splitRune (sep : Char) : ∀ (s : Str), Join (splitRune sep s) [sep] = s
  | [] => by simp [splitRune, Join, List.intercalate]
  | c :: cs => by
    have ih := Go.join_splitRune sep cs
    unfold splitRune
    cases hs : splitRune sep cs with
    | nil => exact absurd hs (Go.splitRune_ne_nil sep cs)
    | cons p ps =>
      rw [hs] at ih
      by_cases hc : (c == sep) = true
      · have hc' : c = sep := by simpa using hc
        rw [if_pos hc]
        unfold Join at ih ⊢
        simp only [List.intercalate, List.intersperse, List.flatten_cons, List.nil_append,
          List.singleton_append] at ih ⊢
        rw [ih, hc']
      · rw [if_neg hc]
        unfold Join at ih ⊢
        cases ps with
        | nil =>
          simp only [List.intercalate, List.intersperse, List.flatten_cons, List.flatten_nil,
            List.append_nil] at ih ⊢
          rw [ih]
        | cons q qs =>
          simp only [List.intercalate, List.intersperse, List.flatten_cons,
            List.cons_append] at ih ⊢
          rw [ih]

theorem parser.CEFParser.parseExtensionsLoop_eq :
    ∀ (parts : List Str) (m : GoMap Str),
      CEFParser.parseExtensionsLoop parts m =
        (parts.filterMap tokenKeyValue).foldl (fun m kv => m.set kv.1 kv.2) m
  | [], _ => rfl
  | part :: parts, m => by
    unfold CEFParser.parseExtensionsLoop
    simp only []
    by_cases hm : '=' ∈ part
    · obtain ⟨pre, post, rfl, hpre⟩ := List.eq_append_cons_of_mem hm
      obtain ⟨h1, h2, h3⟩ := Go.cut_at_first '=' (by decide) pre post hpre
      obtain ⟨h4, h5⟩ := Go.takeWhile_ne_append '=' post pre hpre
      have hidx : Index (pre ++ '=' :: post) "=".toList = (byteLen pre : Int) := h1
      have hne : (byteLen pre : Int) ≠ -1 := by omega
      rw [hidx, if_pos hne, Int.toNat_ofNat, h2, h3,
        parser.CEFParser.parseExtensionsLoop_eq parts]
      simp only [List.filterMap_cons, tokenKeyValue, hm, if_true, h4, h5, List.drop_succ_cons,
        List.drop_zero, List.foldl_cons]
    · have hidx : Index part "=".toList = -1 := Go.indexFrom_singleton_none '=' part 0 hm
      rw [hidx, if_neg (by simp), parser.CEFParser.parseExtensionsLoop_eq parts]
      simp only [List.filterMap_cons, tokenKeyValue, hm, if_false]

/-- The entry of a key after a run of assignments: the value of the last pair
with that key, else the entry before. -/
theorem Go.foldl_set_get? (k : Str) :
    ∀ (pairs : List (Str × Str)) (m : GoMap Str),
      (pairs.foldl (fun m kv => m.set kv.1 kv.2) m).get? k =
        match List.lookup k pairs.reverse with
        | some v => some v
        | none => m.get? k
  | [], m => rfl
  | p :: ps, m => by
    rw [List.foldl_cons, Go.foldl_set_get? k ps, List.reverse_cons, List.lookup_append,
      Go.get?_set]
    cases List.lookup k ps.reverse with
    | some v => rfl
    | none =>
      obtain ⟨a, b⟩ := p
      by_cases hk : k = a
      · subst hk
        simp [List.lookup]
      · have hne : (k == a) = false := by simpa using hk
        simp [List.lookup, hk, hne, GoMap.get?]

theorem Go.mem_of_lookup (k v : Str) :
    ∀ (l : List (Str × Str)), List.lookup k l = some v → (k, v) ∈ l
  | [], h => by simp [List.lookup] at h
  | (a, b) :: l, h => by
    by_cases hk : k = a
    · subst hk
      simp only [List.lookup, beq_self_eq_true, Option.some.injEq] at h
      subst h
      simp
    · have hne : (k == a) = false := by simpa using hk
      simp only [List.lookup, hne] at h
      exact List.mem_cons_of_mem _ (Go.mem_of_lookup k v l h)

/-- C30: the extension map of a CEF record holds, for each key, the value of the
last token with that key, the tokens being the parts of the text between single
spaces; a token without `=` gives nothing, a token with `=` gives the text
before its first `=` as key and all the text after it as value; so neither a key
nor a value contains a space: `msg=hello world` gives `msg` the value `hello`
and drops `world`; `src=10.0.0.1 dst=2.1.2.2 spt=1232` gives the three entries
src, dst and spt. -/
theorem C30_cef_extension_tokens (ext k : Str) :
    (CEFParser.parseExtensions ext).get? k =
        lastValueOf k ((splitRune ' ' ext).filterMap tokenKeyValue) ∧
      (∀ t ∈ splitRune ' ' ext, ' ' ∉ t) ∧
      Join (splitRune ' ' ext) " ".toList = ext ∧
      (∀ v, (CEFParser.parseExtensions ext).get? k = some v → ' ' ∉ k ∧ ' ' ∉ v) ∧
      tokenKeyValue "a=b=c".toList = some ("a".toList, "b=c".toList) ∧
      tokenKeyValue "world".toList = none ∧
      CEFParser.parseExtensions "msg=hello world".toList = [("msg".toList, "hello".toList)] ∧
      CEFParser.parseExtensions "src=10.0.0.1 dst=2.1.2.2 spt=1232".toList =
        [("spt".toList, "1232".toList), ("dst".toList, "2.1.2.2".toList),
          ("src".toList, "10.0.0.1".toList)] := by
  have hget : (CEFParser.parseExtensions ext).get? k =
      lastValueOf k ((splitRune ' ' ext).filterMap tokenKeyValue) := by
    unfold CEFParser.parseExtensions lastValueOf
    rw [parser.CEFParser.parseExtensionsLoop_eq, Go.foldl_set_get?]
    cases List.lookup k ((splitRune ' ' ext).filterMap tokenKeyValue).reverse <;> rfl
  refine ⟨hget, Go.splitRune_no_sep ' ' ext, Go.join_splitRune ' ' ext, ?_, by decide, by decide,
    by decide, by decide⟩
  intro v hv
  rw [hget] at hv
  unfold lastValueOf at hv
  have hmem := Go.mem_of_lookup k v _ hv
  rw [List.mem_reverse, List.mem_filterMap] at hmem
  obtain ⟨tok, htok, hkv⟩ := hmem
  have hns := Go.splitRune_no_sep ' ' ext tok htok
  unfold tokenKeyValue at hkv
  split_ifs at hkv
  simp only [Option.some.injEq, Prod.mk.injEq] at hkv
  obtain ⟨rfl, rfl⟩ := hkv
  refine ⟨fun hm => hns ((List.takeWhile_prefix _).subset hm), fun hm => hns ?_⟩
  exact (List.dropWhile_suffix _).subset (List.mem_of_mem_drop hm)

/-! ## The timestamp of a CEF record -/

/-- C31 (as amended): a line the CEF parser accepts is
`CEF:ver|vendor|product|dver|sig|name|sev|ext` and the timestamp of its event
is: the parsed value of the extension `rt` when `rt` is present and parses, the
processing time when `rt` is present and does not parse; without `rt`, the
parsed value of `end` when `end` is present and parses; otherwise the processing
time. This is the order rt, end, processing time as worded whenever an `rt`
that does not parse comes without an `end` that parses. -/
theorem C31_cef_timestamp_order {Time : Type} (lib : Lib Time) (call : Call Time)
    (raw : Str) (ev : GOSTEvent Time) (h : CEFParser.Parse lib call raw = .ok ev) :
    ∃ ver vendor product dver sig name sev ext : Str,
      raw = cefLineOf ver vendor product dver sig name sev ext ∧ isDigits ver = true ∧
        noPipe vendor = true ∧ noPipe product = true ∧ noPipe dver = true ∧ noPipe sig = true ∧
        noPipe name = true ∧ noPipe sev = true ∧ noNewline ext = true ∧
        ev.Timestamp =
          cefTimestampRule (CEFParser.parseTimestamp lib) call.now
            (CEFParser.parseExtensions ext) ∧
        ((∀ rt, (CEFParser.parseExtensions ext).get? "rt".toList = some rt →
            CEFParser.parseTimestamp lib rt = none →
            ((CEFParser.parseExtensions ext).get? "end".toList).bind
              (CEFParser.parseTimestamp lib) = none) →
          ev.Timestamp =
            cefTimestampAsWorded (CEFParser.parseTimestamp lib) call.now
              (CEFParser.parseExtensions ext)) := by
  cases hf : FindStringSubmatch cefPattern 8 raw with
  | none =>
    unfold CEFParser.Parse at h
    rw [hf] at h
    cases h
  | some m =>
    obtain ⟨ver, vendor, product, dver, sig, name, sev, ext, rfl, h1, h2, h3, h4, h5, h6, h7,
      h8⟩ := parser.cefPattern_sound raw m hf
    have hg := parser.cefPattern_groups ver vendor product dver sig name sev ext h1 h2 h3 h4 h5
      h6 h7 h8
    refine ⟨ver, vendor, product, dver, sig, name, sev, ext, rfl, h1, h2, h3, h4, h5, h6, h7,
      h8, ?_⟩
    unfold CEFParser.Parse at h
    rw [hg] at h
    injection h with h
    subst h
    have hrule : (match (CEFParser.parseExtensions ext).get? "rt".toList with
        | some rt => (CEFParser.parseTimestamp lib rt).getD call.now
        | none =>
          match (CEFParser.parseExtensions ext).get? "end".toList with
          | some end_ => (CEFParser.parseTimestamp lib end_).getD call.now
          | none => call.now) =
        cefTimestampRule (CEFParser.parseTimestamp lib) call.now
          (CEFParser.parseExtensions ext) := rfl
    refine ⟨hrule, ?_⟩
    intro hw
    show (match (CEFParser.parseExtensions ext).get? "rt".toList with
        | some rt => (CEFParser.parseTimestamp lib rt).getD call.now
        | none =>
          match (CEFParser.parseExtensions ext).get? "end".toList with
          | some end_ => (CEFParser.parseTimestamp lib end_).getD call.now
          | none => call.now) = _
    unfold cefTimestampAsWorded
    cases hrt : (CEFParser.parseExtensions ext).get? "rt".toList with
    | none =>
      simp only [Option.none_bind]
      cases hend : (CEFParser.parseExtensions ext).get? "end".toList with
      | none => rfl
      | some e =>
        simp only [Option.some_bind]
        cases CEFParser.parseTimestamp lib e <;> rfl
    | some rt =>
      simp only [Option.some_bind]
      cases hp : CEFParser.parseTimestamp lib rt with
      | some t => rfl
      | none =>
        have := hw rt hrt hp
        simp only [this, Option.getD_none]

/-- C31 at a line whose only timestamp extension is `end`, a count of
milliseconds. -/
theorem C31_cef_timestamp_order_witness :
    ∃ ev, CEFParser.Parse (exampleLib (.error [])) exampleCall
        "CEF:0|V|P|1|1|n|5|end=1000".toList = .ok ev ∧
      ev.Timestamp = 1000000000 ∧
      ∃ ver vendor product dver sig name sev ext : Str,
        "CEF:0|V|P|1|1|n|5|end=1000".toList =
            cefLineOf ver vendor product dver sig name sev ext ∧ isDigits ver = true ∧
          noPipe vendor = true ∧ noPipe product = true ∧ noPipe dver = true ∧
          noPipe sig = true ∧ noPipe name = true ∧ noPipe sev = true ∧ noNewline ext = true ∧
          ev.Timestamp =
            cefTimestampRule (CEFParser.parseTimestamp (exampleLib (.error []))) exampleCall.now
              (CEFParser.parseExtensions ext) ∧
          ((∀ rt, (CEFParser.parseExtensions ext).get? "rt".toList = some rt →
              CEFParser.parseTimestamp (exampleLib (.error [])) rt = none →
              ((CEFParser.parseExtensions ext).get? "end".toList).bind
                (CEFParser.parseTimestamp (exampleLib (.error []))) = none) →
            ev.Timestamp =
              cefTimestampAsWorded (CEFParser.parseTimestamp (exampleLib (.error [])))
                exampleCall.now (CEFParser.parseExtensions ext)) :=
  ⟨_, rfl, by decide,
    C31_cef_timestamp_order (exampleLib (.error [])) exampleCall
      "CEF:0|V|P|1|1|n|5|end=1000".toList _ rfl⟩

/-- C31 fails as stated: with `rt=abc`, which does not parse, and `end=1000`,
which parses, the event has the processing time and not the parsed value of
`end`. -/
theorem C31_end_not_consulted_after_rt :
    ∃ ev, CEFParser.Parse (exampleLib (.error [])) exampleCall cefBadRtLine = .ok ev ∧
      ev.Timestamp = exampleCall.now ∧
      CEFParser.parseTimestamp (exampleLib (.error [])) "abc".toList = none ∧
      CEFParser.parseTimestamp (exampleLib (.error [])) "1000".toList = some 1000000000 ∧
      cefTimestampAsWorded (CEFParser.parseTimestamp (exampleLib (.error []))) exampleCall.now
        (CEFParser.parseExtensions "rt=abc end=1000".toList) = 1000000000 ∧
      ev.Timestamp ≠
        cefTimestampAsWorded (CEFParser.parseTimestamp (exampleLib (.error []))) exampleCall.now
          (CEFParser.parseExtensions "rt=abc end=1000".toList) :=
  ⟨_, rfl, by decide, by decide, by decide, by decide, by decide⟩

/-! ## The address of the source of an XML record -/

theorem Spec.find?_congr (p q : Data → Bool) :
    ∀ (data : List Data), (∀ d ∈ data, p d = q d) → data.find? p = data.find? q
  | [], _ => rfl
  | d :: rest, h => by
    have ih := Spec.find?_congr p q rest (fun x hx => h x (List.mem_cons_of_mem _ hx))
    have hd := h d (List.mem_cons_self _ _)
    simp only [List.find?_cons, hd, ih]

/-- The address of the source after `enrichEventFromEventData`. -/
theorem parser.XMLParser.enrich_address {Time : Type} (tbl : Char → Char) :
    ∀ (data : List Data) (g : GOSTEvent Time),
      (XMLParser.enrichEventFromEventData tbl g data).Source.IPAddress =
        if g.Source.IPAddress = [] then
          valueOfFirst (fun d =>
            namesAddress tbl d && !namesUser tbl d && !namesDomain tbl d && !d.Value.isEmpty) data
        else g.Source.IPAddress
  | [], g => by
    simp only [XMLParser.enrichEventFromEventData, valueOfFirst, List.find?_nil]
    split_ifs with h
    · exact h
    · rfl
  | d :: rest, g => by
    have hU : (Contains (ToLower tbl d.Name) "targetusername".toList ||
        Contains (ToLower tbl d.Name) "subjectusername".toList) = namesUser tbl d := by
      simp only [namesUser, Spec.containsFold_eq]
    have hD : (Contains (ToLower tbl d.Name) "targetdomainname".toList ||
        Contains (ToLower tbl d.Name) "subjectdomainname".toList) = namesDomain tbl d := by
      simp only [namesDomain, Spec.containsFold_eq]
    have hA : (Contains (ToLower tbl d.Name) "ipaddress".toList ||
        Contains (ToLower tbl d.Name) "workstationname".toList) = namesAddress tbl d := by
      simp only [namesAddress, Spec.containsFold_eq]
    have ih : ∀ g' : GOSTEvent Time, _ := parser.XMLParser.enrich_address tbl rest
    unfold XMLParser.enrichEventFromEventData
    simp only [hU, hD, hA]
    by_cases hu : namesUser tbl d = true
    · rw [if_pos hu, ih]
      simp only [valueOfFirst, List.find?_cons, hu, Bool.not_true, Bool.and_false,
        Bool.false_and]
    · have hu' : namesUser tbl d = false := by simpa using hu
      rw [if_neg hu]
      by_cases hd : namesDomain tbl d = true
      · rw [if_pos hd, ih]
        simp only [valueOfFirst, List.find?_cons, hd, Bool.not_true, Bool.and_false,
          Bool.false_and]
      · have hd' : namesDomain tbl d = false := by simpa using hd
        rw [if_neg hd]
        by_cases ha : namesAddress tbl d = true
        · rw [if_pos ha]
          by_cases hg : g.Source.IPAddress = []
          · rw [if_pos hg, ih, if_pos hg]
            show (if d.Value = [] then _ else d.Value) = _
            by_cases hv : d.Value = []
            · rw [if_pos hv]
              simp only [valueOfFirst, List.find?_cons, hv, List.isEmpty_nil, Bool.not_true,
                Bool.and_false]
            · rw [if_neg hv]
              have hv2 : d.Value.isEmpty = false := by
                cases hdv : d.Value with
                | nil => exact absurd hdv hv
                | cons _ _ => rfl
              simp only [valueOfFirst, List.find?_cons, ha, hu', hd', hv2, Bool.not_false,
                Bool.and_self]
          · rw [if_neg hg, ih, if_neg hg, if_neg hg]
        · have ha' : namesAddress tbl d = false := by simpa using ha
          rw [if_neg ha]
          have hfind : valueOfFirst (fun d =>
              namesAddress tbl d && !namesUser tbl d && !namesDomain tbl d && !d.Value.isEmpty)
              (d :: rest) = valueOfFirst (fun d =>
              namesAddress tbl d && !namesUser tbl d && !namesDomain tbl d && !d.Value.isEmpty)
              rest := by
            simp only [valueOfFirst, List.find?_cons, ha', Bool.false_and]
          rw [hfind]
          split_ifs <;> rw [ih] <;> simp_all

/-- C32 (as amended): the address of the source of a decoded XML record is the
value of the first pair of `EventData`, in document order, whose name contains
`ipaddress` or `workstationname`, names neither a user nor a domain, and whose
value is not empty; it is empty without such a pair. When every pair that names
an address has a value and names neither a user nor a domain, this is the value
of the first pair that names an address. -/
theorem C32_xml_source_address {Time : Type} (lib : Lib Time) (call : Call Time)
    (raw : Str) (event : Event) (h : lib.xmlDecode raw = .ok event) :
    ∃ ev, XMLParser.Parse lib call raw = .ok ev ∧
      ev.Source.IPAddress = xmlAddressRule lib.unicodeLower event.EventData ∧
      ((∀ d ∈ event.EventData, namesAddress lib.unicodeLower d = true →
          namesUser lib.unicodeLower d = false ∧ namesDomain lib.unicodeLower d = false ∧
            d.Value ≠ []) →
        ev.Source.IPAddress = xmlAddressAsWorded lib.unicodeLower event.EventData) := by
  obtain ⟨ev, hev⟩ : ∃ ev, XMLParser.Parse lib call raw = .ok ev := by
    unfold XMLParser.Parse
    rw [h]
    exact ⟨_, rfl⟩
  have hrule : ev.Source.IPAddress = xmlAddressRule lib.unicodeLower event.EventData := by
    unfold XMLParser.Parse at hev
    rw [h] at hev
    injection hev with hev
    subst hev
    rw [parser.XMLParser.enrich_address, if_pos rfl]
    rfl
  refine ⟨ev, hev, hrule, ?_⟩
  intro hall
  rw [hrule]
  unfold xmlAddressRule xmlAddressAsWorded valueOfFirst
  rw [Spec.find?_congr _ (namesAddress lib.unicodeLower) event.EventData]
  intro d hd
  by_cases ha : namesAddress lib.unicodeLower d = true
  · obtain ⟨h1, h2, h3⟩ := hall d hd ha
    have hv2 : d.Value.isEmpty = false := by
      cases hdv : d.Value with
      | nil => exact absurd hdv h3
      | cons _ _ => rfl
    simp only [ha, h1, h2, hv2, Bool.not_false, Bool.and_self]
  · have ha' : namesAddress lib.unicodeLower d = false := by simpa using ha
    simp only [ha', Bool.false_and]

/-- C32 at a record with two pairs that name an address. -/
theorem C32_xml_source_address_witness :
    (exampleLib (.ok { EventData :=
        [{ Name := "IpAddress".toList, Value := "10.0.0.5".toList },
          { Name := "WorkstationName".toList, Value := "ws1".toList }] })).xmlDecode [] =
      .ok { EventData :=
        [{ Name := "IpAddress".toList, Value := "10.0.0.5".toList },
          { Name := "WorkstationName".toList, Value := "ws1".toList }] } ∧
    ∃ ev, XMLParser.Parse
        (exampleLib (.ok { EventData :=
          [{ Name := "IpAddress".toList, Value := "10.0.0.5".toList },
            { Name := "WorkstationName".toList, Value := "ws1".toList }] }))
        exampleCall [] = .ok ev ∧
      ev.Source.IPAddress = "10.0.0.5".toList :=
  ⟨rfl,
    (C32_xml_source_address
      (exampleLib (.ok { EventData :=
        [{ Name := "IpAddress".toList, Value := "10.0.0.5".toList },
          { Name := "WorkstationName".toList, Value := "ws1".toList }] }))
      exampleCall [] _ rfl).imp (fun _ h => ⟨h.1, h.2.1.trans (by decide)⟩)⟩

/-- C32 fails as stated: when the first pair that names an address has an empty
value, a later pair sets the address; and a pair whose name also holds
`TargetUserName` is not read as an address. -/
theorem C32_later_pair_sets_address :
    (∃ ev, XMLParser.Parse
        (exampleLib (.ok { EventData :=
          [{ Name := "IpAddress".toList, Value := [] },
            { Name := "WorkstationName".toList, Value := "ws1".toList }] }))
        exampleCall [] = .ok ev ∧
      ev.Source.IPAddress = "ws1".toList ∧
      xmlAddressAsWorded id
        [{ Name := "IpAddress".toList, Value := [] },
          { Name := "WorkstationName".toList, Value := "ws1".toList }] = []) ∧
    (∃ ev, XMLParser.Parse
        (exampleLib (.ok { EventData :=
          [{ Name := "TargetUserNameIpAddress".toList, Value := "a".toList },
            { Name := "IpAddress".toList, Value := "b".toList }] }))
        exampleCall [] = .ok ev ∧
      ev.Source.IPAddress = "b".toList ∧
      xmlAddressAsWorded id
        [{ Name := "TargetUserNameIpAddress".toList, Value := "a".toList },
          { Name := "IpAddress".toList, Value := "b".toList }] = "a".toList) :=
  ⟨⟨_, rfl, by decide, by decide⟩, ⟨_, rfl, by decide, by decide⟩⟩

/-! ## A batch made of two batches -/

/-- The events of the lines numbered from `n + i` on are the events of the lines
numbered from `i` on under the calls shifted by `n`. -/
theorem processor.events_shift {Time : Type} (lib : Lib Time) (calls : Nat → Call Time) (n : Nat) :
    ∀ (l : List Str) (i : Nat),
      (l.enumFrom (n + i)).filterMap (fun p =>
          match Process lib (calls p.1) p.2 with
          | .ok e => some e
          | .error _ => none) =
        (l.enumFrom i).filterMap (fun p =>
          match Process lib (calls (n + p.1)) p.2 with
          | .ok e => some e
          | .error _ => none)
  | [], _ => rfl
  | x :: xs, i => by
    have ih := processor.events_shift lib calls n xs (i + 1)
    rw [← Nat.add_assoc] at ih
    simp only [List.enumFrom_cons, List.filterMap_cons, ih]

theorem processor.errors_shift {Time : Type} (lib : Lib Time) (calls : Nat → Call Time) (n : Nat) :
    ∀ (l : List Str) (i : Nat),
      (l.enumFrom (n + i)).filterMap (fun p =>
          match Process lib (calls p.1) p.2 with
          | .ok _ => none
          | .error err => some (Error.line ((p.1 : Int) + 1) err)) =
        ((l.enumFrom i).filterMap (fun p =>
          match Process lib (calls (n + p.1)) p.2 with
          | .ok _ => none
          | .error err => some (Error.line ((p.1 : Int) + 1) err))).map (shiftLine n)
  | [], _ => rfl
  | x :: xs, i => by
    have ih := processor.errors_shift lib calls n xs (i + 1)
    rw [← Nat.add_assoc] at ih
    simp only [List.enumFrom_cons, List.filterMap_cons, ih]
    cases Process lib (calls (n + i)) x with
    | ok e => rfl
    | error err =>
      simp only [List.map_cons, shiftLine]
      congr 2
      push_cast
      omega

/-- C33: the batch `a ++ b` gives the events of `a` followed by the events of
`b`, and the errors of `a` followed by the errors of `b` with every line number
increased by the length of `a`, the lines of `b` reading the clock and the fresh
identifiers of their places in `a ++ b`; the events of a batch are the events of
its accepted lines in the order of the input; and a rejected first line leaves
the events of the lines after it as they are without it. -/
theorem C33_batch_of_two_batches {Time : Type} (lib : Lib Time) (calls : Nat → Call Time)
    (a b : List Str) :
    (ProcessBatch lib calls (a ++ b)).1 =
        (ProcessBatch lib calls a).1 ++
          (ProcessBatch lib (fun j => calls (a.length + j)) b).1 ∧
      (ProcessBatch lib calls (a ++ b)).2 =
        (ProcessBatch lib calls a).2 ++
          ((ProcessBatch lib (fun j => calls (a.length + j)) b).2).map (shiftLine a.length) ∧
      (ProcessBatch lib calls a).1 = acceptedEvents lib calls a ∧
      (∀ (x : Str) (err : Error), Process lib (calls 0) x = .error err →
        (ProcessBatch lib calls (x :: b)).1 = (ProcessBatch lib (fun j => calls (1 + j)) b).1 ∧
        (ProcessBatch lib calls (x :: b)).2 =
          Error.line 1 err ::
            ((ProcessBatch lib (fun j => calls (1 + j)) b).2).map (shiftLine 1)) := by
  have hev : ∀ (c : Nat → Call Time) (l : List Str), (ProcessBatch lib c l).1 =
      (l.enumFrom 0).filterMap (fun p =>
        match Process lib (c p.1) p.2 with
        | .ok e => some e
        | .error _ => none) := by
    intro c l
    unfold ProcessBatch
    rw [processor.processBatchLoop_eq]
    rfl
  have her : ∀ (c : Nat → Call Time) (l : List Str), (ProcessBatch lib c l).2 =
      (l.enumFrom 0).filterMap (fun p =>
        match Process lib (c p.1) p.2 with
        | .ok _ => none
        | .error err => some (Error.line ((p.1 : Int) + 1) err)) := by
    intro c l
    unfold ProcessBatch
    rw [processor.processBatchLoop_eq]
    rfl
  have h1 : ∀ (a b : List Str), (ProcessBatch lib calls (a ++ b)).1 =
      (ProcessBatch lib calls a).1 ++
        (ProcessBatch lib (fun j => calls (a.length + j)) b).1 := by
    intro a b
    rw [hev, hev, hev, List.enumFrom_append, List.filterMap_append, Nat.zero_add]
    have := processor.events_shift lib calls a.length b 0
    rw [Nat.add_zero] at this
    rw [this]
  have h2 : ∀ (a b : List Str), (ProcessBatch lib calls (a ++ b)).2 =
      (ProcessBatch lib calls a).2 ++
        ((ProcessBatch lib (fun j => calls (a.length + j)) b).2).map (shiftLine a.length) := by
    intro a b
    rw [her, her, her, List.enumFrom_append, List.filterMap_append, Nat.zero_add]
    have := processor.errors_shift lib calls a.length b 0
    rw [Nat.add_zero] at this
    rw [this]
  refine ⟨h1 a b, h2 a b, ?_, ?_⟩
  · rw [hev]
    rfl
  · intro x err hx
    have e1 := h1 [x] b
    have e2 := h2 [x] b
    have s1 : (ProcessBatch lib calls [x]).1 = [] := by
      simp [ProcessBatch, processBatchLoop, hx]
    have s2 : (ProcessBatch lib calls [x]).2 = [Error.line 1 err] := by
      simp [ProcessBatch, processBatchLoop, hx]
    rw [s1] at e1
    rw [s2] at e2
    exact ⟨e1, e2⟩

/-! ## Whitespace around a line -/

theorem Go.trimLeft_of_head : ∀ (s : Str), (∀ a ∈ s.head?, isSpace a = false) → trimLeft s = s
  | [], _ => rfl
  | c :: cs, h => by
    have hc : isSpace c = false := h c (by simp)
    simp [trimLeft, hc]

theorem Go.trimLeft_head : ∀ (s : Str), ∀ a ∈ (trimLeft s).head?, isSpace a = false
  | [], a, h => by simp [trimLeft] at h
  | c :: cs, a, h => by
    unfold trimLeft at h
    by_cases hc : isSpace c = true
    · rw [if_pos hc] at h
      exact Go.trimLeft_head cs a h
    · rw [if_neg hc] at h
      simp only [List.head?_cons, Option.mem_def, Option.some.injEq] at h
      subst h
      simpa using hc

theorem Go.trimLeft_suffix : ∀ (s : Str), trimLeft s <:+ s
  | [] => by simp [trimLeft]
  | c :: cs => by
    unfold trimLeft
    split_ifs
    · exact (Go.trimLeft_suffix cs).trans (List.suffix_cons c cs)
    · exact List.suffix_refl _

/-- Trimming a trimmed text changes nothing. -/
theorem Go.TrimSpace_idem (s : Str) : TrimSpace (TrimSpace s) = TrimSpace s := by
  unfold TrimSpace
  have hv : trimLeft (trimLeft (trimLeft s).reverse) = trimLeft (trimLeft s).reverse :=
    Go.trimLeft_of_head _ (Go.trimLeft_head _)
  have hA : trimLeft (trimLeft (trimLeft s).reverse).reverse =
      (trimLeft (trimLeft s).reverse).reverse := by
    apply Go.trimLeft_of_head
    intro a ha
    obtain ⟨t, ht⟩ := Go.trimLeft_suffix (trimLeft s).reverse
    have hu : trimLeft s = (trimLeft (trimLeft s).reverse).reverse ++ t.reverse := by
      have := congrArg List.reverse ht
      rw [List.reverse_append, List.reverse_reverse] at this
      exact this.symm
    apply Go.trimLeft_head s a
    rw [hu]
    cases hr : (trimLeft (trimLeft s).reverse).reverse with
    | nil => rw [hr] at ha; simp at ha
    | cons x xs =>
      rw [hr] at ha
      simpa using ha
  rw [hA, List.reverse_reverse, hv]

/-- C34: the detector gives a line the tag of the line without its leading and
trailing whitespace; a CEF line behind a blank is classified cef. -/
theorem C34_detect_ignores_whitespace (raw : Str) :
    DetectLogType raw = DetectLogType (TrimSpace raw) ∧
      HasPrefix " CEF:0|V|P|1|1|n|5|".toList "CEF:".toList = false ∧
      DetectLogType " CEF:0|V|P|1|1|n|5|".toList = LogTypeCEF ∧
      DetectLogType "\t<34>1 x \n".toList = DetectLogType "<34>1 x".toList := by
  refine ⟨?_, by decide, by decide, by decide⟩
  unfold DetectLogType
  rw [Go.TrimSpace_idem]

/-- A pattern that begins with `^` and a literal rune does not match a text that
begins with another rune. -/
theorem regexp.find_first_rune_none (a : Char) (r : Regex) (g : Nat) (c : Char) (s : Str)
    (h : c ≠ a) : FindStringSubmatch (.seq .bot (.seq (.chr a) r)) g (c :: s) = none := by
  refine regexp.find_anchored_none _ g _ ?_
  simp only [run, if_true, h, if_false]

/-- C35: a line that begins with a whitespace rune and that the detector
classifies cef, leef or syslog is rejected by `Process`: the parser receives the
line as it stands, and each of the four patterns asks for its first rune at the
start. -/
theorem C35_leading_whitespace_rejected {Time : Type} (lib : Lib Time) (call : Call Time)
    (c : Char) (rest : Str) (hc : isSpace c = true) :
    (DetectLogType (c :: rest) = LogTypeCEF → Process lib call (c :: rest) = .error .invalidCEF) ∧
      (DetectLogType (c :: rest) = LogTypeLEEF →
        Process lib call (c :: rest) = .error .invalidLEEF) ∧
      (DetectLogType (c :: rest) = LogTypeSyslog →
        Process lib call (c :: rest) = .error .unsupportedSyslog) ∧
      FindStringSubmatch cefPattern 8 (c :: rest) = none ∧
      FindStringSubmatch leefPattern 6 (c :: rest) = none ∧
      FindStringSubmatch RFC5424Pattern 9 (c :: rest) = none ∧
      FindStringSubmatch RFC3164Pattern 7 (c :: rest) = none := by
  have hC : c ≠ 'C' := by
    intro e; rw [e] at hc; revert hc; decide
  have hL : c ≠ 'L' := by
    intro e; rw [e] at hc; revert hc; decide
  have hlt : c ≠ '<' := by
    intro e; rw [e] at hc; revert hc; decide
  have h1 : FindStringSubmatch cefPattern 8 (c :: rest) = none :=
    regexp.find_first_rune_none 'C' _ 8 c rest hC
  have h2 : FindStringSubmatch leefPattern 6 (c :: rest) = none :=
    regexp.find_first_rune_none 'L' _ 6 c rest hL
  have h3 : FindStringSubmatch RFC5424Pattern 9 (c :: rest) = none :=
    regexp.find_first_rune_none '<' _ 9 c rest hlt
  have h4 : FindStringSubmatch RFC3164Pattern 7 (c :: rest) = none :=
    regexp.find_first_rune_none '<' _ 7 c rest hlt
  refine ⟨?_, ?_, ?_, h1, h2, h3, h4⟩
  · intro hd
    unfold Process
    rw [hd]
    show CEFParser.Parse lib call (c :: rest) = _
    unfold CEFParser.Parse
    rw [h1]
  · intro hd
    unfold Process
    rw [hd]
    show LEEFParser.Parse lib call (c :: rest) = _
    unfold LEEFParser.Parse
    rw [h2]
  · intro hd
    unfold Process
    rw [hd]
    show SyslogParser.Parse lib call (c :: rest) = _
    unfold SyslogParser.Parse
    rw [h3, h4]

/-- C35 at a CEF line, a LEEF line and a syslog line behind a blank. -/
theorem C35_leading_whitespace_rejected_witness :
    isSpace ' ' = true ∧
      DetectLogType " CEF:0|V|P|1|1|n|5|".toList = LogTypeCEF ∧
      Process (exampleLib (.error [])) exampleCall " CEF:0|V|P|1|1|n|5|".toList =
        .error .invalidCEF ∧
      DetectLogType (' ' :: leefV2Line) = LogTypeLEEF ∧
      Process (exampleLib (.error [])) exampleCall (' ' :: leefV2Line) = .error .invalidLEEF ∧
      DetectLogType (' ' :: rfc3164Line) = LogTypeSyslog ∧
      Process (exampleLib (.error [])) exampleCall (' ' :: rfc3164Line) =
        .error .unsupportedSyslog :=
  ⟨by decide, by decide,
    (C35_leading_whitespace_rejected (exampleLib (.error [])) exampleCall ' '
      "CEF:0|V|P|1|1|n|5|".toList (by decide)).1 (by decide),
    by decide,
    (C35_leading_whitespace_rejected (exampleLib (.error [])) exampleCall ' ' leefV2Line
      (by decide)).2.1 (by decide),
    by decide,
    (C35_leading_whitespace_rejected (exampleLib (.error [])) exampleCall ' ' rfc3164Line
      (by decide)).2.2.1 (by decide)⟩

/-! ## Severity tokens in decimal -/

theorem Go.digitChar_isDigit (k : Nat) (h : k < 10) :
    isDigit (Nat.digitChar k) = true ∧ (Nat.digitChar k).toNat - 48 = k := by
  interval_cases k <;> decide

/-- The digits `toDigitsCore` puts before `ds`: a non-empty run of decimal
digits whose value is `n`. -/
theorem Go.toDigitsCore_spec :
    ∀ (fuel n : Nat) (ds : List Char), n < fuel →
      ∃ pre, Nat.toDigitsCore 10 fuel n ds = pre ++ ds ∧ pre ≠ [] ∧
        (∀ a ∈ pre, isDigit a = true) ∧ decimalValue pre = n
  | 0, _, _, h => absurd h (Nat.not_lt_zero _)
  | fuel + 1, n, ds, h => by
    have hd := Go.digitChar_isDigit (n % 10) (Nat.mod_lt _ (by decide))
    unfold Nat.toDigitsCore
    simp only []
    by_cases h0 : n / 10 = 0
    · rw [if_pos h0]
      refine ⟨[Nat.digitChar (n % 10)], rfl, by simp, ?_, ?_⟩
      · intro a ha
        rw [List.mem_singleton] at ha
        rw [ha]
        exact hd.1
      · simp only [decimalValue, List.foldl_cons, List.foldl_nil, Nat.zero_mul, Nat.zero_add]
        rw [hd.2]
        omega
    · rw [if_neg h0]
      obtain ⟨pre, hpre, hne, hdig, hval⟩ :=
        Go.toDigitsCore_spec fuel (n / 10) (Nat.digitChar (n % 10) :: ds) (by omega)
      refine ⟨pre ++ [Nat.digitChar (n % 10)], by rw [hpre]; simp, by simp, ?_, ?_⟩
      · intro a ha
        rcases List.mem_append.mp ha with ha | ha
        · exact hdig a ha
        · rw [List.mem_singleton] at ha
          rw [ha]
          exact hd.1
      · unfold decimalValue at hval ⊢
        rw [List.foldl_append, hval]
        simp only [List.foldl_cons, List.foldl_nil]
        rw [hd.2]
        omega

theorem Go.toDigits_spec (n : Nat) :
    Nat.toDigits 10 n ≠ [] ∧ (∀ a ∈ Nat.toDigits 10 n, isDigit a = true) ∧
      decimalValue (Nat.toDigits 10 n) = n := by
  obtain ⟨pre, hpre, hne, hdig, hval⟩ := Go.toDigitsCore_spec (n + 1) n [] (Nat.lt_succ_self n)
  unfold Nat.toDigits
  rw [hpre, List.append_nil]
  exact ⟨hne, hdig, hval⟩

/-- The result of `ParseUint` on a non-empty run of decimal digits. -/
theorem Go.ParseUint_digits (s : Str) (hne : s ≠ []) (h : ∀ a ∈ s, isDigit a = true) :
    ParseUint s =
      if decimalValue s ≤ 2 ^ 64 - 1 then (decimalValue s, none)
      else (2 ^ 64 - 1, some .outOfRange) := by
  have hloop := Go.parseUintLoop_digits s 0 (by decide) h
  cases s with
  | nil => exact absurd rfl hne
  | cons c cs =>
    unfold ParseUint
    simp only [hloop]
    unfold decimalValue
    split_ifs <;> rfl

/-- The result of `Atoi` on the decimal text of an integer. -/
theorem Go.Atoi_formatInt (n : Int) :
    Atoi (formatInt n) =
      if n < -(2 : Int) ^ 63 then (-(2 : Int) ^ 63, some .outOfRange)
      else if (2 : Int) ^ 63 ≤ n then ((2 : Int) ^ 63 - 1, some .outOfRange)
      else (n, none) := by
  obtain ⟨hne, hdig, hval⟩ := Go.toDigits_spec n.natAbs
  have hpu := Go.ParseUint_digits _ hne hdig
  rw [hval] at hpu
  unfold formatInt
  by_cases hneg : n < 0
  · rw [if_pos hneg]
    unfold Atoi ParseInt
    simp only [beq_self_eq_true, Bool.or_true, if_true, hpu]
    by_cases hr : n.natAbs ≤ 2 ^ 64 - 1
    · rw [if_pos hr]
      simp only [Bool.not_true, Bool.false_and, Bool.false_eq_true, if_false, Bool.true_and,
        decide_eq_true_eq]
      by_cases hb : n.natAbs > 2 ^ 63
      · rw [if_pos hb, if_pos (by omega)]
      · rw [if_neg hb, if_neg (by omega), if_neg (by omega)]
        congr 1
        omega
    · rw [if_neg hr]
      simp only [Bool.not_true, Bool.false_and, Bool.false_eq_true, if_false, Bool.true_and,
        decide_eq_true_eq]
      rw [if_pos (by decide), if_pos (by omega)]
  · rw [if_neg hneg]
    cases hs : Nat.toDigits 10 n.natAbs with
    | nil => exact absurd hs hne
    | cons c cs =>
      have hc : isDigit c = true := hdig c (by rw [hs]; simp)
      have hc' := hc
      simp only [isDigit, Bool.and_eq_true, decide_eq_true_eq] at hc'
      have hplus : (c == '+') = false := by
        rw [beq_eq_false_iff_ne]; intro e; rw [e] at hc'; revert hc'; decide
      have hminus : (c == '-') = false := by
        rw [beq_eq_false_iff_ne]; intro e; rw [e] at hc'; revert hc'; decide
      rw [hs] at hpu
      unfold Atoi ParseInt
      simp only [hplus, hminus, Bool.or_self, Bool.false_eq_true, if_false, hpu]
      by_cases hr : n.natAbs ≤ 2 ^ 64 - 1
      · rw [if_pos hr]
        simp only [Bool.not_false, Bool.true_and, decide_eq_true_eq, Bool.false_and,
          Bool.false_eq_true, if_false]
        by_cases hb : n.natAbs ≥ 2 ^ 63
        · rw [if_pos hb, if_neg (by omega), if_pos (by omega)]
        · rw [if_neg hb, if_neg (by omega), if_neg (by omega)]
          congr 1
          omega
      · rw [if_neg hr]
        simp only [Bool.not_false, Bool.true_and, decide_eq_true_eq, Bool.false_and,
          Bool.false_eq_true, if_false]
        rw [if_pos (by decide), if_neg (by omega), if_pos (by omega)]

theorem Spec.severityRank_rule (n : Int) :
    severityRank (cefSeverityRule n) =
      if n ≥ 8 then 4 else if n ≥ 6 then 3 else if n ≥ 4 then 2 else if n ≥ 2 then 1 else 0 := by
  unfold cefSeverityRule
  split_ifs <;> first | decide | omega

/-- C36 (as amended): for integers `a <= b` within the range of `int`, written
in decimal as severity tokens, the severity of `a` is not above the severity of
`b` in the order info, low, medium, high, critical; the severity of such a token
is the one the thresholds give its number. -/
theorem C36_cef_severity_monotone (a b : Int) (ha : inInt64 a) (hb : inInt64 b) (hab : a ≤ b) :
    severityRank (CEFParser.mapCEFSeverityToGOST (formatInt a)) ≤
        severityRank (CEFParser.mapCEFSeverityToGOST (formatInt b)) ∧
      CEFParser.mapCEFSeverityToGOST (formatInt a) = cefSeverityRule a ∧
      CEFParser.mapCEFSeverityToGOST (formatInt b) = cefSeverityRule b := by
  have hmap : ∀ n : Int, inInt64 n →
      CEFParser.mapCEFSeverityToGOST (formatInt n) = cefSeverityRule n := by
    intro n hn
    unfold inInt64 at hn
    have hA := Go.Atoi_formatInt n
    rw [if_neg (by omega), if_neg (by omega)] at hA
    unfold CEFParser.mapCEFSeverityToGOST cefSeverityRule
    rw [hA]
    simp only []
    split_ifs <;> first | rfl | omega
  refine ⟨?_, hmap a ha, hmap b hb⟩
  rw [hmap a ha, hmap b hb, Spec.severityRank_rule, Spec.severityRank_rule]
  split_ifs <;> omega

/-- C36 at the tokens `3` and `7`. -/
theorem C36_cef_severity_monotone_witness :
    inInt64 3 ∧ inInt64 7 ∧ formatInt 3 = "3".toList ∧ formatInt 7 = "7".toList ∧
      severityRank (CEFParser.mapCEFSeverityToGOST (formatInt 3)) ≤
        severityRank (CEFParser.mapCEFSeverityToGOST (formatInt 7)) ∧
      CEFParser.mapCEFSeverityToGOST (formatInt 3) = SeverityLow ∧
      CEFParser.mapCEFSeverityToGOST (formatInt 7) = SeverityHigh :=
  ⟨by unfold inInt64; decide, by unfold inInt64; decide, by decide, by decide,
    (C36_cef_severity_monotone 3 7 (by unfold inInt64; decide) (by unfold inInt64; decide)
      (by decide)).1,
    (C36_cef_severity_monotone 3 7 (by unfold inInt64; decide) (by unfold inInt64; decide)
      (by decide)).2.1.trans (by decide),
    (C36_cef_severity_monotone 3 7 (by unfold inInt64; decide) (by unfold inInt64; decide)
      (by decide)).2.2.trans (by decide)⟩

/-- C36 fails as stated: 9 is below 2^63, the token `9` is critical, and the
token of 2^63 is past the range of `int`, so that `Atoi` fails and the severity
is info. -/
theorem C36_token_past_int_range :
    (9 : Int) ≤ 9223372036854775808 ∧
      formatInt 9 = "9".toList ∧
      formatInt 9223372036854775808 = "9223372036854775808".toList ∧
      CEFParser.mapCEFSeverityToGOST "9".toList = SeverityCritical ∧
      CEFParser.mapCEFSeverityToGOST "9223372036854775808".toList = SeverityInfo ∧
      ¬ severityRank (CEFParser.mapCEFSeverityToGOST (formatInt 9)) ≤
        severityRank (CEFParser.mapCEFSeverityToGOST (formatInt 9223372036854775808)) := by
  decide

/-! ## Severity over the syslog forwarder -/

/-- C37 fails as stated: for the severity info the forwarder writes the priority
134, of facility 16 and level 6, and the syslog parser reads the level 6 as low,
so info comes back as low; the facility is 16 for every severity of the scale,
and critical, high, medium and low come back as they were sent. -/
theorem C37_info_comes_back_as_low :
    SeverityInfo ∈ severities ∧ calculatePriority SeverityInfo = 134 ∧
      Int.tdiv (calculatePriority SeverityInfo) 8 = 16 ∧
      Int.tmod (calculatePriority SeverityInfo) 8 = 6 ∧
      SyslogParser.mapSyslogSeverityToGOST (calculatePriority SeverityInfo) = SeverityLow ∧
      SyslogParser.mapSyslogSeverityToGOST (calculatePriority SeverityInfo) ≠ SeverityInfo ∧
      (∀ s ∈ severities, Int.tdiv (calculatePriority s) 8 = 16) ∧
      (∀ s ∈ [SeverityCritical, SeverityHigh, SeverityMedium, SeverityLow],
        SyslogParser.mapSyslogSeverityToGOST (calculatePriority s) = s) := by
  refine ⟨by decide, by decide, by decide, by decide, by decide, by decide, ?_, ?_⟩
  · intro s hs
    simp only [severities, List.mem_cons, List.mem_singleton, List.not_mem_nil, or_false] at hs
    rcases hs with rfl | rfl | rfl | rfl | rfl <;> decide
  · intro s hs
    simp only [List.mem_cons, List.mem_singleton, List.not_mem_nil, or_false] at hs
    rcases hs with rfl | rfl | rfl | rfl <;> decide

/-- C37 (as amended): for every severity of the five-level scale the priority
the forwarder writes has the facility 16; the severity mapping of the syslog
parser gives critical, high, medium and low back as they were sent, and gives
low for info, which the forwarder writes as level 6. -/
theorem C37_severity_over_syslog (s : Str) (hs : s ∈ severities) :
    Int.tdiv (calculatePriority s) 8 = 16 ∧
      SyslogParser.mapSyslogSeverityToGOST (calculatePriority s) = severityAfterForwarding s ∧
      (s ≠ SeverityInfo → SyslogParser.mapSyslogSeverityToGOST (calculatePriority s) = s) ∧
      (s = SeverityInfo →
        Int.tmod (calculatePriority s) 8 = 6 ∧
          SyslogParser.mapSyslogSeverityToGOST (calculatePriority s) = SeverityLow) := by
  simp only [severities, List.mem_cons, List.mem_singleton, List.not_mem_nil, or_false] at hs
  rcases hs with rfl | rfl | rfl | rfl | rfl <;> decide

/-- C37 (as amended) at the severity high, sent as level 3 and read back as high. -/
theorem C37_severity_over_syslog_witness :
    SeverityHigh ∈ severities ∧ calculatePriority SeverityHigh = 131 ∧
      Int.tdiv (calculatePriority SeverityHigh) 8 = 16 ∧
      SyslogParser.mapSyslogSeverityToGOST (calculatePriority SeverityHigh) = SeverityHigh :=
  ⟨by decide, by decide, (C37_severity_over_syslog SeverityHigh (by decide)).1,
    (C37_severity_over_syslog SeverityHigh (by decide)).2.2.1 (by decide)⟩

/-! ## The parts of a LEEF attribute string -/

theorem Go.join_cons_cons (sep a b : Str) (l : List Str) :
    Join (a :: b :: l) sep = a ++ sep ++ Join (b :: l) sep := by
  simp [Join, List.intercalate, List.intersperse, List.flatten_cons]

theorem Go.join_singleton (sep a : Str) : Join [a] sep = a := by
  simp [Join, List.intercalate, List.intersperse]

theorem Go.join_cons_head (sep : Str) (c : Char) (a : Str) (l : List Str) :
    Join ((c :: a) :: l) sep = c :: Join (a :: l) sep := by
  cases l with
  | nil => rw [Go.join_singleton, Go.join_singleton]
  | cons b l => rw [Go.join_cons_cons, Go.join_cons_cons]; rfl

theorem Go.prefix_join (sep a : Str) (l : List Str) : a <+: Join (a :: l) sep := by
  cases l with
  | nil => rw [Go.join_singleton]
  | cons b l =>
    rw [Go.join_cons_cons, List.append_assoc]
    exact List.prefix_append _ _

/-- The runes of a match found earlier are dropped. -/
theorem Go.replaceAllFrom_skip (old new : Str) (rest : Str) :
    ∀ (pre : Str), replaceAllFrom old new (pre ++ rest) pre.length = replaceAllFrom old new rest 0
  | [] => rfl
  | c :: pre => by
    rw [List.cons_append, List.length_cons, replaceAllFrom]
    exact Go.replaceAllFrom_skip old new rest pre

/-- What `ReplaceAll` does: the text is a run of segments free of `old` joined
by `old`, and the result is the same segments joined by `new`. -/
theorem Go.replaceAllFrom_spec (old new : Str) (hold : old ≠ []) :
    ∀ (n : Nat) (s : Str), s.length ≤ n →
      ∃ seg segs, s = Join (seg :: segs) old ∧
        replaceAllFrom old new s 0 = Join (seg :: segs) new ∧
        ∀ g ∈ seg :: segs, ¬ old <:+: g := by
  have hnil : ∃ seg segs, ([] : Str) = Join (seg :: segs) old ∧
      replaceAllFrom old new [] 0 = Join (seg :: segs) new ∧
      ∀ g ∈ seg :: segs, ¬ old <:+: g := by
    refine ⟨[], [], by rw [Go.join_singleton], by rw [Go.join_singleton]; rfl, ?_⟩
    intro g hg
    simp only [List.mem_singleton] at hg
    subst hg
    intro h
    exact hold (List.infix_nil.mp h)
  intro n
  induction n with
  | zero =>
    intro s hs
    have : s = [] := List.length_eq_zero.mp (Nat.le_zero.mp hs)
    subst this
    exact hnil
  | succ n ih =>
    intro s hs
    cases s with
    | nil => exact hnil
    | cons c cs =>
      have hcs : cs.length ≤ n := by simpa using hs
      by_cases hp : old.isPrefixOf (c :: cs) = true
      · obtain ⟨rest, hrest⟩ := List.isPrefixOf_iff_prefix.mp hp
        obtain ⟨o, olds, hold'⟩ := List.exists_cons_of_ne_nil hold
        subst hold'
        simp only [List.cons_append, List.cons.injEq] at hrest
        obtain ⟨ho, hcs'⟩ := hrest
        have hlen : rest.length ≤ n := by
          have := congrArg List.length hcs'
          simp only [List.length_append] at this
          omega
        obtain ⟨seg, segs, h1, h2, h3⟩ := ih rest hlen
        refine ⟨[], seg :: segs, ?_, ?_, ?_⟩
        · rw [Go.join_cons_cons, ← h1, ← hcs', ho]
          rfl
        · rw [replaceAllFrom, if_pos hp, Go.join_cons_cons, ← h2, ← hcs']
          simp only [List.length_cons, Nat.add_sub_cancel, List.nil_append]
          rw [Go.replaceAllFrom_skip]
        · intro g hg
          rcases List.mem_cons.mp hg with rfl | hg
          · intro h
            exact hold (List.infix_nil.mp h)
          · exact h3 g hg
      · obtain ⟨seg, segs, h1, h2, h3⟩ := ih cs hcs
        refine ⟨c :: seg, segs, ?_, ?_, ?_⟩
        · rw [Go.join_cons_head, ← h1]
        · rw [replaceAllFrom, if_neg hp, Go.join_cons_head, ← h2]
        · intro g hg
          rcases List.mem_cons.mp hg with rfl | hg
          · intro h
            rcases List.infix_cons_iff.mp h with h | h
            · apply hp
              rw [List.isPrefixOf_iff_prefix]
              refine h.trans ?_
              rw [h1]
              exact (List.prefix_cons_inj c).mpr (Go.prefix_join old seg segs)
            · exact h3 seg (by simp) h
          · exact h3 g (List.mem_cons_of_mem _ hg)

theorem Go.ReplaceAll_spec (s old new : Str) (hold : old ≠ []) :
    ∃ segs, s = Join segs old ∧ ReplaceAll s old new = Join segs new ∧
      ∀ g ∈ segs, Contains g old = false := by
  obtain ⟨seg, segs, h1, h2, h3⟩ := Go.replaceAllFrom_spec old new hold s.length s (Nat.le_refl _)
  refine ⟨seg :: segs, h1, h2, ?_⟩
  intro g hg
  cases hc : Contains g old with
  | false => rfl
  | true => exact absurd ((Go.contains_iff_infix old g).mp hc) (h3 g hg)

theorem Go.trimLeft_spaces : ∀ (s : Str), ∃ l, s = l ++ trimLeft s ∧ ∀ c ∈ l, isSpace c = true
  | [] => ⟨[], rfl, by simp⟩
  | c :: cs => by
    unfold trimLeft
    by_cases hc : isSpace c = true
    · rw [if_pos hc]
      obtain ⟨l, hl, hsp⟩ := Go.trimLeft_spaces cs
      refine ⟨c :: l, by rw [List.cons_append, ← hl], ?_⟩
      intro x hx
      rcases List.mem_cons.mp hx with rfl | hx
      · exact hc
      · exact hsp x hx
    · rw [if_neg hc]
      exact ⟨[], rfl, by simp⟩

/-- What `TrimSpace` does: it takes a run of whitespace off each end of the text,
and what is left neither begins nor ends with whitespace. -/
theorem Go.TrimSpace_spec (s : Str) :
    ∃ l r, s = l ++ TrimSpace s ++ r ∧ (∀ c ∈ l, isSpace c = true) ∧
      (∀ c ∈ r, isSpace c = true) ∧ (∀ c ∈ (TrimSpace s).head?, isSpace c = false) ∧
      (∀ c ∈ (TrimSpace s).getLast?, isSpace c = false) := by
  obtain ⟨l, hl, hlsp⟩ := Go.trimLeft_spaces s
  obtain ⟨r, hr, hrsp⟩ := Go.trimLeft_spaces (trimLeft s).reverse
  have hu : trimLeft s = TrimSpace s ++ r.reverse := by
    have := congrArg List.reverse hr
    rw [List.reverse_reverse, List.reverse_append] at this
    exact this
  refine ⟨l, r.reverse, ?_, hlsp, ?_, ?_, ?_⟩
  · rw [List.append_assoc, ← hu]
    exact hl
  · intro c hc
    exact hrsp c (List.mem_reverse.mp hc)
  · intro c hc
    apply Go.trimLeft_head s c
    rw [hu]
    cases ht : TrimSpace s with
    | nil => rw [ht] at hc; simp at hc
    | cons x xs =>
      rw [ht] at hc
      simpa using hc
  · intro c hc
    apply Go.trimLeft_head (trimLeft s).reverse c
    unfold TrimSpace at hc
    rw [List.getLast?_reverse] at hc
    exact hc

/-- The key and the value of a part with a `=`: the part is the key between two
runs of whitespace, its first `=`, and the value between two runs of
whitespace; neither the key nor the value begins or ends with whitespace. -/
theorem Spec.keyValueOf_spec (part k val : Str) (h : keyValueOf part = some (k, val)) :
    ∃ l r l' r' : Str, part = (l ++ k ++ r) ++ '=' :: (l' ++ val ++ r') ∧
      '=' ∉ l ++ k ++ r ∧
      (∀ c ∈ l, isSpace c = true) ∧ (∀ c ∈ r, isSpace c = true) ∧
      (∀ c ∈ l', isSpace c = true) ∧ (∀ c ∈ r', isSpace c = true) ∧
      (∀ c ∈ k.head?, isSpace c = false) ∧ (∀ c ∈ k.getLast?, isSpace c = false) ∧
      (∀ c ∈ val.head?, isSpace c = false) ∧ (∀ c ∈ val.getLast?, isSpace c = false) := by
  unfold keyValueOf at h
  by_cases hm : '=' ∈ part
  · rw [if_pos hm] at h
    obtain ⟨pre, post, rfl, hpre⟩ := List.eq_append_cons_of_mem hm
    obtain ⟨h4, h5⟩ := Go.takeWhile_ne_append '=' post pre hpre
    rw [h4, h5] at h
    simp only [List.drop_succ_cons, List.drop_zero, Option.some.injEq, Prod.mk.injEq] at h
    obtain ⟨hk, hv⟩ := h
    obtain ⟨l, r, e1, s1, s2, s3, s4⟩ := Go.TrimSpace_spec pre
    obtain ⟨l', r', e2, t1, t2, t3, t4⟩ := Go.TrimSpace_spec post
    rw [hk] at e1 s3 s4
    rw [hv] at e2 t3 t4
    refine ⟨l, r, l', r', ?_, ?_, s1, s2, t1, t2, s3, s4, t3, t4⟩
    · rw [← e1, ← e2]
    · rw [← e1]
      exact hpre
  · rw [if_neg hm] at h
    cases h

/-- C17: the attribute map of a LEEF record is built from the parts of the
attribute string, each part with a `=` contributing the trimmed text before its
first `=` as key and the trimmed text after it as value. For version `2.0` and an
attribute string with the literal `x09`, the string is a run of segments free of
`x09` joined by `x09`, and the parts are those of the same segments joined by
tabs, split on tabs; for version `2.0` with a `^` and no `x09` the parts are those
of the split on `^`, and a tab does not delimit; in every other case the parts
are those of the split on tabs. The parts of a split are free of the separator
and joined by it give the text back; a key or a value is what stands between two
runs of whitespace and neither begins nor ends with whitespace. Version "2.0"
with "usrName=admin^action=login^result=success" gives the three attributes
usrName=admin, action=login, result=success. -/
theorem C17_leef_attribute_parts (v a : Str) :
    LEEFParser.parseAttributes a v = attributesOfParts (leefPartsRule v a) ∧
      leefPartsRule "2.0".toList "usrName=admin^action=login^result=success".toList =
        ["usrName=admin".toList, "action=login".toList, "result=success".toList] ∧
      leefPartsRule "2.0".toList "a=1\tb=2^c=3".toList = ["a=1\tb=2".toList, "c=3".toList] ∧
      (LEEFParser.parseAttributes "usrName=admin^action=login^result=success".toList
          "2.0".toList).get? "usrName".toList = some "admin".toList ∧
      (LEEFParser.parseAttributes "usrName=admin^action=login^result=success".toList
          "2.0".toList).get? "action".toList = some "login".toList ∧
      (LEEFParser.parseAttributes "usrName=admin^action=login^result=success".toList
          "2.0".toList).get? "result".toList = some "success".toList ∧
      (LEEFParser.parseAttributes "usrName=admin^action=login^result=success".toList
          "2.0".toList).keys.length = 3 ∧
      (v = "2.0".toList → Contains a "x09".toList = true →
        ∃ segs : List Str, a = Join segs "x09".toList ∧
          (∀ g ∈ segs, Contains g "x09".toList = false) ∧
          LEEFParser.parseAttributes a v =
            attributesOfParts (splitRune '\t' (Join segs "\t".toList))) ∧
      (v = "2.0".toList → Contains a "x09".toList = false → Contains a "^".toList = true →
        LEEFParser.parseAttributes a v = attributesOfParts (splitRune '^' a)) ∧
      ((v ≠ "2.0".toList ∨ (Contains a "x09".toList = false ∧ Contains a "^".toList = false)) →
        LEEFParser.parseAttributes a v = attributesOfParts (splitRune '\t' a)) ∧
      (∀ (sep : Char) (s : Str),
        Join (splitRune sep s) [sep] = s ∧ ∀ t ∈ splitRune sep s, sep ∉ t) ∧
      (∀ part : Str, '=' ∉ part → keyValueOf part = none) ∧
      (∀ part k val : Str, keyValueOf part = some (k, val) →
        ∃ l r l' r' : Str, part = (l ++ k ++ r) ++ '=' :: (l' ++ val ++ r') ∧
          '=' ∉ l ++ k ++ r ∧
          (∀ c ∈ l, isSpace c = true) ∧ (∀ c ∈ r, isSpace c = true) ∧
          (∀ c ∈ l', isSpace c = true) ∧ (∀ c ∈ r', isSpace c = true) ∧
          (∀ c ∈ k.head?, isSpace c = false) ∧ (∀ c ∈ k.getLast?, isSpace c = false) ∧
          (∀ c ∈ val.head?, isSpace c = false) ∧ (∀ c ∈ val.getLast?, isSpace c = false)) ∧
      LEEFParser.parseAttributes "usrName=adminx09action=loginx09result=success".toList
          "2.0".toList =
        [("result".toList, "success".toList), ("action".toList, "login".toList),
          ("usrName".toList, "admin".toList)] ∧
      LEEFParser.parseAttributes "a=1x09b=2^c=3\td=4".toList "2.0".toList =
        [("d".toList, "4".toList), ("b".toList, "2^c=3".toList), ("a".toList, "1".toList)] ∧
      LEEFParser.parseAttributes "a=1x09b=2".toList "1.0".toList =
        [("a".toList, "1x09b=2".toList)] ∧
      LEEFParser.parseAttributes " usrName =  admin \t action= log in\t\tnote".toList
          "1.0".toList =
        [("action".toList, "log in".toList), ("usrName".toList, "admin".toList)] := by
  have hmain : LEEFParser.parseAttributes a v = attributesOfParts (leefPartsRule v a) := by
    unfold LEEFParser.parseAttributes attributesOfParts leefPartsRule
    simp only [parser.LEEFParser.parseAttributesLoop_eq]
    by_cases hv : v = ['2', '.', '0']
    · by_cases hx : Contains a ['x', '0', '9'] = true
      · simp [hv, hx]
      · by_cases hc : Contains a ['^'] = true
        · simp [hv, hx, hc]
        · simp [hv, hx, hc]
    · simp [hv]
  refine ⟨hmain, by decide, by decide, by decide, by decide, by decide, by decide, ?_, ?_, ?_,
    fun sep s => ⟨Go.join_splitRune sep s, Go.splitRune_no_sep sep s⟩, ?_,
    Spec.keyValueOf_spec, by decide, by decide, by decide, by decide⟩
  · intro hv hx
    obtain ⟨segs, h1, h2, h3⟩ := Go.ReplaceAll_spec a "x09".toList "\t".toList (by decide)
    refine ⟨segs, h1, h3, ?_⟩
    rw [hmain, ← h2]
    unfold leefPartsRule
    rw [if_pos ⟨hv, hx⟩]
  · intro hv hx hc
    rw [hmain]
    unfold leefPartsRule
    rw [if_neg (by rw [hx]; simp), if_pos ⟨hv, hc⟩]
  · intro h
    rw [hmain]
    unfold leefPartsRule
    rcases h with h | ⟨hx, hc⟩
    · rw [if_neg (fun hh => h hh.1), if_neg (fun hh => h hh.1)]
    · rw [if_neg (by rw [hx]; simp), if_neg (by rw [hc]; simp)]
  · intro part hp
    unfold keyValueOf
    rw [if_neg hp]

end Loggerv2
